import Mathlib

/-!
# FRNN grid (CPU path): shallow embedding of `frnn/csrc/grid/grid_cpu.cpp`

Conventions of the embedding.

* `float` values are exact rationals (`ℚ`), `int`/`long` values are unbounded
  integers (`ℤ`): the development is about exact arithmetic without overflow.
* A tensor is a nested list; `t[n]` is a row view.  An element access outside
  the bounds of its row is undefined behaviour in C++ and is `none` here, so
  every operation returns an `Option`.
* `std::priority_queue<std::tuple<float, int>>` is the list of its elements in
  descending tuple order: `top` is the head, `pop` drops the head, `emplace`
  inserts in order.
-/

namespace FRNN

/-! ## Definitions -/

/-- CUDA `float3`. -/
structure float3 where
  x : ℚ
  y : ℚ
  z : ℚ
deriving DecidableEq

/-- CUDA `int3`. -/
structure int3 where
  x : ℤ
  y : ℤ
  z : ℤ
deriving DecidableEq

/-- Modelled from the spec: `grid.h` (the declaration of `GridParams`) is not part of the
sources; the record carries the fields that `grid_cpu.cpp` reads: the grid origin
`grid_min`, the inverse cell size `grid_delta`, the per-axis resolution `grid_res` and the
total cell count `grid_total`. -/
structure GridParams where
  grid_min : float3
  grid_delta : ℚ
  grid_res : int3
  grid_total : ℤ
deriving DecidableEq

/-- The C++ conversion `(int)v` of a floating value: the fractional part is discarded
(rounding toward zero). -/
def castInt (v : ℚ) : ℤ := if 0 ≤ v then ⌊v⌋ else ⌈v⌉

/-- Read `a[i]` for a C++ `int` index; `none` outside the bounds. -/
def getAt {α : Type} (a : List α) (i : ℤ) : Option α :=
  if 0 ≤ i then a[i.toNat]? else none

/-- Write `a[i] = v` for a C++ `int` index; `none` outside the bounds. -/
def setAt {α : Type} (a : List α) (i : ℤ) (v : α) : Option (List α) :=
  if 0 ≤ i ∧ i.toNat < a.length then some (a.set i.toNat v) else none

/-- The values `lo, lo+1, ..., hi-1` taken by `for (int v = lo; v < hi; ++v)`. -/
def intRange (lo hi : ℤ) : List ℤ :=
  (List.range (hi - lo).toNat).map (fun (i : ℕ) => lo + (i : ℤ))

/-- Function `GetGridCell`: the grid coordinate written to `gc` and the returned flat cell id.
The `float` subtraction and product are taken without rounding and the `int` flat id
without overflow. -/
def GetGridCell (x y z : ℚ) (params : GridParams) : int3 × ℤ :=
  let gc : int3 :=
    { x := castInt ((x - params.grid_min.x) * params.grid_delta)
      y := castInt ((y - params.grid_min.y) * params.grid_delta)
      z := castInt ((z - params.grid_min.z) * params.grid_delta) }
  (gc, (gc.x * params.grid_res.y + gc.y) * params.grid_res.z + gc.z)

/-- Row `n` of the five tensors that `InsertPointsCPU` updates. -/
structure InsertRow where
  grid : List ℤ
  grid_cnt : List ℤ
  grid_cell : List ℤ
  grid_next : List ℤ
  grid_idx : List ℤ
deriving DecidableEq

/-- The five output tensors of `InsertPointsCPU`. -/
structure InsertState where
  grid : List (List ℤ)
  grid_cnt : List (List ℤ)
  grid_cell : List (List ℤ)
  grid_next : List (List ℤ)
  grid_idx : List (List ℤ)
deriving DecidableEq

/-- Body of the inner loop of `InsertPointsCPU` (lines 37-43) for point `p` of batch
element `n`, acting on the row views of that batch element. -/
def insertStep (params : List GridParams) (n : ℕ) (pts : List float3)
    (s : InsertRow) (p : ℕ) : Option InsertRow := do
  let pt ← pts[p]?
  let prm ← params[n]?
  let gs := (GetGridCell pt.x pt.y pt.z prm).2
  let grid_cell ← setAt s.grid_cell p gs
  let head ← getAt s.grid gs
  let grid_next ← setAt s.grid_next p head
  let cnt ← getAt s.grid_cnt gs
  let grid_idx ← setAt s.grid_idx p cnt
  let grid ← setAt s.grid gs p
  let grid_cnt ← setAt s.grid_cnt gs (cnt + 1)
  pure { grid := grid, grid_cnt := grid_cnt, grid_cell := grid_cell,
         grid_next := grid_next, grid_idx := grid_idx }

/-- The loop `for (int p = 0; p < lengths_a[n]; ++p)` of `InsertPointsCPU`. -/
def insertRow (params : List GridParams) (n : ℕ) (pts : List float3) (len : ℤ)
    (s : InsertRow) : Option InsertRow :=
  (List.range len.toNat).foldlM (insertStep params n pts) s

/-- Row views of batch element `n` (an absent row has no element). -/
def InsertState.row (s : InsertState) (n : ℕ) : InsertRow :=
  { grid := s.grid.getD n [], grid_cnt := s.grid_cnt.getD n [],
    grid_cell := s.grid_cell.getD n [], grid_next := s.grid_next.getD n [],
    grid_idx := s.grid_idx.getD n [] }

/-- Store the row views of batch element `n` back into the tensors. -/
def InsertState.setRow (s : InsertState) (n : ℕ) (r : InsertRow) : InsertState :=
  { grid := s.grid.set n r.grid, grid_cnt := s.grid_cnt.set n r.grid_cnt,
    grid_cell := s.grid_cell.set n r.grid_cell, grid_next := s.grid_next.set n r.grid_next,
    grid_idx := s.grid_idx.set n r.grid_idx }

/-- Body of the outer loop of `InsertPointsCPU` for batch element `n`. -/
def insertBatch (points : List (List float3)) (lengths : List ℤ)
    (params : List GridParams) (s : InsertState) (n : ℕ) : Option InsertState := do
  let len ← lengths[n]?
  let r ← insertRow params n (points.getD n []) len (s.row n)
  pure (s.setRow n r)

/-- Function `InsertPointsCPU`: the tensors `grid`, `grid_cnt`, `grid_cell`, `grid_next`, `grid_idx`
are passed in `s` and returned updated; `N = points.size(0)`. -/
def InsertPointsCPU (points : List (List float3)) (lengths : List ℤ)
    (s : InsertState) (params : List GridParams) : Option InsertState :=
  (List.range points.length).foldlM (insertBatch points lengths params) s

/-- Contents of the `std::priority_queue<std::tuple<float, int>>` of one query, greatest
tuple first. -/
abbrev Heap := List (ℚ × ℤ)

/-- The `operator<` of `std::tuple<float, int>`: lexicographic. -/
def tupleLt (a b : ℚ × ℤ) : Prop := a.1 < b.1 ∨ (a.1 = b.1 ∧ a.2 < b.2)

instance (a b : ℚ × ℤ) : Decidable (tupleLt a b) := by
  unfold tupleLt; infer_instance

/-- Operation `q.emplace(d, i)`: the new tuple takes its place in the descending order. -/
def heapPush (t : ℚ × ℤ) : Heap → Heap
  | [] => [t]
  | h :: q => if tupleLt t h then h :: heapPush t q else t :: h :: q

/-- Operation `q.top()`: the greatest tuple; undefined on an empty queue. -/
def heapTop (q : Heap) : Option (ℚ × ℤ) := q.head?

/-- Operation `q.pop()`: removes the greatest tuple; undefined on an empty queue. -/
def heapPop : Heap → Option Heap
  | [] => none
  | _ :: q => some q

/-- The squared distance computed at lines 140-144, taken without rounding. -/
def sqDist (pt cur : float3) : ℚ :=
  let diff : float3 := { x := pt.x - cur.x, y := pt.y - cur.y, z := pt.z - cur.z }
  diff.x * diff.x + diff.y * diff.y + diff.z * diff.z

/-- Body of the loop over `p2` (lines 140-153) on the rows of one batch element. -/
def visitPoint (points2 : List float3) (sorted_point_idx : List ℤ) (K : ℤ) (r2 : ℚ)
    (cur_point : float3) (q : Heap) (p2 : ℤ) : Option Heap := do
  let pt ← getAt points2 p2
  let sqdist := sqDist pt cur_point
  if sqdist ≤ r2 then
    let size : ℤ := (q.length : ℤ)
    if size < K then do
      let i ← getAt sorted_point_idx p2
      pure (heapPush (sqdist, i) q)
    else do
      let t ← heapTop q
      if sqdist < t.1 then do
        let i ← getAt sorted_point_idx p2
        heapPop (heapPush (sqdist, i) q)
      else pure q
  else pure q

/-- The bounds `p2_start`, `p2_end` of a cell (lines 132-138). -/
def cellBounds (prm : GridParams) (grid_off : List ℤ) (lengths2 : List ℤ) (n : ℕ)
    (cell_idx : ℤ) : Option (ℤ × ℤ) := do
  let p2_start ← getAt grid_off cell_idx
  let p2_end ← if cell_idx + 1 = prm.grid_total then lengths2[n]?
               else getAt grid_off (cell_idx + 1)
  pure (p2_start, p2_end)

/-- Body of the innermost cell loop (lines 131-154): scan the points of one cell. -/
def visitCell (prm : GridParams) (points2 : List float3) (grid_off : List ℤ)
    (sorted_point_idx : List ℤ) (lengths2 : List ℤ) (n : ℕ) (K : ℤ) (r2 : ℚ)
    (cur_point : float3) (q : Heap) (cell_idx : ℤ) : Option Heap := do
  let b ← cellBounds prm grid_off lengths2 n cell_idx
  (intRange b.1 b.2).foldlM (visitPoint points2 sorted_point_idx K r2 cur_point) q

/-- The lower corner `min_gc` of the searched cube (lines 117-119); the `float` operations
before `std::floor` are taken without rounding. -/
def minGc (prm : GridParams) (cur_point : float3) (r : ℚ) : int3 :=
  { x := ⌊(cur_point.x - prm.grid_min.x - r) * prm.grid_delta⌋
    y := ⌊(cur_point.y - prm.grid_min.y - r) * prm.grid_delta⌋
    z := ⌊(cur_point.z - prm.grid_min.z - r) * prm.grid_delta⌋ }

/-- The upper corner `max_gc` of the searched cube (lines 120-122); the `float` operations
before `std::floor` are taken without rounding. -/
def maxGc (prm : GridParams) (cur_point : float3) (r : ℚ) : int3 :=
  { x := ⌊(cur_point.x - prm.grid_min.x + r) * prm.grid_delta⌋
    y := ⌊(cur_point.y - prm.grid_min.y + r) * prm.grid_delta⌋
    z := ⌊(cur_point.z - prm.grid_min.z + r) * prm.grid_delta⌋ }

/-- The values of `x` in `for (x = max(min_gc.x, 0); x <= min(max_gc.x, res.x - 1); ++x)`,
and likewise for `y` and `z`. -/
def axisRange (lo hi res : ℤ) : List ℤ := intRange (max lo 0) (min hi (res - 1) + 1)

/-- The three nested cell loops of one query (lines 124-157): the queue after the scan. -/
def scanCells (prm : GridParams) (points2 : List float3) (grid_off : List ℤ)
    (sorted_point_idx : List ℤ) (lengths2 : List ℤ) (n : ℕ) (K : ℤ) (r : ℚ)
    (cur_point : float3) : Option Heap :=
  let res := prm.grid_res
  let r2 := r * r
  let min_gc := minGc prm cur_point r
  let max_gc := maxGc prm cur_point r
  (axisRange min_gc.x max_gc.x res.x).foldlM (fun q x =>
    (axisRange min_gc.y max_gc.y res.y).foldlM (fun q y =>
      (axisRange min_gc.z max_gc.z res.z).foldlM (fun q z =>
        visitCell prm points2 grid_off sorted_point_idx lengths2 n K r2 cur_point q
          ((x * res.y + y) * res.z + z)) q) q) []

/-- The loop `while (!q.empty())` (lines 158-164) on the result rows `idxs[n][p1]`,
`dists[n][p1]`: the greatest tuple goes to slot `q.size()` taken after the `pop`. -/
def drain : Heap → List ℤ × List ℚ → Option (List ℤ × List ℚ)
  | [], out => some out
  | t :: q, out => do
    let k : ℤ := (q.length : ℤ)
    let dists ← setAt out.2 k t.1
    let idxs ← setAt out.1 k t.2
    drain q (idxs, dists)

/-- The output tensors `idxs` and `dists` of `FindNbrsCPU`. -/
structure NbrsOut where
  idxs : List (List (List ℤ))
  dists : List (List (List ℚ))
deriving DecidableEq

/-- The result rows `idxs[n][p1]`, `dists[n][p1]` (an absent row has no slot). -/
def NbrsOut.row (o : NbrsOut) (n p1 : ℕ) : List ℤ × List ℚ :=
  ((o.idxs.getD n []).getD p1 [], (o.dists.getD n []).getD p1 [])

/-- Store the result rows `idxs[n][p1]`, `dists[n][p1]`. -/
def NbrsOut.setRow (o : NbrsOut) (n p1 : ℕ) (r : List ℤ × List ℚ) : NbrsOut :=
  { idxs := o.idxs.set n ((o.idxs.getD n []).set p1 r.1)
    dists := o.dists.set n ((o.dists.getD n []).set p1 r.2) }

/-- Body of the loop over the queries `p1` of batch element `n` (lines 111-164). -/
def queryStep (points1 : List float3) (points2 : List float3) (lengths2 : List ℤ)
    (grid_off : List ℤ) (sorted_point_idx : List ℤ) (prm : GridParams) (K : ℤ) (r : ℚ)
    (n : ℕ) (o : NbrsOut) (p1 : ℕ) : Option NbrsOut := do
  let cur_point ← points1[p1]?
  let q ← scanCells prm points2 grid_off sorted_point_idx lengths2 n K r cur_point
  let row ← drain q (o.row n p1)
  pure (o.setRow n p1 row)

/-- Body of the loop over the batch elements `n` (lines 106-165). -/
def batchStep (points1 points2 : List (List float3)) (lengths1 lengths2 : List ℤ)
    (grid_off sorted_point_idx : List (List ℤ)) (params : List GridParams) (K : ℤ) (r : ℚ)
    (o : NbrsOut) (n : ℕ) : Option NbrsOut := do
  let prm ← params[n]?
  let len1 ← lengths1[n]?
  (List.range len1.toNat).foldlM
    (queryStep (points1.getD n []) (points2.getD n []) lengths2 (grid_off.getD n [])
      (sorted_point_idx.getD n []) prm K r n) o

/-- Allocation `at::full({N, P1, K}, v)`: the allocation fails for a negative size. -/
def full3 {α : Type} (N P1 : ℕ) (K : ℤ) (v : α) : Option (List (List (List α))) :=
  if K < 0 then none
  else some (List.replicate N (List.replicate P1 (List.replicate K.toNat v)))

/-- Function `FindNbrsCPU`, with `N = points1.size(0)` and `P1 = points1.size(1)`; `points2` is the
reference tensor in sorted layout. -/
def FindNbrsCPU (points1 points2 : List (List float3)) (lengths1 lengths2 : List ℤ)
    (grid_off sorted_point_idx : List (List ℤ)) (params : List GridParams) (K : ℤ)
    (r : ℚ) : Option NbrsOut := do
  let N := points1.length
  let P1 := (points1.headD []).length
  let idxs ← full3 N P1 K (-1 : ℤ)
  let dists ← full3 N P1 K (-1 : ℚ)
  (List.range N).foldlM
    (batchStep points1 points2 lengths1 lengths2 grid_off sorted_point_idx params K r)
    { idxs := idxs, dists := dists }

/-- The cell id that `InsertPointsCPU` computes for point `p` of batch element `n`. -/
def cellId (params : List GridParams) (n : ℕ) (pts : List float3) (p : ℕ) : ℤ :=
  match pts[p]?, params[n]? with
  | some pt, some prm => (GetGridCell pt.x pt.y pt.z prm).2
  | _, _ => -1

/-- Number of the points `p < m` whose cell id is `c`. -/
def cellCount (g : ℕ → ℤ) (m : ℕ) (c : ℤ) : ℕ :=
  (List.range m).countP (fun p => decide (g p = c))

/-- The last point `p < m` whose cell id is `c`, or `v` when there is none. -/
def lastOf (g : ℕ → ℤ) : ℕ → ℤ → ℤ → ℤ
  | 0, _, v => v
  | m + 1, c, v => if g m = c then (m : ℤ) else lastOf g m c v

/-- The state of the rows of one batch element after the first `m` points, in terms of the
state `s0` before the loop and of the cell ids `g`. -/
structure InsertInv (g : ℕ → ℤ) (s0 s : InsertRow) (m : ℕ) : Prop where
  len_grid : s.grid.length = s0.grid.length
  len_cnt : s.grid_cnt.length = s0.grid_cnt.length
  len_cell : s.grid_cell.length = s0.grid_cell.length
  len_next : s.grid_next.length = s0.grid_next.length
  len_idx : s.grid_idx.length = s0.grid_idx.length
  inb : ∀ p, p < m → 0 ≤ g p ∧ (g p).toNat < s0.grid.length ∧
    (g p).toNat < s0.grid_cnt.length ∧ p < s0.grid_cell.length ∧
    p < s0.grid_next.length ∧ p < s0.grid_idx.length
  cell : ∀ p, s.grid_cell[p]? = if p < m then some (g p) else s0.grid_cell[p]?
  cnt : ∀ c : ℕ, s.grid_cnt[c]? = (s0.grid_cnt[c]?).map (fun v => v + (cellCount g m c : ℤ))
  idx : ∀ p, s.grid_idx[p]? =
    if p < m then some (s0.grid_cnt.getD (g p).toNat 0 + (cellCount g p (g p) : ℤ))
    else s0.grid_idx[p]?
  head : ∀ c : ℕ, s.grid[c]? = (s0.grid[c]?).map (fun v => lastOf g m c v)
  next : ∀ p, s.grid_next[p]? =
    if p < m then some (lastOf g p (g p) (s0.grid.getD (g p).toNat 0))
    else s0.grid_next[p]?

/-- Exclusive prefix sum of a count function: `offsetOf f c = f 0 + ... + f (c-1)`. -/
def offsetOf (f : ℕ → ℕ) : ℕ → ℕ
  | 0 => 0
  | c + 1 => offsetOf f c + f c

/-- Every access of `InsertPointsCPU` is inside the bounds of its tensor: there is a length
for every batch element and, for every valid point `p` of batch element `n`, the point is
readable, `params[n]` exists, the cell id is a valid column of `grid[n]` and `grid_cnt[n]`,
and `p` is a valid column of `grid_cell[n]`, `grid_next[n]`, `grid_idx[n]`. -/
def InsertInBounds (points : List (List float3)) (lengths : List ℤ) (s : InsertState)
    (params : List GridParams) : Prop :=
  points.length ≤ lengths.length ∧
  ∀ n, n < points.length → ∀ p, p < (lengths.getD n 0).toNat →
    p < (points.getD n []).length ∧ n < params.length ∧
    0 ≤ cellId params n (points.getD n []) p ∧
    (cellId params n (points.getD n []) p).toNat < (s.grid.getD n []).length ∧
    (cellId params n (points.getD n []) p).toNat < (s.grid_cnt.getD n []).length ∧
    p < (s.grid_cell.getD n []).length ∧ p < (s.grid_next.getD n []).length ∧
    p < (s.grid_idx.getD n []).length

instance (points : List (List float3)) (lengths : List ℤ) (s : InsertState)
    (params : List GridParams) : Decidable (InsertInBounds points lengths s params) := by
  unfold InsertInBounds; infer_instance

/-- The entry `grid_cell[n][p]`. -/
def cellOut (o : InsertState) (n p : ℕ) : ℤ := (o.grid_cell.getD n []).getD p (-1)

/-- The entry `grid_idx[n][p]`. -/
def rankOut (o : InsertState) (n p : ℕ) : ℤ := (o.grid_idx.getD n []).getD p (-1)

/-- The entry `grid_cnt[n][c]`. -/
def cntOut (o : InsertState) (n c : ℕ) : ℤ := (o.grid_cnt.getD n []).getD c 0

/-- Modelled from the spec: `SetupGridParams` is declared in `grid.h` and defined outside
the sources. Following section 4.1 of the specification: origin = bbox min, inverse cell
size = 1/cell_size, per-axis resolution = ceil((max-min)/cell_size) clamped to at least 1,
total = product of the resolutions; it fails for a cell size `≤ 0` or a box with
`max < min` on some axis. -/
def SetupGridParams (bbox_min bbox_max : float3) (cell_size : ℚ) : Option GridParams :=
  if cell_size ≤ 0 ∨ bbox_max.x < bbox_min.x ∨ bbox_max.y < bbox_min.y
      ∨ bbox_max.z < bbox_min.z then none
  else
    let res : int3 :=
      { x := max 1 ⌈(bbox_max.x - bbox_min.x) / cell_size⌉
        y := max 1 ⌈(bbox_max.y - bbox_min.y) / cell_size⌉
        z := max 1 ⌈(bbox_max.z - bbox_min.z) / cell_size⌉ }
    some { grid_min := bbox_min, grid_delta := 1 / cell_size, grid_res := res,
           grid_total := res.x * res.y * res.z }

/-- The queue lists its tuples in descending order. -/
def HeapSorted (q : Heap) : Prop := q.Pairwise (fun a b => ¬ tupleLt a b)

/-- The possible effects of `visitPoint` on the queue. -/
def VisitEffect (spi : List ℤ) (K : ℤ) (r2 : ℚ) (cur : float3)
    (q : Heap) (p2 : ℤ) (q' : Heap) (pt : float3) : Prop :=
  (¬ sqDist pt cur ≤ r2 ∧ q' = q) ∨
  (sqDist pt cur ≤ r2 ∧ (q.length : ℤ) < K ∧
    ∃ i, getAt spi p2 = some i ∧ q' = heapPush (sqDist pt cur, i) q) ∨
  (sqDist pt cur ≤ r2 ∧ ¬ (q.length : ℤ) < K ∧
    ∃ h rest, q = h :: rest ∧
      ((¬ sqDist pt cur < h.1 ∧ q' = q) ∨
       (sqDist pt cur < h.1 ∧ ∃ i, getAt spi p2 = some i ∧
          q' = heapPush (sqDist pt cur, i) rest)))

/-- The result rows of query `p1`: the queue of the cell scan drained into the rows `init`. -/
def queryRows (points1 : List float3) (points2 : List float3) (lengths2 : List ℤ)
    (grid_off : List ℤ) (sorted_point_idx : List ℤ) (prm : GridParams) (K : ℤ) (r : ℚ)
    (n : ℕ) (init : List ℤ × List ℚ) (p1 : ℕ) : Option (List ℤ × List ℚ) :=
  (points1[p1]?).bind (fun cur_point =>
    (scanCells prm points2 grid_off sorted_point_idx lengths2 n K r cur_point).bind
      (fun q => drain q init))

/-- A result row in which every slot holds the sentinel. -/
def sentinelRows (K : ℤ) : List ℤ × List ℚ :=
  (List.replicate K.toNat (-1), List.replicate K.toNat (-1))

/-- The rows of the freshly allocated output tensors. -/
def initRows (N P1 : ℕ) (K : ℤ) (n p1 : ℕ) : List ℤ × List ℚ :=
  if n < N ∧ p1 < P1 then sentinelRows K else ([], [])

/-- The flat ids of the cells visited for a query, in the order of the three nested loops. -/
def cellList (prm : GridParams) (cur_point : float3) (r : ℚ) : List ℤ :=
  (axisRange (minGc prm cur_point r).x (maxGc prm cur_point r).x prm.grid_res.x).flatMap
    (fun x =>
      (axisRange (minGc prm cur_point r).y (maxGc prm cur_point r).y prm.grid_res.y).flatMap
        (fun y =>
          (axisRange (minGc prm cur_point r).z (maxGc prm cur_point r).z prm.grid_res.z).map
            (fun z => (x * prm.grid_res.y + y) * prm.grid_res.z + z)))

/-- The sorted positions scanned in a cell. -/
def cellPositions (prm : GridParams) (grid_off : List ℤ) (lengths2 : List ℤ) (n : ℕ)
    (c : ℤ) : List ℤ :=
  match cellBounds prm grid_off lengths2 n c with
  | some b => intRange b.1 b.2
  | none => []

/-- The sorted positions scanned for a query, in scan order. -/
def scanList (prm : GridParams) (grid_off : List ℤ) (lengths2 : List ℤ) (n : ℕ)
    (cur_point : float3) (r : ℚ) : List ℤ :=
  (cellList prm cur_point r).flatMap (cellPositions prm grid_off lengths2 n)

/-- The point stored at position `i` lies within the radius of the query. -/
def withinR (points2 : List float3) (cur : float3) (r2 : ℚ) (i : ℤ) : Bool :=
  match getAt points2 i with
  | some pt => decide (sqDist pt cur ≤ r2)
  | none => false

/-- The state of the queue after the positions `done` have been scanned. -/
structure ScanInv (points2 : List float3) (spi : List ℤ) (K : ℤ) (r2 : ℚ) (cur : float3)
    (done : List ℤ) (q : Heap) : Prop where
  sorted : HeapSorted q
  len : (q.length : ℤ) = min (max K 0) ((done.countP (withinR points2 cur r2) : ℕ) : ℤ)
  sound : ∀ e, e ∈ q → ∃ i, i ∈ done ∧ ∃ pt, getAt points2 i = some pt ∧
    getAt spi i = some e.2 ∧ e.1 = sqDist pt cur ∧ e.1 ≤ r2
  complete : ∀ i, i ∈ done → ∀ pt idx, getAt points2 i = some pt → getAt spi i = some idx →
    sqDist pt cur ≤ r2 →
    (sqDist pt cur, idx) ∈ q ∨ (K ≤ (q.length : ℤ) ∧ ∀ h, h ∈ q → h.1 ≤ sqDist pt cur)

/-- Position `i` of the sorted layout is scanned for the query point `cur`: it lies between
`p2_start` and `p2_end` of a cell `(x, y, z)` inside the clamped cube of the query. -/
def Scanned (prm : GridParams) (grid_off : List ℤ) (lengths2 : List ℤ) (n : ℕ)
    (cur : float3) (r : ℚ) (i : ℤ) : Prop :=
  ∃ x y z : ℤ,
    (max (minGc prm cur r).x 0 ≤ x ∧ x ≤ min (maxGc prm cur r).x (prm.grid_res.x - 1)) ∧
    (max (minGc prm cur r).y 0 ≤ y ∧ y ≤ min (maxGc prm cur r).y (prm.grid_res.y - 1)) ∧
    (max (minGc prm cur r).z 0 ≤ z ∧ z ≤ min (maxGc prm cur r).z (prm.grid_res.z - 1)) ∧
    ∃ b, cellBounds prm grid_off lengths2 n ((x * prm.grid_res.y + y) * prm.grid_res.z + z)
        = some b ∧ b.1 ≤ i ∧ i < b.2

/-- The rows written from a queue `q` into `Kn` sentinel slots. -/
def rowsOf (q : Heap) (Kn : ℕ) : List ℤ × List ℚ :=
  (q.reverse.map Prod.snd ++ List.replicate (Kn - q.length) (-1),
   q.reverse.map Prod.fst ++ List.replicate (Kn - q.length) (-1))

/-- The point stored at index `i` of a row of points (the origin when there is none). -/
def pointAt (points2 : List float3) (i : ℕ) : float3 := points2.getD i ⟨0, 0, 0⟩

/-- The flat cell id that `GetGridCell` gives to the reference point at sorted position
`i`. -/
def refCell (prm : GridParams) (points2 : List float3) (i : ℕ) : ℤ :=
  (GetGridCell (pointAt points2 i).x (pointAt points2 i).y (pointAt points2 i).z prm).2

/-- The grid coordinate that `GetGridCell` gives to a point lies in `[0, res)` on each
axis. -/
def InGrid (prm : GridParams) (pt : float3) : Prop :=
  (0 ≤ (GetGridCell pt.x pt.y pt.z prm).1.x ∧
    (GetGridCell pt.x pt.y pt.z prm).1.x < prm.grid_res.x) ∧
  (0 ≤ (GetGridCell pt.x pt.y pt.z prm).1.y ∧
    (GetGridCell pt.x pt.y pt.z prm).1.y < prm.grid_res.y) ∧
  (0 ≤ (GetGridCell pt.x pt.y pt.z prm).1.z ∧
    (GetGridCell pt.x pt.y pt.z prm).1.z < prm.grid_res.z)

instance (prm : GridParams) (pt : float3) : Decidable (InGrid prm pt) := by
  unfold InGrid; infer_instance

/-- The sorted layout of one batch element is well formed: `grid_total` is the product of
the resolutions; `len2` valid reference points and their original indices are stored;
`grid_off` is the exclusive prefix sum of the per-cell counts of the valid reference points;
every valid reference point has its grid coordinate in `[0, res)` and is stored inside the
range `[grid_off[c], grid_off[c] + count[c])` of its cell `c`. -/
def SortedLayout (prm : GridParams) (points2 : List float3) (len2 : ℤ)
    (grid_off sorted_point_idx : List ℤ) : Prop :=
  prm.grid_total = prm.grid_res.x * prm.grid_res.y * prm.grid_res.z ∧
  0 ≤ len2 ∧ len2.toNat ≤ points2.length ∧ len2.toNat ≤ sorted_point_idx.length ∧
  (∀ c, c < prm.grid_total.toNat → grid_off[c]? = some
    ((offsetOf (fun c' => cellCount (refCell prm points2) len2.toNat (c' : ℤ)) c : ℕ) : ℤ)) ∧
  (∀ i, i < len2.toNat → InGrid prm (pointAt points2 i) ∧
    grid_off.getD (refCell prm points2 i).toNat 0 ≤ (i : ℤ) ∧
    (i : ℤ) < grid_off.getD (refCell prm points2 i).toNat 0
      + (cellCount (refCell prm points2) len2.toNat (refCell prm points2 i) : ℤ))

instance (prm : GridParams) (points2 : List float3) (len2 : ℤ)
    (grid_off sorted_point_idx : List ℤ) :
    Decidable (SortedLayout prm points2 len2 grid_off sorted_point_idx) := by
  unfold SortedLayout; infer_instance

/-- The facts about a well-formed layout in the form used by the proofs. -/
structure LayoutFacts (prm : GridParams) (points2 : List float3) (len2 : ℤ)
    (grid_off spi : List ℤ) (f : ℕ → ℕ) : Prop where
  f_def : ∀ c : ℕ, f c = cellCount (refCell prm points2) len2.toNat (c : ℤ)
  total_eq : prm.grid_total = prm.grid_res.x * prm.grid_res.y * prm.grid_res.z
  len_nonneg : 0 ≤ len2
  pts : ∀ i, i < len2.toNat → points2[i]? = some (pointAt points2 i)
  idx : ∀ i, i < len2.toNat → ∃ j, spi[i]? = some j
  cell_range : ∀ i, i < len2.toNat →
    0 ≤ refCell prm points2 i ∧ (refCell prm points2 i).toNat < prm.grid_total.toNat
  sum_eq : offsetOf f prm.grid_total.toNat = len2.toNat
  off : ∀ c : ℤ, 0 ≤ c → c < prm.grid_total →
    getAt grid_off c = some ((offsetOf f c.toNat : ℕ) : ℤ)
  placed : ∀ i, i < len2.toNat →
    offsetOf f (refCell prm points2 i).toNat ≤ i ∧
    i < offsetOf f (refCell prm points2 i).toNat + f (refCell prm points2 i).toNat

instance : Inhabited GridParams := ⟨⟨⟨0, 0, 0⟩, 0, ⟨0, 0, 0⟩, 0⟩⟩

/-- The inputs of `FindNbrsCPU` are well formed: there are parameters and lengths for every
batch element, the valid queries of a batch element are stored in its row of `points1`
(within `P1 = points1.size(1)`), and the sorted layout of every batch element is well
formed. -/
def FindWellFormed (points1 points2 : List (List float3)) (lengths1 lengths2 : List ℤ)
    (grid_off sorted_point_idx : List (List ℤ)) (params : List GridParams) : Prop :=
  points1.length ≤ params.length ∧ points1.length ≤ lengths1.length ∧
  points1.length ≤ lengths2.length ∧
  ∀ n, n < points1.length →
    (lengths1.getD n 0).toNat ≤ (points1.getD n []).length ∧
    (lengths1.getD n 0).toNat ≤ (points1.headD []).length ∧
    SortedLayout (params.getD n default) (points2.getD n []) (lengths2.getD n 0)
      (grid_off.getD n []) (sorted_point_idx.getD n [])

instance (points1 points2 : List (List float3)) (lengths1 lengths2 : List ℤ)
    (grid_off sorted_point_idx : List (List ℤ)) (params : List GridParams) :
    Decidable (FindWellFormed points1 points2 lengths1 lengths2 grid_off sorted_point_idx
      params) := by
  unfold FindWellFormed; infer_instance

/-- The number of valid reference points (sorted positions `i < len2`) within the radius of
the query point `cur`. -/
def withinCount (points2 : List float3) (len2 : ℤ) (cur : float3) (r : ℚ) : ℕ :=
  (List.range len2.toNat).countP (fun i => decide (sqDist (pointAt points2 i) cur ≤ r * r))

/-- Every valid reference point of the batch element has a non-negative scaled offset
`(coord - origin) * grid_delta` on each axis (for a positive `grid_delta`: the point lies at
or above the grid origin). -/
def NonnegOffsets (prm : GridParams) (points2 : List float3) (len2 : ℤ) : Prop :=
  ∀ i, i < len2.toNat →
    0 ≤ ((pointAt points2 i).x - prm.grid_min.x) * prm.grid_delta ∧
    0 ≤ ((pointAt points2 i).y - prm.grid_min.y) * prm.grid_delta ∧
    0 ≤ ((pointAt points2 i).z - prm.grid_min.z) * prm.grid_delta

instance (prm : GridParams) (points2 : List float3) (len2 : ℤ) :
    Decidable (NonnegOffsets prm points2 len2) := by
  unfold NonnegOffsets; infer_instance

/-- A grid of `3 × 1 × 1` unit cells with origin 0. -/
def exParams : GridParams :=
  { grid_min := ⟨0, 0, 0⟩, grid_delta := 1, grid_res := ⟨3, 1, 1⟩, grid_total := 3 }

/-- Two batch elements of reference points, padded to 4 points. -/
def exPoints : List (List float3) :=
  [[⟨0, 0, 0⟩, ⟨1 / 2, 0, 0⟩, ⟨2, 0, 0⟩, ⟨7, 7, 7⟩],
   [⟨5 / 2, 0, 0⟩, ⟨1, 0, 0⟩, ⟨9, 9, 9⟩, ⟨9, 9, 9⟩]]

/-- The tensors allocated by `TestInsertPointsCPU` for `N = 2`, `P = 4` and 3 cells. -/
def exInsertInit : InsertState :=
  { grid := List.replicate 2 (List.replicate 3 (-1))
    grid_cnt := List.replicate 2 (List.replicate 3 0)
    grid_cell := List.replicate 2 (List.replicate 4 (-1))
    grid_next := List.replicate 2 (List.replicate 4 (-1))
    grid_idx := List.replicate 2 (List.replicate 4 (-1)) }

/-- The reference points of `exPoints` in sorted layout. -/
def exSorted : List (List float3) :=
  [[⟨0, 0, 0⟩, ⟨1 / 2, 0, 0⟩, ⟨2, 0, 0⟩, ⟨0, 0, 0⟩],
   [⟨1, 0, 0⟩, ⟨5 / 2, 0, 0⟩, ⟨0, 0, 0⟩, ⟨0, 0, 0⟩]]

/-- Queries: one valid query in batch element 0, none in batch element 1. -/
def exQueries : List (List float3) := [[⟨0, 0, 0⟩], [⟨1, 1, 1⟩]]

/-- The offsets of the two batch elements of `exSorted`. -/
def exOff : List (List ℤ) := [[0, 2, 2], [0, 0, 1]]

/-- The original indices of the points of `exSorted`. -/
def exIdx : List (List ℤ) := [[0, 1, 2, -1], [1, 0, -1, -1]]

/-- The result of `FindNbrsCPU` on the example for `K = 3`, `r = 1/2`. -/
def exOut : NbrsOut :=
  { idxs := [[[0, 1, -1]], [[-1, -1, -1]]], dists := [[[0, 1 / 4, -1]], [[-1, -1, -1]]] }

/-- The loop that builds `h_params` (lines 56-60 and 180-184): `SetupGridParams` is called
with the box of each batch element (six floats, here its min and max corner) and the cell
size; the second component is `max_grid_total`. -/
def setupParams (bboxes : List (float3 × float3)) (cell_size : ℚ) (N : ℕ) :
    Option (List GridParams × ℤ) :=
  (List.range N).foldlM (fun (acc : List GridParams × ℤ) n => do
    let bbox ← bboxes[n]?
    let prm ← SetupGridParams bbox.1 bbox.2 cell_size
    pure (acc.1 ++ [prm], max acc.2 prm.grid_total)) ([], 0)

/-- Allocation `at::full({N, W}, v)` of the wrappers: the allocation fails for a negative
size. -/
def full2 {α : Type} (N : ℕ) (W : ℤ) (v : α) : Option (List (List α)) :=
  if W < 0 then none else some (List.replicate N (List.replicate W.toNat v))

/-- Function `TestInsertPointsCPU` (lines 48-75): returns `grid_cnt`, `grid_cell`,
`grid_idx`. -/
def TestInsertPointsCPU (bboxes : List (float3 × float3)) (points : List (List float3))
    (lengths : List ℤ) (r : ℚ) : Option (List (List ℤ) × List (List ℤ) × List (List ℤ)) := do
  let N := bboxes.length
  let P := (points.headD []).length
  let cell_size := r
  let (h_params, max_grid_total) ← setupParams bboxes cell_size N
  let grid ← full2 N max_grid_total (-1 : ℤ)
  let grid_cell ← full2 N (P : ℤ) (-1 : ℤ)
  let grid_cnt ← full2 N max_grid_total (0 : ℤ)
  let grid_next ← full2 N (P : ℤ) (-1 : ℤ)
  let grid_idx ← full2 N (P : ℤ) (-1 : ℤ)
  let s ← InsertPointsCPU points lengths
    { grid := grid, grid_cnt := grid_cnt, grid_cell := grid_cell, grid_next := grid_next,
      grid_idx := grid_idx } h_params
  pure (s.grid_cnt, s.grid_cell, s.grid_idx)

/-- Modelled from the spec: `PrefixSumCPU` is declared in `prefix_sum.h` and defined outside
the sources. Following section 4.3 of the specification, every row of offsets is the
exclusive prefix sum of the row of counts: `offset[0] = 0`, `offset[c] = sum(count[0..c))`. -/
def PrefixSumCPU (grid_cnt : List (List ℤ)) (_params : List GridParams) : List (List ℤ) :=
  grid_cnt.map (fun row => (List.range row.length).map (fun c => (row.take c).sum))

/-- Modelled from the spec: the scatter of one point by `CountingSortCPU`, following
section 4.4 of the specification: the point `p` of cell `c` and rank `k` goes to the sorted
position `offset[c] + k`. -/
def sortStep (pts : List float3) (grid_cell grid_idx grid_off : List ℤ)
    (s : List float3 × List ℤ) (p : ℕ) : Option (List float3 × List ℤ) := do
  let pt ← pts[p]?
  let c ← grid_cell[p]?
  let k ← grid_idx[p]?
  let off ← getAt grid_off c
  let sorted_points ← setAt s.1 (off + k) pt
  let sorted_index ← setAt s.2 (off + k) (p : ℤ)
  pure (sorted_points, sorted_index)

/-- Modelled from the spec: `CountingSortCPU` is declared in `counting_sort.h` and defined
outside the sources. Following section 4.4 of the specification, it scatters the valid
points of every batch element and their original indices into `sorted_points2` and
`sorted_point_idx`. -/
def CountingSortCPU (points2 : List (List float3)) (lengths2 : List ℤ)
    (grid_cell grid_idx grid_off : List (List ℤ)) (sorted_points2 : List (List float3))
    (sorted_point_idx : List (List ℤ)) : Option (List (List float3) × List (List ℤ)) :=
  (List.range points2.length).foldlM (fun (s : List (List float3) × List (List ℤ)) n => do
    let len ← lengths2[n]?
    let row ← (List.range len.toNat).foldlM
      (sortStep (points2.getD n []) (grid_cell.getD n []) (grid_idx.getD n [])
        (grid_off.getD n []))
      (s.1.getD n [], s.2.getD n [])
    pure (s.1.set n row.1, s.2.set n row.2)) (sorted_points2, sorted_point_idx)

/-- Function `TestFindNbrsCPU` (lines 170-210): the full pipeline. -/
def TestFindNbrsCPU (bboxes : List (float3 × float3)) (points1 points2 : List (List float3))
    (lengths1 lengths2 : List ℤ) (K : ℤ) (r : ℚ) : Option NbrsOut := do
  let N := points1.length
  let P2 := (points2.headD []).length
  let cell_size := r
  let (h_params, max_grid_total) ← setupParams bboxes cell_size N
  let grid ← full2 N (P2 : ℤ) (-1 : ℤ)
  let grid_next ← full2 N (P2 : ℤ) (-1 : ℤ)
  let grid_cnt ← full2 N max_grid_total (0 : ℤ)
  let grid_cell ← full2 N (P2 : ℤ) (-1 : ℤ)
  let grid_idx ← full2 N (P2 : ℤ) (-1 : ℤ)
  let s ← InsertPointsCPU points2 lengths2
    { grid := grid, grid_cnt := grid_cnt, grid_cell := grid_cell, grid_next := grid_next,
      grid_idx := grid_idx } h_params
  let grid_off := PrefixSumCPU s.grid_cnt h_params
  let sorted_points2 := List.replicate N (List.replicate P2 (⟨0, 0, 0⟩ : float3))
  let sorted_point_idx ← full2 N (P2 : ℤ) (-1 : ℤ)
  let sorted ← CountingSortCPU points2 lengths2 s.grid_cell s.grid_idx grid_off
    sorted_points2 sorted_point_idx
  FindNbrsCPU points1 sorted.1 lengths1 lengths2 grid_off sorted.2 h_params K r

/-- Two padded tensors of points hold the same points at the valid indices of the first
`N` batch elements: `a[n][p]` and `b[n][p]` are both absent or equal for
`p < lengths[n]`. -/
def AgreeValid (N : ℕ) (a b : List (List float3)) (lengths : List ℤ) : Prop :=
  ∀ n, n < N → ∀ p, p < (lengths.getD n 0).toNat → (a.getD n [])[p]? = (b.getD n [])[p]?

instance (N : ℕ) (a b : List (List float3)) (lengths : List ℤ) :
    Decidable (AgreeValid N a b lengths) := by
  unfold AgreeValid; infer_instance

/-- A grid of `2 × 1 × 1` unit cells with origin 0, as built for the box `[0, 2] × 0 × 0`
and the cell size 1. -/
def exTwoCells : GridParams :=
  { grid_min := ⟨0, 0, 0⟩, grid_delta := 1, grid_res := ⟨2, 1, 1⟩, grid_total := 2 }

/-- The candidates that left the queue, or never entered it: when the candidate of a
scanned position `a` is not in the queue, the queue is full and each of its entries is
nearer than `a`, or as far as `a` with a smaller index, or as far as `a` and scanned before
`a`. -/
def TieInv (points2 : List float3) (spi : List ℤ) (K : ℤ) (r2 : ℚ) (cur : float3)
    (done : List ℤ) (q : Heap) : Prop :=
  ∀ front a post, done = front ++ a :: post → ∀ pt idx, getAt points2 a = some pt →
    getAt spi a = some idx → sqDist pt cur ≤ r2 →
    (sqDist pt cur, idx) ∈ q ∨
    (K ≤ (q.length : ℤ) ∧ ∀ e, e ∈ q → e.1 < sqDist pt cur ∨
      (e.1 = sqDist pt cur ∧ (e.2 < idx ∨ ∃ c, c ∈ front ∧ ∃ ptc,
        getAt points2 c = some ptc ∧ getAt spi c = some e.2 ∧ e.1 = sqDist ptc cur)))

/-- The chain `p, grid_next[p], grid_next[grid_next[p]], ...` followed from a head `p` to
the sentinel `-1`; there is no result when a link is not an index of `grid_next` or when the
sentinel is not reached within `fuel` links. -/
def chainFrom (grid_next : List ℤ) : ℕ → ℤ → Option (List ℤ)
  | 0, p => if p = -1 then some [] else none
  | fuel + 1, p =>
    if p = -1 then some []
    else (getAt grid_next p).bind (fun nxt =>
      (chainFrom grid_next fuel nxt).map (fun rest => p :: rest))

/-- The points `p < k` of cell `c`, latest first. -/
def cellPoints (g : ℕ → ℤ) (c : ℤ) (k : ℕ) : List ℤ :=
  (((List.range k).filter (fun p => decide (g p = c))).reverse).map (fun (p : ℕ) => (p : ℤ))

/-- The offsets of one batch element are non-decreasing over the cells and the offset of
the last cell is at most `lengths2[n]`. -/
def MonotoneOffsets (prm : GridParams) (grid_off : List ℤ) (len2 : ℤ) : Prop :=
  prm.grid_total = prm.grid_res.x * prm.grid_res.y * prm.grid_res.z ∧
  (∀ c c' : ℕ, c ≤ c' → (c' : ℤ) < prm.grid_total →
    grid_off.getD c 0 ≤ grid_off.getD c' 0) ∧
  grid_off.getD (prm.grid_total - 1).toNat 0 ≤ len2

instance (prm : GridParams) (grid_off : List ℤ) (len2 : ℤ) :
    Decidable (MonotoneOffsets prm grid_off len2) := by
  unfold MonotoneOffsets
  have : Decidable (∀ c c' : ℕ, c ≤ c' → (c' : ℤ) < prm.grid_total →
      grid_off.getD c 0 ≤ grid_off.getD c' 0) :=
    decidable_of_iff (∀ c', c' < prm.grid_total.toNat → ∀ c, c < c' + 1 →
        grid_off.getD c 0 ≤ grid_off.getD c' 0)
      ⟨fun h c c' h1 h2 => h c' (by omega) c (by omega),
       fun h c' h2 c h1 => h c c' (by omega) (by omega)⟩
  infer_instance

/-- Map `sorted_point_idx` takes different values at different valid positions. -/
def InjectiveIdx (sorted_point_idx : List ℤ) (len2 : ℤ) : Prop :=
  ∀ i, i < len2.toNat → ∀ j, j < len2.toNat → sorted_point_idx[i]? ≠ none →
    sorted_point_idx[i]? = sorted_point_idx[j]? → i = j

instance (sorted_point_idx : List ℤ) (len2 : ℤ) :
    Decidable (InjectiveIdx sorted_point_idx len2) := by
  unfold InjectiveIdx; infer_instance

/-- The reference points of `exPoints` with other values in the padding. -/
def exPointsPad : List (List float3) :=
  [[⟨0, 0, 0⟩, ⟨1 / 2, 0, 0⟩, ⟨2, 0, 0⟩, ⟨-3, 5, 1⟩],
   [⟨5 / 2, 0, 0⟩, ⟨1, 0, 0⟩, ⟨100, 0, 0⟩, ⟨0, -8, 0⟩]]

/-- The sorted reference points of `exSorted` with other values in the padding. -/
def exSortedPad : List (List float3) :=
  [[⟨0, 0, 0⟩, ⟨1 / 2, 0, 0⟩, ⟨2, 0, 0⟩, ⟨0, 1 / 4, 0⟩],
   [⟨1, 0, 0⟩, ⟨5 / 2, 0, 0⟩, ⟨1, 1, 1⟩, ⟨-4, 0, 0⟩]]

/-- The queries of `exQueries` with another value in the padding. -/
def exQueriesPad : List (List float3) := [[⟨0, 0, 0⟩], [⟨5, 5, 5⟩]]

/-- One batch element in sorted layout: two points of cell 0 at the same distance from the
query `(1/2, 0, 0)`, and one point of cell 1. -/
def exTie : List (List float3) := [[⟨1 / 4, 0, 0⟩, ⟨3 / 4, 0, 0⟩, ⟨3 / 2, 0, 0⟩]]

/-- Power `2 ^ e` for an integer exponent. -/
def pow2 (e : ℤ) : ℚ := if 0 ≤ e then 2 ^ e.toNat else 1 / 2 ^ (-e).toNat

/-- Rounding of a rational to the nearest integer, a tie going to the even one. -/
def roundEven (v : ℚ) : ℤ :=
  if v - ⌊v⌋ < 1 / 2 then ⌊v⌋
  else if 1 / 2 < v - ⌊v⌋ then ⌊v⌋ + 1
  else if ⌊v⌋ % 2 = 0 then ⌊v⌋ else ⌊v⌋ + 1

/-- The exponent `e` with `2 ^ e ≤ v < 2 ^ (e + 1)` of a value `v ≥ 1` below `2 ^ fuel`. -/
def expoUp : ℕ → ℚ → ℤ
  | 0, _ => 0
  | fuel + 1, v => if v < 2 then 0 else expoUp fuel (v / 2) + 1

/-- The exponent `e` with `2 ^ e ≤ v < 2 ^ (e + 1)` of a value `0 < v < 1` of at least
`2 ^ (-fuel)`. -/
def expoDown : ℕ → ℚ → ℤ
  | 0, _ => 0
  | fuel + 1, v => if 1 ≤ v then 0 else expoDown fuel (v * 2) - 1

/-- The value of a `float` operation whose exact result is `v`: IEEE 754 binary32, rounding
to nearest with ties to even (24 significant bits, least exponent `-126`); overflow is not
modelled, the values below stay far from it. -/
def roundF32 (v : ℚ) : ℚ :=
  if v = 0 then 0
  else
    let e : ℤ := max (if 1 ≤ |v| then expoUp 128 |v| else expoDown 149 |v|) (-126)
    (roundEven (v / pow2 (e - 23)) : ℚ) * pow2 (e - 23)

/-- Function `GetGridCell` with the rounding of its `float` subtraction and product (the
coordinates and the parameters being `float` values). -/
def GetGridCellF32 (x y z : ℚ) (params : GridParams) : int3 × ℤ :=
  let gc : int3 :=
    { x := castInt (roundF32 (roundF32 (x - params.grid_min.x) * params.grid_delta))
      y := castInt (roundF32 (roundF32 (y - params.grid_min.y) * params.grid_delta))
      z := castInt (roundF32 (roundF32 (z - params.grid_min.z) * params.grid_delta)) }
  (gc, (gc.x * params.grid_res.y + gc.y) * params.grid_res.z + gc.z)

/-- The upper corner `max_gc` of the searched cube (lines 120-122) with the rounding of its
`float` operations. -/
def maxGcF32 (prm : GridParams) (cur_point : float3) (r : ℚ) : int3 :=
  { x := ⌊roundF32 (roundF32 (roundF32 (cur_point.x - prm.grid_min.x) + r) * prm.grid_delta)⌋
    y := ⌊roundF32 (roundF32 (roundF32 (cur_point.y - prm.grid_min.y) + r) * prm.grid_delta)⌋
    z := ⌊roundF32 (roundF32 (roundF32 (cur_point.z - prm.grid_min.z) + r) * prm.grid_delta)⌋ }

/-- The squared distance of lines 140-144 with the rounding of its `float` operations, every
operation rounded on its own, in the order of evaluation of the expression. -/
def sqDistF32 (pt cur : float3) : ℚ :=
  let diff : float3 :=
    { x := roundF32 (pt.x - cur.x), y := roundF32 (pt.y - cur.y), z := roundF32 (pt.z - cur.z) }
  roundF32 (roundF32 (roundF32 (diff.x * diff.x) + roundF32 (diff.y * diff.y))
    + roundF32 (diff.z * diff.z))

/-- The `float` nearest to `0.7`. -/
def f07 : ℚ := 11744051 / 16777216

/-- The `float` nearest to `0.1`. -/
def f01 : ℚ := 13421773 / 134217728

/-- The grid of the box `[0, 0.7f] × 0 × 0` for the cell size `0.1f`, as the `float`
evaluation of the builder formulas gives it: `1 / 0.1f` rounds to 10 and `0.7f / 0.1f`
rounds to 7. -/
def exFloatGrid : GridParams :=
  { grid_min := ⟨0, 0, 0⟩, grid_delta := 10, grid_res := ⟨7, 1, 1⟩, grid_total := 7 }

/-- A grid of `8 × 1 × 1` cells of size `0.1f` with origin `-0.125`. -/
def exFloatGrid8 : GridParams :=
  { grid_min := ⟨-1 / 8, 0, 0⟩, grid_delta := 10, grid_res := ⟨8, 1, 1⟩, grid_total := 8 }

/-- The reference point `0.7f - 0.125` of the rounding example. -/
def exFloatRef : float3 := ⟨9646899 / 16777216, 0, 0⟩

/-- The query point `0.375 + 2^-25` of the rounding example. -/
def exFloatQuery : float3 := ⟨12582913 / 33554432, 0, 0⟩

/-- The radius `0.7f - 0.5 - 2^-25` of the rounding example. -/
def exFloatRadius : ℚ := 6710885 / 33554432

/-! ## Theorems -/

/-! ### Array access -/

theorem getAt_eq_some_iff {α : Type} {a : List α} {i : ℤ} {v : α} :
    getAt a i = some v ↔ 0 ≤ i ∧ a[i.toNat]? = some v := by
  unfold getAt
  by_cases h : 0 ≤ i <;> simp [h]

theorem getAt_natCast {α : Type} (a : List α) (p : ℕ) : getAt a (p : ℤ) = a[p]? := by
  simp [getAt]

theorem setAt_eq_some_iff {α : Type} {a b : List α} {i : ℤ} {v : α} :
    setAt a i v = some b ↔ 0 ≤ i ∧ i.toNat < a.length ∧ b = a.set i.toNat v := by
  unfold setAt
  by_cases h : 0 ≤ i ∧ i.toNat < a.length
  · simp [h, eq_comm]
  · simp only [h, if_false]
    constructor
    · intro h'; cases h'
    · rintro ⟨h1, h2, -⟩; exact absurd ⟨h1, h2⟩ h

theorem setAt_natCast {α : Type} (a : List α) (p : ℕ) (v : α) :
    setAt a (p : ℤ) v = if p < a.length then some (a.set p v) else none := by
  simp [setAt]

theorem foldlM_range_succ {σ : Type} (f : σ → ℕ → Option σ) (s : σ) (m : ℕ) :
    (List.range (m + 1)).foldlM f s = ((List.range m).foldlM f s).bind (fun t => f t m) := by
  rw [List.range_succ, List.foldlM_append]
  simp only [List.foldlM_cons, List.foldlM_nil, bind_pure]
  rfl

/-! ### `InsertPointsCPU`: one row -/

theorem insertStep_eq_some_iff {params : List GridParams} {n : ℕ} {pts : List float3}
    {s s' : InsertRow} {p : ℕ} :
    insertStep params n pts s p = some s' ↔
      p < pts.length ∧ n < params.length ∧ 0 ≤ cellId params n pts p ∧
      (cellId params n pts p).toNat < s.grid.length ∧
      (cellId params n pts p).toNat < s.grid_cnt.length ∧
      p < s.grid_cell.length ∧ p < s.grid_next.length ∧ p < s.grid_idx.length ∧
      s' = { grid := s.grid.set (cellId params n pts p).toNat p
             grid_cnt := s.grid_cnt.set (cellId params n pts p).toNat
               (s.grid_cnt.getD (cellId params n pts p).toNat 0 + 1)
             grid_cell := s.grid_cell.set p (cellId params n pts p)
             grid_next := s.grid_next.set p (s.grid.getD (cellId params n pts p).toNat 0)
             grid_idx := s.grid_idx.set p (s.grid_cnt.getD (cellId params n pts p).toNat 0) } := by
  unfold insertStep cellId
  rcases hp : pts[p]? with _ | pt
  · constructor
    · intro h; cases h
    · rintro ⟨h, -⟩
      have := List.getElem?_eq_none_iff.mp hp
      omega
  rcases hn : params[n]? with _ | prm
  · constructor
    · intro h; cases h
    · rintro ⟨-, h, -⟩
      have := List.getElem?_eq_none_iff.mp hn
      omega
  have hp' : p < pts.length := by
    by_contra hc
    rw [List.getElem?_eq_none_iff.mpr (by omega)] at hp
    cases hp
  have hn' : n < params.length := by
    by_contra hc
    rw [List.getElem?_eq_none_iff.mpr (by omega)] at hn
    cases hn
  simp only [Option.bind_eq_bind, Option.some_bind, Option.pure_def]
  generalize (GetGridCell pt.x pt.y pt.z prm).2 = gs
  constructor
  · intro h
    simp only [Option.bind_eq_some, setAt_natCast, getAt_eq_some_iff, setAt_eq_some_iff] at h
    obtain ⟨c1, hc1, hd, ⟨_, hhd⟩, nx, hnx, cn, ⟨hgs, hcn⟩, ix, hix, g, ⟨_, hg1, hg⟩,
      gc, ⟨_, hgc1, hgc⟩, hs⟩ := h
    split at hc1 <;> [skip; cases hc1]
    split at hnx <;> [skip; cases hnx]
    split at hix <;> [skip; cases hix]
    injection hc1 with hc1; injection hnx with hnx; injection hix with hix
    injection hs with hs
    refine ⟨hp', hn', hgs, hg1, hgc1, ‹_›, ‹_›, ‹_›, ?_⟩
    subst hs hc1 hnx hix hg hgc
    simp [hhd, hcn]
  · rintro ⟨-, -, hgs, hg1, hgc1, h1, h2, h3, rfl⟩
    have e1 : s.grid[gs.toNat]? = some (s.grid.getD gs.toNat 0) := by
      simp [List.getElem?_eq_getElem hg1]
    have e2 : s.grid_cnt[gs.toNat]? = some (s.grid_cnt.getD gs.toNat 0) := by
      simp [List.getElem?_eq_getElem hgc1]
    have a1 : setAt s.grid_cell (p : ℤ) gs = some (s.grid_cell.set p gs) := by
      simp [setAt_natCast, h1]
    have a2 : getAt s.grid gs = some (s.grid.getD gs.toNat 0) :=
      getAt_eq_some_iff.mpr ⟨hgs, e1⟩
    have a3 : setAt s.grid_next (p : ℤ) (s.grid.getD gs.toNat 0)
        = some (s.grid_next.set p (s.grid.getD gs.toNat 0)) := by
      simp [setAt_natCast, h2]
    have a4 : getAt s.grid_cnt gs = some (s.grid_cnt.getD gs.toNat 0) :=
      getAt_eq_some_iff.mpr ⟨hgs, e2⟩
    have a5 : setAt s.grid_idx (p : ℤ) (s.grid_cnt.getD gs.toNat 0)
        = some (s.grid_idx.set p (s.grid_cnt.getD gs.toNat 0)) := by
      simp [setAt_natCast, h3]
    have a6 : setAt s.grid gs (p : ℤ) = some (s.grid.set gs.toNat (p : ℤ)) :=
      setAt_eq_some_iff.mpr ⟨hgs, hg1, rfl⟩
    have a7 : setAt s.grid_cnt gs (s.grid_cnt.getD gs.toNat 0 + 1)
        = some (s.grid_cnt.set gs.toNat (s.grid_cnt.getD gs.toNat 0 + 1)) :=
      setAt_eq_some_iff.mpr ⟨hgs, hgc1, rfl⟩
    simp only [a1, a2, a3, a4, a5, a6, a7, Option.some_bind]

theorem cellCount_zero (g : ℕ → ℤ) (c : ℤ) : cellCount g 0 c = 0 := rfl

theorem cellCount_succ (g : ℕ → ℤ) (m : ℕ) (c : ℤ) :
    cellCount g (m + 1) c = cellCount g m c + (if g m = c then 1 else 0) := by
  unfold cellCount
  rw [List.range_succ, List.countP_append]
  by_cases h : g m = c <;> simp [h]

theorem insertInv_zero (g : ℕ → ℤ) (s0 : InsertRow) : InsertInv g s0 s0 0 := by
  refine ⟨rfl, rfl, rfl, rfl, rfl, ?_, ?_, ?_, ?_, ?_, ?_⟩
  · intro p hp; omega
  · intro p; simp
  · intro c; simp [cellCount_zero]
  · intro p; simp
  · intro c; simp [lastOf]
  · intro p; simp

theorem toNat_eq_natCast_iff {i : ℤ} (hi : 0 ≤ i) (c : ℕ) : i.toNat = c ↔ i = (c : ℤ) := by
  omega

theorem insertInv_step {params : List GridParams} {n : ℕ} {pts : List float3}
    {s0 t s : InsertRow} {m : ℕ} (ht : InsertInv (cellId params n pts) s0 t m)
    (hs : insertStep params n pts t m = some s) :
    InsertInv (cellId params n pts) s0 s (m + 1) := by
  obtain ⟨-, -, hgs, hg1, hgc1, h1, h2, h3, rfl⟩ := insertStep_eq_some_iff.mp hs
  set g := cellId params n pts with hg
  have egrid : t.grid.getD (g m).toNat 0 = lastOf g m (g m) (s0.grid.getD (g m).toNat 0) := by
    have := ht.head (g m).toNat
    rw [Int.toNat_of_nonneg hgs] at this
    have h0 : (g m).toNat < s0.grid.length := ht.len_grid ▸ hg1
    simp [List.getD_eq_getElem?_getD, this, List.getElem?_eq_getElem h0]
  have ecnt : t.grid_cnt.getD (g m).toNat 0
      = s0.grid_cnt.getD (g m).toNat 0 + (cellCount g m (g m) : ℤ) := by
    have := ht.cnt (g m).toNat
    rw [Int.toNat_of_nonneg hgs] at this
    have h0 : (g m).toNat < s0.grid_cnt.length := ht.len_cnt ▸ hgc1
    simp [List.getD_eq_getElem?_getD, this, List.getElem?_eq_getElem h0]
  refine ⟨?_, ?_, ?_, ?_, ?_, ?_, ?_, ?_, ?_, ?_, ?_⟩
  · simp [ht.len_grid]
  · simp [ht.len_cnt]
  · simp [ht.len_cell]
  · simp [ht.len_next]
  · simp [ht.len_idx]
  · intro p hp
    rcases Nat.lt_succ_iff_lt_or_eq.mp hp with h | rfl
    · exact ht.inb p h
    · exact ⟨hgs, ht.len_grid ▸ hg1, ht.len_cnt ▸ hgc1, ht.len_cell ▸ h1,
        ht.len_next ▸ h2, ht.len_idx ▸ h3⟩
  · intro p
    simp only [List.getElem?_set]
    by_cases hpm : m = p
    · subst hpm; simp [h1]
    · have := ht.cell p
      by_cases hlt : p < m
      · simp [hpm, this, hlt, Nat.lt_succ_of_lt hlt]
      · have : ¬ p < m + 1 := by omega
        simp [hpm, ht.cell p, hlt, this]
  · intro c
    simp only [List.getElem?_set]
    by_cases hc : (g m).toNat = c
    · subst hc
      have hlt : (g m).toNat < s0.grid_cnt.length := ht.len_cnt ▸ hgc1
      have hcast : ((g m).toNat : ℤ) = g m := Int.toNat_of_nonneg hgs
      rw [if_pos rfl, if_pos hgc1, ecnt, hcast, cellCount_succ, if_pos rfl,
        List.getElem?_eq_getElem hlt]
      simp only [List.getD_eq_getElem?_getD, List.getElem?_eq_getElem hlt, Option.getD_some,
        Option.map_some', Nat.cast_add, Nat.cast_one]
      congr 1; ring
    · have hgc : g m ≠ (c : ℤ) := fun h => hc ((toNat_eq_natCast_iff hgs c).mpr h)
      rw [cellCount_succ]
      simp [hc, hgc, ht.cnt c]
  · intro p
    simp only [List.getElem?_set]
    by_cases hpm : m = p
    · subst hpm
      rw [if_pos rfl, if_pos h3, if_pos (Nat.lt_succ_self _), ecnt]
    · by_cases hlt : p < m
      · simp [hpm, ht.idx p, hlt, Nat.lt_succ_of_lt hlt]
      · have : ¬ p < m + 1 := by omega
        simp [hpm, ht.idx p, hlt, this]
  · intro c
    simp only [List.getElem?_set]
    by_cases hc : (g m).toNat = c
    · have hgc : g m = (c : ℤ) := (toNat_eq_natCast_iff hgs c).mp hc
      have hlt : c < s0.grid.length := by rw [← hc, ← ht.len_grid]; exact hg1
      simp [hc, hgc, lastOf, List.getElem?_eq_getElem hlt, ht.len_grid, hlt]
    · have hgc : g m ≠ (c : ℤ) := fun h => hc ((toNat_eq_natCast_iff hgs c).mpr h)
      simp [hc, hgc, ht.head c, lastOf]
  · intro p
    simp only [List.getElem?_set]
    by_cases hpm : m = p
    · subst hpm
      rw [if_pos rfl, if_pos h2, if_pos (Nat.lt_succ_self _), egrid]
    · by_cases hlt : p < m
      · simp [hpm, ht.next p, hlt, Nat.lt_succ_of_lt hlt]
      · have : ¬ p < m + 1 := by omega
        simp [hpm, ht.next p, hlt, this]

/-- The rows of a batch element after the loop over its first `m` points. -/
theorem insertRow_inv {params : List GridParams} {n : ℕ} {pts : List float3} {m : ℕ} :
    ∀ {s0 s : InsertRow}, (List.range m).foldlM (insertStep params n pts) s0 = some s →
      InsertInv (cellId params n pts) s0 s m := by
  induction m with
  | zero =>
    intro s0 s h
    simp only [List.range_zero, List.foldlM_nil, Option.pure_def, Option.some.injEq] at h
    subst h
    exact insertInv_zero _ _
  | succ m ih =>
    intro s0 s h
    rw [foldlM_range_succ, Option.bind_eq_some] at h
    obtain ⟨t, ht, hs⟩ := h
    exact insertInv_step (ih ht) hs

/-- The loop over the points of a batch element succeeds when every access is in bounds. -/
theorem insertRow_isSome {params : List GridParams} {n : ℕ} {pts : List float3} {m : ℕ}
    {s0 : InsertRow}
    (h : ∀ p, p < m → p < pts.length ∧ n < params.length ∧ 0 ≤ cellId params n pts p ∧
      (cellId params n pts p).toNat < s0.grid.length ∧
      (cellId params n pts p).toNat < s0.grid_cnt.length ∧ p < s0.grid_cell.length ∧
      p < s0.grid_next.length ∧ p < s0.grid_idx.length) :
    ∃ s, (List.range m).foldlM (insertStep params n pts) s0 = some s := by
  induction m with
  | zero => exact ⟨s0, rfl⟩
  | succ m ih =>
    obtain ⟨t, ht⟩ := ih (fun p hp => h p (Nat.lt_succ_of_lt hp))
    have inv := insertRow_inv ht
    obtain ⟨a1, a2, a3, a4, a5, a6, a7, a8⟩ := h m (Nat.lt_succ_self m)
    rw [foldlM_range_succ, ht]
    simp only [Option.some_bind]
    have : ∃ s, insertStep params n pts t m = some s := by
      refine ⟨_, insertStep_eq_some_iff.mpr ⟨a1, a2, a3, ?_, ?_, ?_, ?_, ?_, rfl⟩⟩
      · rw [inv.len_grid]; exact a4
      · rw [inv.len_cnt]; exact a5
      · rw [inv.len_cell]; exact a6
      · rw [inv.len_next]; exact a7
      · rw [inv.len_idx]; exact a8
    exact this

/-! ### `InsertPointsCPU`: the batch -/

theorem getD_set_self {α : Type} (t : List (List α)) (n : ℕ) (v : List α)
    (h : v.length = (t.getD n []).length) : (t.set n v).getD n [] = v := by
  by_cases hn : n < t.length
  · simp [List.getD_eq_getElem?_getD, List.getElem?_set, hn]
  · have h0 : t[n]? = none := List.getElem?_eq_none_iff.mpr (by omega)
    have hv : v = [] := by
      apply List.eq_nil_of_length_eq_zero
      rw [h]; simp [List.getD_eq_getElem?_getD, h0]
    simp [List.getD_eq_getElem?_getD, List.getElem?_set, hn, hv]

theorem getD_set_ne {α : Type} (t : List (List α)) {n k : ℕ} (v : List α) (h : n ≠ k) :
    (t.set n v).getD k [] = t.getD k [] := by
  simp [List.getD_eq_getElem?_getD, List.getElem?_set, h]

theorem insertState_row_setRow_self (s : InsertState) (n : ℕ) (r : InsertRow)
    (h1 : r.grid.length = (s.row n).grid.length)
    (h2 : r.grid_cnt.length = (s.row n).grid_cnt.length)
    (h3 : r.grid_cell.length = (s.row n).grid_cell.length)
    (h4 : r.grid_next.length = (s.row n).grid_next.length)
    (h5 : r.grid_idx.length = (s.row n).grid_idx.length) :
    (s.setRow n r).row n = r := by
  cases r
  simp only [InsertState.row, InsertState.setRow] at *
  rw [getD_set_self _ _ _ h1, getD_set_self _ _ _ h2, getD_set_self _ _ _ h3,
    getD_set_self _ _ _ h4, getD_set_self _ _ _ h5]

theorem insertState_row_setRow_ne (s : InsertState) {n k : ℕ} (r : InsertRow) (h : n ≠ k) :
    (s.setRow n r).row k = s.row k := by
  simp only [InsertState.row, InsertState.setRow]
  rw [getD_set_ne _ _ h, getD_set_ne _ _ h, getD_set_ne _ _ h, getD_set_ne _ _ h,
    getD_set_ne _ _ h]

/-- After the first `k` batch elements: the rows of each of them are the result of the
point loop on its initial rows, the other rows are untouched. -/
theorem insertBatch_inv {points : List (List float3)} {lengths : List ℤ}
    {params : List GridParams} {s0 : InsertState} {k : ℕ} :
    ∀ {s : InsertState},
      (List.range k).foldlM (insertBatch points lengths params) s0 = some s →
      (∀ n, n < k → ∃ len, lengths[n]? = some len ∧
        insertRow params n (points.getD n []) len (s0.row n) = some (s.row n)) ∧
      (∀ n, k ≤ n → s.row n = s0.row n) := by
  induction k with
  | zero =>
    intro s h
    simp only [List.range_zero, List.foldlM_nil, Option.pure_def, Option.some.injEq] at h
    subst h
    exact ⟨fun n hn => absurd hn (Nat.not_lt_zero n), fun _ _ => rfl⟩
  | succ k ih =>
    intro s h
    rw [foldlM_range_succ, Option.bind_eq_some] at h
    obtain ⟨t, ht, hs⟩ := h
    obtain ⟨ih1, ih2⟩ := ih ht
    unfold insertBatch at hs
    simp only [Option.bind_eq_bind, Option.bind_eq_some, Option.pure_def,
      Option.some.injEq] at hs
    obtain ⟨len, hlen, r, hr, rfl⟩ := hs
    have inv := insertRow_inv hr
    have hself : (t.setRow k r).row k = r :=
      insertState_row_setRow_self t k r inv.len_grid inv.len_cnt inv.len_cell inv.len_next
        inv.len_idx
    constructor
    · intro n hn
      rcases Nat.lt_succ_iff_lt_or_eq.mp hn with h | rfl
      · rw [insertState_row_setRow_ne t r (Nat.ne_of_gt h)]
        exact ih1 n h
      · refine ⟨len, hlen, ?_⟩
        rw [hself, ← ih2 n (Nat.le_refl n)]
        exact hr
    · intro n hn
      rw [insertState_row_setRow_ne t r (by omega)]
      exact ih2 n (by omega)

/-- Every row of the result of `InsertPointsCPU` is the result of the point loop on the
initial rows of its batch element. -/
theorem InsertPointsCPU_row {points : List (List float3)} {lengths : List ℤ}
    {params : List GridParams} {s0 out : InsertState}
    (h : InsertPointsCPU points lengths s0 params = some out) {n : ℕ}
    (hn : n < points.length) :
    ∃ len, lengths[n]? = some len ∧
      InsertInv (cellId params n (points.getD n [])) (s0.row n) (out.row n) len.toNat := by
  obtain ⟨len, hlen, hrow⟩ := (insertBatch_inv h).1 n hn
  exact ⟨len, hlen, insertRow_inv hrow⟩

/-- Function `InsertPointsCPU` succeeds when every batch element has a length and every access of
its point loop is in bounds. -/
theorem InsertPointsCPU_isSome {points : List (List float3)} {lengths : List ℤ}
    {params : List GridParams} {s0 : InsertState}
    (hlen : points.length ≤ lengths.length)
    (h : ∀ n, n < points.length → ∀ p : ℕ, (p : ℤ) < lengths.getD n 0 →
      p < (points.getD n []).length ∧ n < params.length ∧
      0 ≤ cellId params n (points.getD n []) p ∧
      (cellId params n (points.getD n []) p).toNat < (s0.row n).grid.length ∧
      (cellId params n (points.getD n []) p).toNat < (s0.row n).grid_cnt.length ∧
      p < (s0.row n).grid_cell.length ∧ p < (s0.row n).grid_next.length ∧
      p < (s0.row n).grid_idx.length) :
    ∃ out, InsertPointsCPU points lengths s0 params = some out := by
  unfold InsertPointsCPU
  have key : ∀ k, k ≤ points.length →
      ∃ s, (List.range k).foldlM (insertBatch points lengths params) s0 = some s := by
    intro k
    induction k with
    | zero => intro _; exact ⟨s0, rfl⟩
    | succ k ih =>
      intro hk
      obtain ⟨t, ht⟩ := ih (by omega)
      have hkl : k < lengths.length := by omega
      obtain ⟨r, hr⟩ : ∃ r, insertRow params k (points.getD k []) lengths[k] (t.row k)
          = some r := by
        rw [(insertBatch_inv ht).2 k (Nat.le_refl k)]
        apply insertRow_isSome
        intro p hp
        apply h k (by omega) p
        simp only [List.getD_eq_getElem?_getD, List.getElem?_eq_getElem hkl, Option.getD_some]
        omega
      refine ⟨t.setRow k r, ?_⟩
      rw [foldlM_range_succ, ht]
      simp only [Option.some_bind, insertBatch, List.getElem?_eq_getElem hkl,
        Option.bind_eq_bind, hr, Option.pure_def]
  exact key _ (Nat.le_refl _)

/-! ### Counting the points of a cell -/

theorem cellCount_mono (g : ℕ → ℤ) (c : ℤ) {m m' : ℕ} (h : m ≤ m') :
    cellCount g m c ≤ cellCount g m' c := by
  induction m' with
  | zero =>
    have : m = 0 := by omega
    subst this; exact Nat.le_refl _
  | succ k ih =>
    rcases Nat.le_succ_iff.mp h with h' | h'
    · rw [cellCount_succ]; exact Nat.le_trans (ih h') (Nat.le_add_right _ _)
    · subst h'; exact Nat.le_refl _

theorem cellCount_lt (g : ℕ → ℤ) {p m : ℕ} (h : p < m) :
    cellCount g p (g p) < cellCount g m (g p) := by
  have h1 : cellCount g (p + 1) (g p) = cellCount g p (g p) + 1 := by
    rw [cellCount_succ]; simp
  have h2 := cellCount_mono g (g p) (show p + 1 ≤ m from h)
  omega

theorem cellCount_surj (g : ℕ → ℤ) (c : ℤ) {m k : ℕ} (h : k < cellCount g m c) :
    ∃ p, p < m ∧ g p = c ∧ cellCount g p c = k := by
  induction m with
  | zero => simp [cellCount_zero] at h
  | succ m ih =>
    rw [cellCount_succ] at h
    by_cases hk : k < cellCount g m c
    · obtain ⟨p, hp, hg, hc⟩ := ih hk
      exact ⟨p, Nat.lt_succ_of_lt hp, hg, hc⟩
    · by_cases hg : g m = c
      · rw [if_pos hg] at h
        exact ⟨m, Nat.lt_succ_self m, hg, by omega⟩
      · rw [if_neg hg] at h; omega

theorem cellCount_injOn (g : ℕ → ℤ) {p p' : ℕ} (hg : g p = g p')
    (h : cellCount g p (g p) = cellCount g p' (g p')) : p = p' := by
  rcases Nat.lt_trichotomy p p' with hlt | heq | hgt
  · have := cellCount_lt g hlt
    rw [hg] at this h; omega
  · exact heq
  · have := cellCount_lt g hgt
    rw [← hg] at this h; omega

theorem offsetOf_mono (f : ℕ → ℕ) {c c' : ℕ} (h : c ≤ c') : offsetOf f c ≤ offsetOf f c' := by
  induction c' with
  | zero =>
    have : c = 0 := by omega
    subst this; exact Nat.le_refl _
  | succ k ih =>
    rcases Nat.le_succ_iff.mp h with h' | h'
    · exact Nat.le_trans (ih h') (Nat.le_add_right _ _)
    · subst h'; exact Nat.le_refl _

theorem offsetOf_succ_le (f : ℕ → ℕ) {c c' : ℕ} (h : c < c') :
    offsetOf f c + f c ≤ offsetOf f c' :=
  offsetOf_mono f (Nat.succ_le_of_lt h)

theorem offsetOf_find (f : ℕ → ℕ) {G i : ℕ} (h : i < offsetOf f G) :
    ∃ c, c < G ∧ offsetOf f c ≤ i ∧ i < offsetOf f c + f c := by
  induction G with
  | zero => simp [offsetOf] at h
  | succ G ih =>
    by_cases hi : i < offsetOf f G
    · obtain ⟨c, hc, h1, h2⟩ := ih hi
      exact ⟨c, Nat.lt_succ_of_lt hc, h1, h2⟩
    · exact ⟨G, Nat.lt_succ_self G, by omega, h⟩

theorem offsetOf_add (f h : ℕ → ℕ) (G : ℕ) :
    offsetOf (fun c => f c + h c) G = offsetOf f G + offsetOf h G := by
  induction G with
  | zero => rfl
  | succ G ih => simp only [offsetOf, ih]; omega

theorem offsetOf_indicator (c0 : ℤ) (G : ℕ) :
    offsetOf (fun c => if c0 = (c : ℤ) then 1 else 0) G
      = if 0 ≤ c0 ∧ c0.toNat < G then 1 else 0 := by
  induction G with
  | zero => simp [offsetOf]
  | succ G ih =>
    simp only [offsetOf, ih]
    by_cases h0 : 0 ≤ c0
    · by_cases h1 : c0.toNat < G
      · have : c0 ≠ (G : ℤ) := by omega
        simp [h0, h1, this, Nat.lt_succ_of_lt h1]
      · by_cases h2 : c0 = (G : ℤ)
        · subst h2; simp
        · have : ¬ c0.toNat < G + 1 := by omega
          simp [h0, h1, h2, this]
    · have : c0 ≠ (G : ℤ) := by omega
      simp [h0, this]

/-- The per-cell counts of `m` points whose cell ids lie in `[0, G)` add up to `m`. -/
theorem offsetOf_cellCount (g : ℕ → ℤ) (G : ℕ) {m : ℕ}
    (h : ∀ p, p < m → 0 ≤ g p ∧ (g p).toNat < G) :
    offsetOf (fun c => cellCount g m (c : ℤ)) G = m := by
  induction m with
  | zero =>
    have : (fun c : ℕ => cellCount g 0 (c : ℤ)) = fun _ => 0 := rfl
    rw [this]
    clear h
    induction G with
    | zero => rfl
    | succ G ih => simp [offsetOf, ih]
  | succ m ih =>
    have e : (fun c : ℕ => cellCount g (m + 1) (c : ℤ))
        = fun c : ℕ => cellCount g m (c : ℤ) + (if g m = (c : ℤ) then 1 else 0) := by
      funext c; exact cellCount_succ g m c
    rw [e, offsetOf_add, ih (fun p hp => h p (Nat.lt_succ_of_lt hp)), offsetOf_indicator]
    simp [h m (Nat.lt_succ_self m)]

/-- The sum of the first `C` entries of a list of counts. -/
theorem sum_take_eq_offsetOf (cnt : List ℤ) (f : ℕ → ℕ)
    (h : ∀ c, c < cnt.length → cnt[c]? = some (f c : ℤ)) {C : ℕ} (hC : C ≤ cnt.length) :
    (cnt.take C).sum = (offsetOf f C : ℤ) := by
  induction C with
  | zero => simp [offsetOf]
  | succ C ih =>
    rw [List.take_succ, List.sum_append, ih (by omega), h C (by omega)]
    simp [offsetOf]

theorem count_map_range (g : ℕ → ℤ) (m : ℕ) (c : ℤ) :
    ((List.range m).map g).count c = cellCount g m c := by
  unfold cellCount
  rw [List.count_eq_countP, List.countP_map]
  congr 1

theorem take_eq_map_range (l : List ℤ) (g : ℕ → ℤ) (m : ℕ)
    (h : ∀ p, p < m → l[p]? = some (g p)) : l.take m = (List.range m).map g := by
  apply List.ext_getElem?
  intro p
  by_cases hp : p < m
  · rw [List.getElem?_take_of_lt hp, h p hp]
    simp [List.getElem?_range hp]
  · have h1 : (l.take m)[p]? = none :=
      List.getElem?_take_eq_none (by omega)
    rw [h1]
    symm
    apply List.getElem?_eq_none_iff.mpr
    simp; omega

/-- The facts about the result rows of batch element `n` that the insertion theorems use. -/
theorem insert_summary {points : List (List float3)} {lengths : List ℤ}
    {s0 : InsertState} {params : List GridParams}
    (hinb : InsertInBounds points lengths s0 params) {n : ℕ} (hn : n < points.length)
    (hzero : ∀ v, v ∈ s0.grid_cnt.getD n [] → v = 0) :
    ∃ out, InsertPointsCPU points lengths s0 params = some out ∧
      ∃ g : ℕ → ℤ, ∃ G : ℕ, G = (out.grid_cnt.getD n []).length ∧
        (∀ p, p < (lengths.getD n 0).toNat → 0 ≤ g p ∧ (g p).toNat < G) ∧
        (∀ p, p < (lengths.getD n 0).toNat → cellOut out n p = g p) ∧
        (∀ p, p < (lengths.getD n 0).toNat → rankOut out n p = (cellCount g p (g p) : ℤ)) ∧
        (∀ c, c < G → (out.grid_cnt.getD n [])[c]? =
          some (cellCount g (lengths.getD n 0).toNat (c : ℤ) : ℤ)) := by
  obtain ⟨hl, hb⟩ := hinb
  obtain ⟨out, hout⟩ : ∃ out, InsertPointsCPU points lengths s0 params = some out := by
    apply InsertPointsCPU_isSome hl
    intro k hk p hp
    exact hb k hk p (by omega)
  obtain ⟨len, hlen, inv⟩ := InsertPointsCPU_row hout hn
  have hlen' : lengths.getD n 0 = len := by
    simp [List.getD_eq_getElem?_getD, hlen]
  rw [hlen']
  have hz : ∀ c, c < (s0.row n).grid_cnt.length → (s0.row n).grid_cnt[c]? = some 0 := by
    intro c hc
    rw [List.getElem?_eq_getElem hc]
    exact congrArg some (hzero _ (List.getElem_mem _))
  refine ⟨out, hout, cellId params n (points.getD n []), (s0.row n).grid_cnt.length,
    inv.len_cnt.symm, ?_, ?_, ?_, ?_⟩
  · intro p hp
    exact ⟨(inv.inb p hp).1, (inv.inb p hp).2.2.1⟩
  · intro p hp
    have := inv.cell p
    simp only [hp, if_true] at this
    show ((out.row n).grid_cell).getD p (-1) = _
    rw [List.getD_eq_getElem?_getD, this, Option.getD_some]
  · intro p hp
    have := inv.idx p
    simp only [hp, if_true] at this
    have h0 := hz _ (inv.inb p hp).2.2.1
    show ((out.row n).grid_idx).getD p (-1) = _
    rw [List.getD_eq_getElem?_getD, this, Option.getD_some, List.getD_eq_getElem?_getD, h0,
      Option.getD_some, zero_add]
  · intro c hc
    have := inv.cnt c
    rw [hz c hc] at this
    simp only [Option.map_some', zero_add] at this
    exact this

theorem countP_cellOut {out : InsertState} {n m : ℕ} {g : ℕ → ℤ}
    (h : ∀ p, p < m → cellOut out n p = g p) {k : ℕ} (hk : k ≤ m) (c : ℤ) :
    (List.range k).countP (fun p => decide (cellOut out n p = c)) = cellCount g k c := by
  unfold cellCount
  apply List.countP_congr
  intro p hp
  have : p < m := Nat.lt_of_lt_of_le (List.mem_range.mp hp) hk
  simp [h p this]

/-- C6: when `InsertPointsCPU` runs in bounds (in particular every valid point receives a
cell id that is a column of the count row) and the count row of batch element `n` starts
at 0, the counts of batch element `n` add up to `lengths[n]` and `grid_cnt[n][c]` is the
number of valid points `p` whose recorded cell id `grid_cell[n][p]` is `c`. -/
theorem C6_counts_after_insert (points : List (List float3)) (lengths : List ℤ)
    (s0 : InsertState) (params : List GridParams)
    (hinb : InsertInBounds points lengths s0 params) (n : ℕ) (hn : n < points.length)
    (hzero : ∀ v, v ∈ s0.grid_cnt.getD n [] → v = 0) (hlen : 0 ≤ lengths.getD n 0) :
    ∃ out, InsertPointsCPU points lengths s0 params = some out ∧
      (out.grid_cnt.getD n []).sum = lengths.getD n 0 ∧
      ∀ c, c < (out.grid_cnt.getD n []).length →
        cntOut out n c = (((List.range (lengths.getD n 0).toNat).countP
          (fun p => decide (cellOut out n p = (c : ℤ))) : ℕ) : ℤ) := by
  obtain ⟨out, hout, g, G, hG, hrange, hcell, -, hcnt⟩ := insert_summary hinb hn hzero
  refine ⟨out, hout, ?_, ?_⟩
  · have h1 := sum_take_eq_offsetOf (out.grid_cnt.getD n [])
      (fun c => cellCount g (lengths.getD n 0).toNat (c : ℤ))
      (fun c hc => hcnt c (hG ▸ hc)) (Nat.le_refl _)
    rw [List.take_length] at h1
    rw [h1, ← hG, offsetOf_cellCount g G hrange]
    exact Int.toNat_of_nonneg hlen
  · intro c hc
    rw [countP_cellOut hcell (Nat.le_refl _)]
    unfold cntOut
    rw [List.getD_eq_getElem?_getD, hcnt c (hG ▸ hc), Option.getD_some]

/-- C9: when `InsertPointsCPU` runs in bounds on a count row that starts at 0, the rank
`grid_idx[n][p]` of every valid point `p` is the number of valid points `p' < p` with the
same recorded cell id; hence ranks lie in `[0, grid_cnt[n][cell])`, increase with the
original index inside a cell, and take every value `0, ..., grid_cnt[n][c] - 1`. -/
theorem C9_rank_after_insert (points : List (List float3)) (lengths : List ℤ)
    (s0 : InsertState) (params : List GridParams)
    (hinb : InsertInBounds points lengths s0 params) (n : ℕ) (hn : n < points.length)
    (hzero : ∀ v, v ∈ s0.grid_cnt.getD n [] → v = 0) :
    ∃ out, InsertPointsCPU points lengths s0 params = some out ∧
      (∀ p, p < (lengths.getD n 0).toNat →
        rankOut out n p = (((List.range p).countP
          (fun p' => decide (cellOut out n p' = cellOut out n p)) : ℕ) : ℤ)) ∧
      (∀ p, p < (lengths.getD n 0).toNat →
        0 ≤ rankOut out n p ∧ rankOut out n p < cntOut out n (cellOut out n p).toNat) ∧
      (∀ p p', p < p' → p' < (lengths.getD n 0).toNat → cellOut out n p = cellOut out n p' →
        rankOut out n p < rankOut out n p') ∧
      (∀ c, c < (out.grid_cnt.getD n []).length → ∀ k : ℤ, 0 ≤ k → k < cntOut out n c →
        ∃ p, p < (lengths.getD n 0).toNat ∧ cellOut out n p = (c : ℤ) ∧
          rankOut out n p = k) := by
  obtain ⟨out, hout, g, G, hG, hrange, hcell, hrank, hcnt⟩ := insert_summary hinb hn hzero
  have hcntOut : ∀ c, c < G →
      cntOut out n c = (cellCount g (lengths.getD n 0).toNat (c : ℤ) : ℤ) := by
    intro c hc
    unfold cntOut
    rw [List.getD_eq_getElem?_getD, hcnt c hc, Option.getD_some]
  refine ⟨out, hout, ?_, ?_, ?_, ?_⟩
  · intro p hp
    rw [hrank p hp, hcell p hp, countP_cellOut hcell (Nat.le_of_lt hp)]
  · intro p hp
    obtain ⟨h0, h1⟩ := hrange p hp
    rw [hrank p hp, hcell p hp, hcntOut _ h1, Int.toNat_of_nonneg h0]
    exact ⟨Int.natCast_nonneg _, Int.ofNat_lt.mpr (cellCount_lt g hp)⟩
  · intro p p' hlt hp' hc
    have hp : p < (lengths.getD n 0).toNat := Nat.lt_trans hlt hp'
    rw [hcell p hp, hcell p' hp'] at hc
    rw [hrank p hp, hrank p' hp', ← hc]
    exact Int.ofNat_lt.mpr (cellCount_lt g hlt)
  · intro c hc k hk hkc
    rw [hcntOut c (hG ▸ hc)] at hkc
    obtain ⟨p, hp, hgp, hcp⟩ :=
      cellCount_surj g (c : ℤ) (k := k.toNat) (m := (lengths.getD n 0).toNat) (by omega)
    refine ⟨p, hp, (hcell p hp).trans hgp, ?_⟩
    rw [hrank p hp, hgp, hcp]
    exact Int.toNat_of_nonneg hk

/-- C10: when `InsertPointsCPU` runs in bounds on a count row that starts at 0 and `off` is
the exclusive prefix sum of the resulting count row (`off[c] = grid_cnt[n][0] + ... +
grid_cnt[n][c-1]`), the scatter address `p ↦ off[grid_cell[n][p]] + grid_idx[n][p]` sends
the valid points of each cell `c` into and onto `[off[c], off[c] + grid_cnt[n][c])`, and is
injective on the valid indices, into and onto `[0, lengths[n])`. -/
theorem C10_scatter_address_bijection (points : List (List float3)) (lengths : List ℤ)
    (s0 : InsertState) (params : List GridParams)
    (hinb : InsertInBounds points lengths s0 params) (n : ℕ) (hn : n < points.length)
    (hzero : ∀ v, v ∈ s0.grid_cnt.getD n [] → v = 0) (hlen : 0 ≤ lengths.getD n 0) :
    ∃ out, InsertPointsCPU points lengths s0 params = some out ∧
      ∀ off : List ℤ,
        (∀ c, c < (out.grid_cnt.getD n []).length →
          off[c]? = some (((out.grid_cnt.getD n []).take c).sum)) →
        ∀ addr : ℕ → ℤ,
          (∀ p, addr p = off.getD (cellOut out n p).toNat 0 + rankOut out n p) →
          (∀ p, p < (lengths.getD n 0).toNat →
            0 ≤ cellOut out n p ∧
            (cellOut out n p).toNat < (out.grid_cnt.getD n []).length ∧
            off.getD (cellOut out n p).toNat 0 ≤ addr p ∧
            addr p < off.getD (cellOut out n p).toNat 0
              + cntOut out n (cellOut out n p).toNat) ∧
          (∀ c, c < (out.grid_cnt.getD n []).length → ∀ i : ℤ, off.getD c 0 ≤ i →
            i < off.getD c 0 + cntOut out n c →
            ∃ p, p < (lengths.getD n 0).toNat ∧ cellOut out n p = (c : ℤ) ∧ addr p = i) ∧
          (∀ p, p < (lengths.getD n 0).toNat → 0 ≤ addr p ∧ addr p < lengths.getD n 0) ∧
          (∀ p p', p < (lengths.getD n 0).toNat → p' < (lengths.getD n 0).toNat →
            addr p = addr p' → p = p') ∧
          (∀ i : ℤ, 0 ≤ i → i < lengths.getD n 0 →
            ∃ p, p < (lengths.getD n 0).toNat ∧ addr p = i) := by
  obtain ⟨out, hout, g, G, hG, hrange, hcell, hrank, hcnt⟩ := insert_summary hinb hn hzero
  refine ⟨out, hout, ?_⟩
  intro off hoff addr haddr
  set m := (lengths.getD n 0).toNat with hm
  set f : ℕ → ℕ := fun c => cellCount g m (c : ℤ) with hf
  have hcntOut : ∀ c, c < G → cntOut out n c = (f c : ℤ) := by
    intro c hc
    unfold cntOut
    rw [List.getD_eq_getElem?_getD, hcnt c hc, Option.getD_some]
  have hoffc : ∀ c, c < G → off.getD c 0 = (offsetOf f c : ℤ) := by
    intro c hc
    rw [List.getD_eq_getElem?_getD, hoff c (hG ▸ hc), Option.getD_some]
    exact sum_take_eq_offsetOf _ f (fun c hc => hcnt c (hG ▸ hc)) (by omega)
  have htot : offsetOf f G = m := offsetOf_cellCount g G hrange
  have hmlen : (m : ℤ) = lengths.getD n 0 := Int.toNat_of_nonneg hlen
  -- the address of a valid point, in terms of the counts
  have haddr' : ∀ p, p < m →
      addr p = ((offsetOf f (g p).toNat + cellCount g p (g p) : ℕ) : ℤ) := by
    intro p hp
    rw [haddr p, hcell p hp, hrank p hp, hoffc _ (hrange p hp).2]
    push_cast; rfl
  have hcell_cast : ∀ p, p < m → ((g p).toNat : ℤ) = g p :=
    fun p hp => Int.toNat_of_nonneg (hrange p hp).1
  have hinto : ∀ p, p < m →
      offsetOf f (g p).toNat + cellCount g p (g p) < offsetOf f (g p).toNat + f (g p).toNat := by
    intro p hp
    have := cellCount_lt g (p := p) (m := m) hp
    have hfc : f (g p).toNat = cellCount g m (g p) := by
      show cellCount g m ((g p).toNat : ℤ) = _
      rw [hcell_cast p hp]
    omega
  have honto : ∀ c, c < G → ∀ i : ℕ, offsetOf f c ≤ i → i < offsetOf f c + f c →
      ∃ p, p < m ∧ g p = (c : ℤ) ∧ offsetOf f (g p).toNat + cellCount g p (g p) = i := by
    intro c hc i h1 h2
    have hfc : f c = cellCount g m (c : ℤ) := rfl
    obtain ⟨p, hp, hgp, hcp⟩ := cellCount_surj g (c : ℤ) (k := i - offsetOf f c) (m := m)
      (by omega)
    refine ⟨p, hp, hgp, ?_⟩
    rw [hgp, hcp]
    simp only [Int.toNat_ofNat]
    omega
  refine ⟨?_, ?_, ?_, ?_, ?_⟩
  · intro p hp
    obtain ⟨h0, h1⟩ := hrange p hp
    rw [hcell p hp, haddr' p hp, hoffc _ h1, hcntOut _ h1]
    refine ⟨h0, hG ▸ h1, ?_, ?_⟩
    · exact_mod_cast Nat.le_add_right _ _
    · exact_mod_cast hinto p hp
  · intro c hc i h1 h2
    rw [hoffc c (hG ▸ hc)] at h1 h2
    rw [hcntOut c (hG ▸ hc)] at h2
    obtain ⟨p, hp, hgp, hi⟩ := honto c (hG ▸ hc) i.toNat (by omega) (by omega)
    refine ⟨p, hp, (hcell p hp).trans hgp, ?_⟩
    rw [haddr' p hp, hi]
    omega
  · intro p hp
    rw [haddr' p hp, ← hmlen]
    refine ⟨Int.natCast_nonneg _, ?_⟩
    have h1 := hinto p hp
    have h2 : offsetOf f (g p).toNat + f (g p).toNat ≤ offsetOf f G :=
      offsetOf_succ_le f (hrange p hp).2
    rw [htot] at h2
    exact_mod_cast Nat.lt_of_lt_of_le h1 h2
  · intro p p' hp hp' he
    rw [haddr' p hp, haddr' p' hp'] at he
    have he' : offsetOf f (g p).toNat + cellCount g p (g p)
        = offsetOf f (g p').toNat + cellCount g p' (g p') := by exact_mod_cast he
    have h1 := hinto p hp
    have h2 := hinto p' hp'
    have hc : (g p).toNat = (g p').toNat := by
      rcases Nat.lt_trichotomy (g p).toNat (g p').toNat with hlt | heq | hgt
      · have := offsetOf_succ_le f hlt; omega
      · exact heq
      · have := offsetOf_succ_le f hgt; omega
    have hg : g p = g p' := by
      rw [← hcell_cast p hp, ← hcell_cast p' hp', hc]
    apply cellCount_injOn g hg
    rw [hc] at he'
    omega
  · intro i h0 hi
    rw [← hmlen, ← htot] at hi
    obtain ⟨c, hc, h1, h2⟩ := offsetOf_find f (G := G) (i := i.toNat) (by omega)
    obtain ⟨p, hp, -, hi'⟩ := honto c hc i.toNat h1 h2
    refine ⟨p, hp, ?_⟩
    rw [haddr' p hp, hi']
    omega

theorem castInt_of_nonneg {v : ℚ} (h : 0 ≤ v) : castInt v = ⌊v⌋ := by
  simp [castInt, h]

theorem castInt_of_neg {v : ℚ} (h : v < 0) : castInt v = ⌈v⌉ := by
  simp [castInt, not_le.mpr h]

/-- The conversion `(int)v` agrees with the floor for a non-negative or whole value. -/
theorem castInt_eq_floor {v : ℚ} (h : 0 ≤ v ∨ ((⌊v⌋ : ℤ) : ℚ) = v) : castInt v = ⌊v⌋ := by
  rcases h with h | h
  · exact castInt_of_nonneg h
  · by_cases hv : 0 ≤ v
    · exact castInt_of_nonneg hv
    · rw [castInt_of_neg (not_le.mp hv)]
      conv_lhs => rw [← h]
      exact Int.ceil_intCast _

/-- A flat cell id built from coordinates in `[0, res)` lies in `[0, rx * ry * rz)`. -/
theorem flat_cell_bounds {gx gy gz rx ry rz : ℤ} (hx0 : 0 ≤ gx) (hx : gx < rx)
    (hy0 : 0 ≤ gy) (hy : gy < ry) (hz0 : 0 ≤ gz) (hz : gz < rz) :
    0 ≤ (gx * ry + gy) * rz + gz ∧ (gx * ry + gy) * rz + gz < rx * ry * rz := by
  have hry : 0 < ry := by omega
  have hrz : 0 < rz := by omega
  have h1 : 0 ≤ gx * ry + gy := by positivity
  have h2 : gx * ry + gy + 1 ≤ rx * ry := by
    have : (gx + 1) * ry ≤ rx * ry := Int.mul_le_mul_of_nonneg_right (by omega) (by omega)
    nlinarith
  constructor
  · positivity
  · have : (gx * ry + gy + 1) * rz ≤ rx * ry * rz :=
      Int.mul_le_mul_of_nonneg_right h2 (by omega)
    nlinarith

/-- C7 (counterexample): for the point `(-1/2, 0, 0)` on the unit grid with origin 0 the
scaled offset on the x axis is `-1/2`; `GetGridCell` stores the x coordinate `0`, while the
floor is `-1`. -/
theorem C7_counterexample :
    (GetGridCell (-1 / 2) 0 0
        { grid_min := ⟨0, 0, 0⟩, grid_delta := 1, grid_res := ⟨1, 1, 1⟩, grid_total := 1 }).1.x
      = 0 ∧ ⌊((-1 / 2 : ℚ) - 0) * 1⌋ = -1 := by
  decide!

/-- C7 (amended): when `(coord - origin) * inverse_cell_size` is, on each axis, non-negative
(a point at or above the grid origin) or a whole number, `GetGridCell` sets the grid
coordinate on each axis to `floor((coord - origin) * inverse_cell_size)` and returns
`(gx * ry + gy) * rz + gz`. -/
theorem C7_grid_cell_floor (x y z : ℚ) (params : GridParams)
    (hx : 0 ≤ (x - params.grid_min.x) * params.grid_delta ∨
      ((⌊(x - params.grid_min.x) * params.grid_delta⌋ : ℤ) : ℚ)
        = (x - params.grid_min.x) * params.grid_delta)
    (hy : 0 ≤ (y - params.grid_min.y) * params.grid_delta ∨
      ((⌊(y - params.grid_min.y) * params.grid_delta⌋ : ℤ) : ℚ)
        = (y - params.grid_min.y) * params.grid_delta)
    (hz : 0 ≤ (z - params.grid_min.z) * params.grid_delta ∨
      ((⌊(z - params.grid_min.z) * params.grid_delta⌋ : ℤ) : ℚ)
        = (z - params.grid_min.z) * params.grid_delta) :
    (GetGridCell x y z params).1.x = ⌊(x - params.grid_min.x) * params.grid_delta⌋ ∧
    (GetGridCell x y z params).1.y = ⌊(y - params.grid_min.y) * params.grid_delta⌋ ∧
    (GetGridCell x y z params).1.z = ⌊(z - params.grid_min.z) * params.grid_delta⌋ ∧
    (GetGridCell x y z params).2 =
      ((GetGridCell x y z params).1.x * params.grid_res.y + (GetGridCell x y z params).1.y)
        * params.grid_res.z + (GetGridCell x y z params).1.z :=
  ⟨castInt_eq_floor hx, castInt_eq_floor hy, castInt_eq_floor hz, rfl⟩

/-- C7 (witness): the point `(5/2, 1/3, -1)` on a grid with origin `(1, 0, 0)` and inverse
cell size 2: the scaled offsets `3` and `2/3` are non-negative, `-2` is whole. -/
theorem C7_grid_cell_floor_witness :
    (GetGridCell (5 / 2) (1 / 3) (-1)
        { grid_min := ⟨1, 0, 0⟩, grid_delta := 2, grid_res := ⟨4, 2, 1⟩, grid_total := 8 }).1
      = ⟨3, 0, -2⟩ ∧
    (GetGridCell (5 / 2) (1 / 3) (-1)
        { grid_min := ⟨1, 0, 0⟩, grid_delta := 2, grid_res := ⟨4, 2, 1⟩, grid_total := 8 }).2
      = 4 := by
  have h := C7_grid_cell_floor (5 / 2) (1 / 3) (-1)
    { grid_min := ⟨1, 0, 0⟩, grid_delta := 2, grid_res := ⟨4, 2, 1⟩, grid_total := 8 }
    (Or.inl (by decide!)) (Or.inl (by decide!)) (Or.inr (by decide!))
  refine ⟨?_, h.2.2.2.trans (by decide!)⟩
  have e : ∀ a b : int3, a.x = b.x → a.y = b.y → a.z = b.z → a = b := by
    intro a b h1 h2 h3
    cases a; cases b; simp only at h1 h2 h3; subst h1 h2 h3; rfl
  exact e _ _ (h.1.trans (by decide!)) (h.2.1.trans (by decide!)) (h.2.2.1.trans (by decide!))

theorem tupleLt_iff_lex (a b : ℚ × ℤ) : tupleLt a b ↔ toLex a < toLex b := by
  rw [Prod.Lex.lt_iff]; rfl

theorem not_tupleLt_trans {a b c : ℚ × ℤ} (h1 : ¬ tupleLt a b) (h2 : ¬ tupleLt b c) :
    ¬ tupleLt a c := by
  rw [tupleLt_iff_lex, not_lt] at *
  exact le_trans h2 h1

theorem tupleLt_asymm {a b : ℚ × ℤ} (h : tupleLt a b) : ¬ tupleLt b a := by
  rw [tupleLt_iff_lex] at *
  exact lt_asymm h

theorem fst_le_of_not_tupleLt {a b : ℚ × ℤ} (h : ¬ tupleLt a b) : b.1 ≤ a.1 := by
  by_contra hc
  exact h (Or.inl (not_le.mp hc))

theorem heapSorted_nil : HeapSorted [] := List.Pairwise.nil

theorem mem_heapPush {t x : ℚ × ℤ} {q : Heap} : x ∈ heapPush t q ↔ x = t ∨ x ∈ q := by
  induction q with
  | nil => simp [heapPush]
  | cons h q ih =>
    unfold heapPush
    split
    · simp only [List.mem_cons, ih]; tauto
    · simp only [List.mem_cons]

theorem length_heapPush (t : ℚ × ℤ) (q : Heap) : (heapPush t q).length = q.length + 1 := by
  induction q with
  | nil => rfl
  | cons h q ih =>
    unfold heapPush
    split
    · simp [ih]
    · simp

theorem heapPush_perm (t : ℚ × ℤ) (q : Heap) : (heapPush t q).Perm (t :: q) := by
  induction q with
  | nil => exact List.Perm.refl _
  | cons h q ih =>
    unfold heapPush
    split
    · exact ((List.Perm.cons h ih).trans (List.Perm.swap t h q))
    · exact List.Perm.refl _

theorem heapSorted_heapPush {t : ℚ × ℤ} {q : Heap} (hq : HeapSorted q) :
    HeapSorted (heapPush t q) := by
  induction q with
  | nil => exact List.pairwise_singleton _ _
  | cons h q ih =>
    unfold heapPush
    obtain ⟨hh, hq'⟩ := List.pairwise_cons.mp hq
    split
    · rename_i hlt
      apply List.pairwise_cons.mpr
      refine ⟨?_, ih hq'⟩
      intro x hx
      rcases mem_heapPush.mp hx with rfl | hx
      · exact tupleLt_asymm hlt
      · exact hh x hx
    · rename_i hnlt
      apply List.pairwise_cons.mpr
      refine ⟨?_, hq⟩
      intro x hx
      rcases List.mem_cons.mp hx with rfl | hx
      · exact hnlt
      · exact not_tupleLt_trans hnlt (hh x hx)

/-- The head of a sorted queue carries the greatest distance. -/
theorem fst_le_head {h : ℚ × ℤ} {q : Heap} (hq : HeapSorted (h :: q)) {x : ℚ × ℤ}
    (hx : x ∈ h :: q) : x.1 ≤ h.1 := by
  rcases List.mem_cons.mp hx with rfl | hx
  · exact le_refl _
  · exact fst_le_of_not_tupleLt ((List.pairwise_cons.mp hq).1 x hx)

/-- Pushing a tuple with a distance below the top and popping removes the old top. -/
theorem heapPush_pop {t h : ℚ × ℤ} {q : Heap} (hlt : t.1 < h.1) :
    heapPop (heapPush t (h :: q)) = some (heapPush t q) := by
  have : tupleLt t h := Or.inl hlt
  simp [heapPush, this, heapPop]

theorem heapSorted_tail {h : ℚ × ℤ} {q : Heap} (hq : HeapSorted (h :: q)) : HeapSorted q :=
  (List.pairwise_cons.mp hq).2

/-! ### One scanned point -/

theorem visitPoint_cases {points2 : List float3} {spi : List ℤ} {K : ℤ} {r2 : ℚ}
    {cur : float3} {q q' : Heap} {p2 : ℤ}
    (h : visitPoint points2 spi K r2 cur q p2 = some q') :
    ∃ pt, getAt points2 p2 = some pt ∧ VisitEffect spi K r2 cur q p2 q' pt := by
  unfold visitPoint at h
  rcases hpt : getAt points2 p2 with _ | pt
  · rw [hpt] at h; cases h
  rw [hpt] at h
  simp only [Option.bind_eq_bind, Option.some_bind, Option.pure_def] at h
  refine ⟨pt, rfl, ?_⟩
  by_cases hr : sqDist pt cur ≤ r2
  · rw [if_pos hr] at h
    by_cases hk : (q.length : ℤ) < K
    · rw [if_pos hk] at h
      rcases hi : getAt spi p2 with _ | i
      · rw [hi] at h; cases h
      · rw [hi] at h
        injection h with h
        exact Or.inr (Or.inl ⟨hr, hk, i, hi, h.symm⟩)
    · rw [if_neg hk] at h
      rcases q with _ | ⟨hd, rest⟩
      · cases h
      · simp only [heapTop, List.head?_cons, Option.some_bind] at h
        refine Or.inr (Or.inr ⟨hr, hk, hd, rest, rfl, ?_⟩)
        by_cases hlt : sqDist pt cur < hd.1
        · rw [if_pos hlt] at h
          rcases hi : getAt spi p2 with _ | i
          · rw [hi] at h; cases h
          · rw [hi] at h
            simp only [Option.some_bind] at h
            rw [heapPush_pop (t := (sqDist pt cur, i)) hlt] at h
            injection h with h
            exact Or.inr ⟨hlt, i, rfl, h.symm⟩
        · rw [if_neg hlt] at h
          injection h with h
          exact Or.inl ⟨hlt, h.symm⟩
  · rw [if_neg hr] at h
    injection h with h
    exact Or.inl ⟨hr, h.symm⟩

theorem visitPoint_of_effect {points2 : List float3} {spi : List ℤ} {K : ℤ} {r2 : ℚ}
    {cur : float3} {q q' : Heap} {p2 : ℤ} {pt : float3} (hpt : getAt points2 p2 = some pt)
    (h : VisitEffect spi K r2 cur q p2 q' pt) :
    visitPoint points2 spi K r2 cur q p2 = some q' := by
  unfold visitPoint
  rw [hpt]
  simp only [Option.bind_eq_bind, Option.some_bind, Option.pure_def]
  rcases h with ⟨hr, rfl⟩ | ⟨hr, hk, i, hi, rfl⟩ | ⟨hr, hk, hd, rest, rfl, h⟩
  · rw [if_neg hr]
  · rw [if_pos hr, if_pos hk, hi]; rfl
  · rw [if_pos hr, if_neg hk]
    simp only [heapTop, List.head?_cons, Option.some_bind]
    rcases h with ⟨hlt, rfl⟩ | ⟨hlt, i, hi, rfl⟩
    · rw [if_neg hlt]
    · rw [if_pos hlt, hi]
      simp only [Option.some_bind]
      exact heapPush_pop (t := (sqDist pt cur, i)) hlt

theorem sqDist_nonneg (pt cur : float3) : 0 ≤ sqDist pt cur := by
  unfold sqDist
  have h1 := mul_self_nonneg (pt.x - cur.x)
  have h2 := mul_self_nonneg (pt.y - cur.y)
  have h3 := mul_self_nonneg (pt.z - cur.z)
  simp only
  linarith

/-! ### Draining the queue into the result rows -/

theorem drop_set_self {α : Type} (l : List α) (k : ℕ) (v : α) (h : k < l.length) :
    (l.set k v).drop k = v :: l.drop (k + 1) := by
  induction l generalizing k with
  | nil => simp at h
  | cons a l ih =>
    cases k with
    | zero => simp
    | succ k =>
      simp only [List.set_cons_succ, List.drop_succ_cons]
      exact ih k (by simpa using h)

/-- The loop `drain` succeeds exactly when the rows have a slot for every tuple; the tuples then fill
the first slots in ascending order and the other slots keep their value. -/
theorem drain_eq_some_iff (q : Heap) : ∀ (irow : List ℤ) (drow : List ℚ)
    (r : List ℤ × List ℚ),
    drain q (irow, drow) = some r ↔
      q.length ≤ irow.length ∧ q.length ≤ drow.length ∧
      r = (q.reverse.map Prod.snd ++ irow.drop q.length,
           q.reverse.map Prod.fst ++ drow.drop q.length) := by
  induction q with
  | nil =>
    intro irow drow r
    simp [drain, eq_comm]
  | cons t q ih =>
    intro irow drow r
    unfold drain
    simp only [Option.bind_eq_bind, setAt_natCast, List.length_cons]
    by_cases hd : q.length < drow.length
    · by_cases hi : q.length < irow.length
      · simp only [hd, hi, if_true, Option.some_bind]
        rw [ih]
        simp only [List.length_set, drop_set_self _ _ _ hd, drop_set_self _ _ _ hi,
          List.reverse_cons, List.map_append, List.map_cons, List.map_nil,
          List.append_assoc, List.singleton_append]
        constructor
        · rintro ⟨-, -, rfl⟩; exact ⟨hi, hd, rfl⟩
        · rintro ⟨-, -, rfl⟩; exact ⟨by omega, by omega, rfl⟩
      · simp only [hd, hi, if_true, if_false, Option.some_bind, Option.none_bind]
        constructor
        · intro h; cases h
        · rintro ⟨h, -⟩; omega
    · simp only [hd, if_false, Option.none_bind]
      constructor
      · intro h; cases h
      · rintro ⟨-, h, -⟩; omega

theorem drain_length {q : Heap} {irow : List ℤ} {drow : List ℚ} {r : List ℤ × List ℚ}
    (h : drain q (irow, drow) = some r) :
    r.1.length = irow.length ∧ r.2.length = drow.length := by
  obtain ⟨h1, h2, rfl⟩ := (drain_eq_some_iff q irow drow r).mp h
  simp only [List.length_append, List.length_map, List.length_reverse, List.length_drop]
  omega

/-! ### The loops over queries and batch elements -/

theorem nbrsOut_row_setRow_self (o : NbrsOut) (n p1 : ℕ) (r : List ℤ × List ℚ)
    (h1 : r.1.length = (o.row n p1).1.length) (h2 : r.2.length = (o.row n p1).2.length) :
    (o.setRow n p1 r).row n p1 = r := by
  unfold NbrsOut.row NbrsOut.setRow at *
  simp only at h1 h2 ⊢
  rw [getD_set_self _ _ _ (by simp), getD_set_self _ _ _ h1,
    getD_set_self _ _ _ (by simp), getD_set_self _ _ _ h2]

theorem nbrsOut_row_setRow_ne (o : NbrsOut) {n p1 n' p1' : ℕ} (r : List ℤ × List ℚ)
    (h : n ≠ n' ∨ p1 ≠ p1') : (o.setRow n p1 r).row n' p1' = o.row n' p1' := by
  unfold NbrsOut.row NbrsOut.setRow
  by_cases hn : n = n'
  · subst hn
    have hp : p1 ≠ p1' := by tauto
    simp only
    rw [getD_set_self _ _ _ (by simp), getD_set_ne _ _ hp,
      getD_set_self _ _ _ (by simp), getD_set_ne _ _ hp]
  · simp only
    rw [getD_set_ne _ _ hn, getD_set_ne _ _ hn]

theorem queryStep_eq (points1 : List float3) (points2 : List float3) (lengths2 : List ℤ)
    (grid_off : List ℤ) (spi : List ℤ) (prm : GridParams) (K : ℤ) (r : ℚ) (n : ℕ)
    (o : NbrsOut) (p1 : ℕ) :
    queryStep points1 points2 lengths2 grid_off spi prm K r n o p1 =
      (queryRows points1 points2 lengths2 grid_off spi prm K r n (o.row n p1) p1).map
        (fun row => o.setRow n p1 row) := by
  unfold queryStep queryRows
  rcases points1[p1]? with _ | cur
  · rfl
  simp only [Option.bind_eq_bind, Option.some_bind, Option.pure_def]
  rcases scanCells prm points2 grid_off spi lengths2 n K r cur with _ | q
  · rfl
  simp only [Option.some_bind]
  rcases drain q (o.row n p1) with _ | row
  · rfl
  · rfl

theorem queryRows_length {points1 : List float3} {points2 : List float3} {lengths2 : List ℤ}
    {grid_off : List ℤ} {spi : List ℤ} {prm : GridParams} {K : ℤ} {r : ℚ} {n : ℕ}
    {init row : List ℤ × List ℚ} {p1 : ℕ}
    (h : queryRows points1 points2 lengths2 grid_off spi prm K r n init p1 = some row) :
    row.1.length = init.1.length ∧ row.2.length = init.2.length := by
  unfold queryRows at h
  simp only [Option.bind_eq_some] at h
  obtain ⟨cur, -, q, -, hd⟩ := h
  exact drain_length hd

/-- After the first `m` queries of batch element `n`: the rows of each of them are its
result rows, the other rows are untouched. -/
theorem queryLoop_inv {points1 : List float3} {points2 : List float3} {lengths2 : List ℤ}
    {grid_off : List ℤ} {spi : List ℤ} {prm : GridParams} {K : ℤ} {r : ℚ} {n : ℕ}
    {o0 : NbrsOut} {m : ℕ} :
    ∀ {o : NbrsOut},
      (List.range m).foldlM
        (queryStep points1 points2 lengths2 grid_off spi prm K r n) o0 = some o →
      (∀ p1, p1 < m →
        queryRows points1 points2 lengths2 grid_off spi prm K r n (o0.row n p1) p1
          = some (o.row n p1)) ∧
      (∀ n' p1, (n' ≠ n ∨ m ≤ p1) → o.row n' p1 = o0.row n' p1) := by
  induction m with
  | zero =>
    intro o h
    simp only [List.range_zero, List.foldlM_nil, Option.pure_def, Option.some.injEq] at h
    subst h
    exact ⟨fun p hp => absurd hp (Nat.not_lt_zero p), fun _ _ _ => rfl⟩
  | succ m ih =>
    intro o h
    rw [foldlM_range_succ, Option.bind_eq_some] at h
    obtain ⟨t, ht, hs⟩ := h
    obtain ⟨ih1, ih2⟩ := ih ht
    rw [queryStep_eq, Option.map_eq_some'] at hs
    obtain ⟨row, hrow, rfl⟩ := hs
    have hlen := queryRows_length hrow
    have hself := nbrsOut_row_setRow_self t n m row hlen.1 hlen.2
    constructor
    · intro p1 hp1
      rcases Nat.lt_succ_iff_lt_or_eq.mp hp1 with h | rfl
      · rw [nbrsOut_row_setRow_ne t row (Or.inr (Nat.ne_of_gt h))]
        exact ih1 p1 h
      · rw [hself, ← ih2 n p1 (Or.inr (Nat.le_refl _))]
        exact hrow
    · intro n' p1 hne
      rw [nbrsOut_row_setRow_ne t row (by omega)]
      exact ih2 n' p1 (by omega)

theorem queryLoop_isSome {points1 : List float3} {points2 : List float3}
    {lengths2 : List ℤ} {grid_off : List ℤ} {spi : List ℤ} {prm : GridParams} {K : ℤ}
    {r : ℚ} {n : ℕ} {o0 : NbrsOut} {m : ℕ}
    (h : ∀ p1, p1 < m → ∃ row,
      queryRows points1 points2 lengths2 grid_off spi prm K r n (o0.row n p1) p1 = some row) :
    ∃ o, (List.range m).foldlM
      (queryStep points1 points2 lengths2 grid_off spi prm K r n) o0 = some o := by
  induction m with
  | zero => exact ⟨o0, rfl⟩
  | succ m ih =>
    obtain ⟨t, ht⟩ := ih (fun p hp => h p (Nat.lt_succ_of_lt hp))
    obtain ⟨row, hrow⟩ := h m (Nat.lt_succ_self m)
    rw [← (queryLoop_inv ht).2 n m (Or.inr (Nat.le_refl _))] at hrow
    refine ⟨t.setRow n m row, ?_⟩
    rw [foldlM_range_succ, ht, Option.some_bind, queryStep_eq, hrow]
    rfl

/-- After the first `k` batch elements. -/
theorem batchLoop_inv {points1 points2 : List (List float3)} {lengths1 lengths2 : List ℤ}
    {grid_off spi : List (List ℤ)} {params : List GridParams} {K : ℤ} {r : ℚ}
    {o0 : NbrsOut} {k : ℕ} :
    ∀ {o : NbrsOut},
      (List.range k).foldlM
        (batchStep points1 points2 lengths1 lengths2 grid_off spi params K r) o0 = some o →
      (∀ n, n < k → ∃ prm len1, params[n]? = some prm ∧ lengths1[n]? = some len1 ∧
        ∀ p1,
          (p1 < len1.toNat →
            queryRows (points1.getD n []) (points2.getD n []) lengths2 (grid_off.getD n [])
              (spi.getD n []) prm K r n (o0.row n p1) p1 = some (o.row n p1)) ∧
          (len1.toNat ≤ p1 → o.row n p1 = o0.row n p1)) ∧
      (∀ n p1, k ≤ n → o.row n p1 = o0.row n p1) := by
  induction k with
  | zero =>
    intro o h
    simp only [List.range_zero, List.foldlM_nil, Option.pure_def, Option.some.injEq] at h
    subst h
    exact ⟨fun n hn => absurd hn (Nat.not_lt_zero n), fun _ _ _ => rfl⟩
  | succ k ih =>
    intro o h
    rw [foldlM_range_succ, Option.bind_eq_some] at h
    obtain ⟨t, ht, hs⟩ := h
    obtain ⟨ih1, ih2⟩ := ih ht
    unfold batchStep at hs
    simp only [Option.bind_eq_bind, Option.bind_eq_some] at hs
    obtain ⟨prm, hprm, len1, hlen1, hloop⟩ := hs
    obtain ⟨hq1, hq2⟩ := queryLoop_inv hloop
    constructor
    · intro n hn
      rcases Nat.lt_succ_iff_lt_or_eq.mp hn with h | rfl
      · obtain ⟨prm', len1', h1, h2, h3⟩ := ih1 n h
        refine ⟨prm', len1', h1, h2, fun p1 => ⟨fun hp => ?_, fun hp => ?_⟩⟩
        · rw [hq2 n p1 (Or.inl (Nat.ne_of_lt h))]; exact (h3 p1).1 hp
        · rw [hq2 n p1 (Or.inl (Nat.ne_of_lt h))]; exact (h3 p1).2 hp
      · refine ⟨prm, len1, hprm, hlen1, fun p1 => ⟨fun hp => ?_, fun hp => ?_⟩⟩
        · rw [← ih2 n p1 (Nat.le_refl _)]; exact hq1 p1 hp
        · rw [hq2 n p1 (Or.inr hp)]; exact ih2 n p1 (Nat.le_refl _)
    · intro n p1 hn
      rw [hq2 n p1 (Or.inl (by omega))]
      exact ih2 n p1 (by omega)

theorem batchLoop_isSome {points1 points2 : List (List float3)} {lengths1 lengths2 : List ℤ}
    {grid_off spi : List (List ℤ)} {params : List GridParams} {K : ℤ} {r : ℚ}
    {o0 : NbrsOut} {k : ℕ}
    (h : ∀ n, n < k → ∃ prm len1, params[n]? = some prm ∧ lengths1[n]? = some len1 ∧
      ∀ p1, p1 < len1.toNat → ∃ row,
        queryRows (points1.getD n []) (points2.getD n []) lengths2 (grid_off.getD n [])
          (spi.getD n []) prm K r n (o0.row n p1) p1 = some row) :
    ∃ o, (List.range k).foldlM
      (batchStep points1 points2 lengths1 lengths2 grid_off spi params K r) o0 = some o := by
  induction k with
  | zero => exact ⟨o0, rfl⟩
  | succ k ih =>
    obtain ⟨t, ht⟩ := ih (fun n hn => h n (Nat.lt_succ_of_lt hn))
    obtain ⟨prm, len1, hprm, hlen1, hq⟩ := h k (Nat.lt_succ_self k)
    have hq' : ∀ p1, p1 < len1.toNat → ∃ row,
        queryRows (points1.getD k []) (points2.getD k []) lengths2 (grid_off.getD k [])
          (spi.getD k []) prm K r k (t.row k p1) p1 = some row := by
      intro p1 hp1
      rw [(batchLoop_inv ht).2 k p1 (Nat.le_refl _)]
      exact hq p1 hp1
    obtain ⟨o, ho⟩ := queryLoop_isSome hq'
    refine ⟨o, ?_⟩
    rw [foldlM_range_succ, ht, Option.some_bind]
    unfold batchStep
    rw [hprm, hlen1]
    exact ho

theorem row_full (N P1 : ℕ) (K : ℤ) (n p1 : ℕ) :
    NbrsOut.row
      { idxs := List.replicate N (List.replicate P1 (List.replicate K.toNat (-1)))
        dists := List.replicate N (List.replicate P1 (List.replicate K.toNat (-1))) } n p1
      = initRows N P1 K n p1 := by
  unfold NbrsOut.row initRows sentinelRows
  by_cases hn : n < N
  · by_cases hp : p1 < P1
    · simp [List.getD_eq_getElem?_getD, List.getElem?_replicate, hn, hp]
    · simp [List.getD_eq_getElem?_getD, List.getElem?_replicate, hn, hp]
  · simp [List.getD_eq_getElem?_getD, List.getElem?_replicate, hn]

theorem FindNbrsCPU_unfold (points1 points2 : List (List float3))
    (lengths1 lengths2 : List ℤ) (grid_off spi : List (List ℤ)) (params : List GridParams)
    (K : ℤ) (r : ℚ) :
    FindNbrsCPU points1 points2 lengths1 lengths2 grid_off spi params K r =
      if K < 0 then none
      else (List.range points1.length).foldlM
        (batchStep points1 points2 lengths1 lengths2 grid_off spi params K r)
        { idxs := List.replicate points1.length
            (List.replicate (points1.headD []).length (List.replicate K.toNat (-1)))
          dists := List.replicate points1.length
            (List.replicate (points1.headD []).length (List.replicate K.toNat (-1))) } := by
  unfold FindNbrsCPU full3
  by_cases hK : K < 0
  · simp [hK]
  · simp [hK]

/-- The rows of a result of `FindNbrsCPU`: the allocation needs `0 ≤ K`; the rows of a valid
query are its result rows, drained into sentinel rows; the other rows keep the sentinel. -/
theorem FindNbrsCPU_rows {points1 points2 : List (List float3)} {lengths1 lengths2 : List ℤ}
    {grid_off spi : List (List ℤ)} {params : List GridParams} {K : ℤ} {r : ℚ}
    {out : NbrsOut}
    (h : FindNbrsCPU points1 points2 lengths1 lengths2 grid_off spi params K r = some out) :
    0 ≤ K ∧ ∀ n, n < points1.length → ∃ prm len1, params[n]? = some prm ∧
      lengths1[n]? = some len1 ∧
      ∀ p1,
        (p1 < len1.toNat →
          queryRows (points1.getD n []) (points2.getD n []) lengths2 (grid_off.getD n [])
            (spi.getD n []) prm K r n
            (initRows points1.length (points1.headD []).length K n p1) p1
            = some (out.row n p1)) ∧
        (len1.toNat ≤ p1 →
          out.row n p1 = initRows points1.length (points1.headD []).length K n p1) := by
  rw [FindNbrsCPU_unfold] at h
  by_cases hK : K < 0
  · rw [if_pos hK] at h; cases h
  rw [if_neg hK] at h
  refine ⟨not_lt.mp hK, fun n hn => ?_⟩
  obtain ⟨prm, len1, h1, h2, h3⟩ := (batchLoop_inv h).1 n hn
  refine ⟨prm, len1, h1, h2, fun p1 => ?_⟩
  have := h3 p1
  rw [row_full] at this
  exact this

theorem FindNbrsCPU_isSome {points1 points2 : List (List float3)}
    {lengths1 lengths2 : List ℤ} {grid_off spi : List (List ℤ)} {params : List GridParams}
    {K : ℤ} {r : ℚ} (hK : 0 ≤ K)
    (h : ∀ n, n < points1.length → ∃ prm len1, params[n]? = some prm ∧
      lengths1[n]? = some len1 ∧
      ∀ p1, p1 < len1.toNat → ∃ row,
        queryRows (points1.getD n []) (points2.getD n []) lengths2 (grid_off.getD n [])
          (spi.getD n []) prm K r n
          (initRows points1.length (points1.headD []).length K n p1) p1 = some row) :
    ∃ out, FindNbrsCPU points1 points2 lengths1 lengths2 grid_off spi params K r
      = some out := by
  rw [FindNbrsCPU_unfold, if_neg (not_lt.mpr hK)]
  apply batchLoop_isSome
  intro n hn
  obtain ⟨prm, len1, h1, h2, h3⟩ := h n hn
  refine ⟨prm, len1, h1, h2, fun p1 hp1 => ?_⟩
  rw [row_full]
  exact h3 p1 hp1

/-! ### The scanned cells and positions as lists -/

theorem mem_intRange {lo hi v : ℤ} : v ∈ intRange lo hi ↔ lo ≤ v ∧ v < hi := by
  unfold intRange
  simp only [List.mem_map, List.mem_range]
  constructor
  · rintro ⟨i, hi', rfl⟩; omega
  · rintro ⟨h1, h2⟩
    exact ⟨(v - lo).toNat, by omega, by omega⟩

theorem mem_axisRange {lo hi res v : ℤ} :
    v ∈ axisRange lo hi res ↔ max lo 0 ≤ v ∧ v ≤ min hi (res - 1) := by
  unfold axisRange
  rw [mem_intRange]
  omega

theorem nodup_intRange (lo hi : ℤ) : (intRange lo hi).Nodup := by
  unfold intRange
  apply List.Nodup.map _ (List.nodup_range _)
  intro a b h
  simpa using h

theorem foldlM_flatMap {σ α β : Type} (g : σ → β → Option σ) (f : α → List β) (l : List α)
    (s : σ) :
    (l.flatMap f).foldlM g s = l.foldlM (fun s a => (f a).foldlM g s) s := by
  induction l generalizing s with
  | nil => rfl
  | cons a l ih =>
    rw [List.flatMap_cons, List.foldlM_append, List.foldlM_cons]
    rcases (f a).foldlM g s with _ | t
    · rfl
    · exact ih t

theorem scanCells_eq_cellList (prm : GridParams) (points2 : List float3) (grid_off : List ℤ)
    (spi : List ℤ) (lengths2 : List ℤ) (n : ℕ) (K : ℤ) (r : ℚ) (cur : float3) :
    scanCells prm points2 grid_off spi lengths2 n K r cur =
      (cellList prm cur r).foldlM
        (visitCell prm points2 grid_off spi lengths2 n K (r * r) cur) [] := by
  unfold scanCells cellList
  simp only [foldlM_flatMap, List.foldlM_map]

theorem visitCells_eq_some_iff (prm : GridParams) (points2 : List float3)
    (grid_off : List ℤ) (spi : List ℤ) (lengths2 : List ℤ) (n : ℕ) (K : ℤ) (r2 : ℚ)
    (cur : float3) (cells : List ℤ) : ∀ (q q' : Heap),
    cells.foldlM (visitCell prm points2 grid_off spi lengths2 n K r2 cur) q = some q' ↔
      (∀ c, c ∈ cells → ∃ b, cellBounds prm grid_off lengths2 n c = some b) ∧
      (cells.flatMap (cellPositions prm grid_off lengths2 n)).foldlM
        (visitPoint points2 spi K r2 cur) q = some q' := by
  induction cells with
  | nil =>
    intro q q'
    simp
  | cons c cells ih =>
    intro q q'
    rw [List.foldlM_cons, List.flatMap_cons, List.foldlM_append]
    unfold visitCell cellPositions
    rcases hb : cellBounds prm grid_off lengths2 n c with _ | b
    · simp only [Option.bind_eq_bind, Option.none_bind, List.mem_cons, forall_eq_or_imp, hb,
        exists_false, false_and]
      constructor
      · intro h; cases h
      · rintro ⟨⟨⟨b, hb'⟩, -⟩, -⟩; cases hb'
    · simp only [Option.bind_eq_bind, Option.some_bind, List.mem_cons, forall_eq_or_imp, hb,
        Option.some.injEq, exists_eq', true_and]
      rcases (intRange b.1 b.2).foldlM (visitPoint points2 spi K r2 cur) q with _ | t
      · simp only [Option.none_bind]
        constructor
        · intro h; cases h
        · rintro ⟨-, h⟩; cases h
      · simp only [Option.some_bind]
        exact ih t q'

/-- The cell scan of a query is the scan of its position list, provided every visited cell
has readable bounds. -/
theorem scanCells_eq_some_iff {prm : GridParams} {points2 : List float3} {grid_off : List ℤ}
    {spi : List ℤ} {lengths2 : List ℤ} {n : ℕ} {K : ℤ} {r : ℚ} {cur : float3} {q : Heap} :
    scanCells prm points2 grid_off spi lengths2 n K r cur = some q ↔
      (∀ c, c ∈ cellList prm cur r → ∃ b, cellBounds prm grid_off lengths2 n c = some b) ∧
      (scanList prm grid_off lengths2 n cur r).foldlM
        (visitPoint points2 spi K (r * r) cur) [] = some q := by
  rw [scanCells_eq_cellList, visitCells_eq_some_iff]
  rfl

/-- An invariant of a monadic fold that may depend on the elements already processed. -/
theorem foldlM_hist {σ α : Type} {f : σ → α → Option σ} (P : List α → σ → Prop) :
    ∀ (l : List α) {s s' : σ} (pre : List α), l.foldlM f s = some s' → P pre s →
      (∀ done a t t', a ∈ l → P done t → f t a = some t' → P (done ++ [a]) t') →
      P (pre ++ l) s' := by
  intro l
  induction l with
  | nil =>
    intro s s' pre h h0 _
    simp only [List.foldlM_nil, Option.pure_def, Option.some.injEq] at h
    subst h
    simpa using h0
  | cons a l ih =>
    intro s s' pre h h0 hstep
    rw [List.foldlM_cons, Option.bind_eq_bind, Option.bind_eq_some] at h
    obtain ⟨t, ht, hrest⟩ := h
    have h1 := hstep pre a s t (List.mem_cons_self a l) h0 ht
    have := ih (pre ++ [a]) hrest h1
      (fun done b u u' hb hP hf => hstep done b u u' (List.mem_cons_of_mem a hb) hP hf)
    simpa using this

/-! ### The queue during the scan of a query -/

theorem scanInv_nil (points2 : List float3) (spi : List ℤ) (K : ℤ) (r2 : ℚ) (cur : float3) :
    ScanInv points2 spi K r2 cur [] [] := by
  refine ⟨heapSorted_nil, ?_, ?_, ?_⟩
  · simp
  · intro e he; cases he
  · intro i hi; cases hi

theorem scanInv_step {points2 : List float3} {spi : List ℤ} {K : ℤ} {r2 : ℚ} {cur : float3}
    {done : List ℤ} {q q' : Heap} {i : ℤ} (inv : ScanInv points2 spi K r2 cur done q)
    (h : visitPoint points2 spi K r2 cur q i = some q') :
    ScanInv points2 spi K r2 cur (done ++ [i]) q' := by
  obtain ⟨pt, hpt, heff⟩ := visitPoint_cases h
  have hW : withinR points2 cur r2 i = decide (sqDist pt cur ≤ r2) := by
    simp [withinR, hpt]
  have hcount : ((done ++ [i]).countP (withinR points2 cur r2) : ℕ)
      = done.countP (withinR points2 cur r2) + (if sqDist pt cur ≤ r2 then 1 else 0) := by
    rw [List.countP_append]
    by_cases hr : sqDist pt cur ≤ r2 <;> simp [hW, hr]
  have hlen := inv.len
  -- the entries of the old queue stay sound
  have hsound_old : ∀ e, e ∈ q → ∃ j, j ∈ done ++ [i] ∧ ∃ pt, getAt points2 j = some pt ∧
      getAt spi j = some e.2 ∧ e.1 = sqDist pt cur ∧ e.1 ≤ r2 := by
    intro e he
    obtain ⟨j, hj, rest⟩ := inv.sound e he
    exact ⟨j, List.mem_append_left _ hj, rest⟩
  rcases heff with ⟨hr, rfl⟩ | ⟨hr, hk, idx, hidx, rfl⟩ | ⟨hr, hk, hd, rest, rfl, hcase⟩
  · -- outside the radius
    refine ⟨inv.sorted, ?_, hsound_old, ?_⟩
    · rw [hcount, if_neg hr]; simpa using hlen
    · intro j hj pt' idx' hpt' hidx' hr'
      rcases List.mem_append.mp hj with hj | hj
      · exact inv.complete j hj pt' idx' hpt' hidx' hr'
      · have : j = i := by simpa using hj
        subst this
        rw [hpt] at hpt'; injection hpt' with hpt'; subst hpt'
        exact absurd hr' hr
  · -- the queue is not full: the candidate is pushed
    refine ⟨heapSorted_heapPush inv.sorted, ?_, ?_, ?_⟩
    · rw [hcount, if_pos hr, length_heapPush]
      push_cast
      omega
    · intro e he
      rcases mem_heapPush.mp he with rfl | he
      · exact ⟨i, by simp, pt, hpt, hidx, rfl, hr⟩
      · exact hsound_old e he
    · intro j hj pt' idx' hpt' hidx' hr'
      rcases List.mem_append.mp hj with hj | hj
      · rcases inv.complete j hj pt' idx' hpt' hidx' hr' with hm | ⟨hfull, -⟩
        · exact Or.inl (mem_heapPush.mpr (Or.inr hm))
        · omega
      · have : j = i := by simpa using hj
        subst this
        rw [hpt] at hpt'; injection hpt' with hpt'; subst hpt'
        rw [hidx] at hidx'; injection hidx' with hidx'; subst hidx'
        exact Or.inl (mem_heapPush.mpr (Or.inl rfl))
  · -- the queue is full
    have hK : K ≤ ((hd :: rest).length : ℤ) := not_lt.mp hk
    have hsorted := inv.sorted
    rcases hcase with ⟨hlt, rfl⟩ | ⟨hlt, idx, hidx, rfl⟩
    · -- the candidate is not below the top: the queue is unchanged
      refine ⟨hsorted, ?_, hsound_old, ?_⟩
      · rw [hcount, if_pos hr]
        push_cast
        simp only [List.length_cons] at hlen hK ⊢
        push_cast at hlen hK ⊢
        omega
      · intro j hj pt' idx' hpt' hidx' hr'
        rcases List.mem_append.mp hj with hj | hj
        · exact inv.complete j hj pt' idx' hpt' hidx' hr'
        · have : j = i := by simpa using hj
          subst this
          rw [hpt] at hpt'; injection hpt' with hpt'; subst hpt'
          refine Or.inr ⟨hK, fun e he => ?_⟩
          exact le_trans (fst_le_head hsorted he) (not_lt.mp hlt)
    · -- the candidate replaces the top
      have hrest_le : ∀ e, e ∈ heapPush (sqDist pt cur, idx) rest → e.1 ≤ hd.1 := by
        intro e he
        rcases mem_heapPush.mp he with rfl | he
        · exact le_of_lt hlt
        · exact fst_le_head hsorted (List.mem_cons_of_mem _ he)
      have hlen' : ((heapPush (sqDist pt cur, idx) rest).length : ℤ)
          = ((hd :: rest).length : ℤ) := by
        rw [length_heapPush]; simp
      refine ⟨heapSorted_heapPush (heapSorted_tail hsorted), ?_, ?_, ?_⟩
      · rw [hlen', hcount, if_pos hr]
        simp only [List.length_cons] at hlen hK ⊢
        push_cast at hlen hK ⊢
        omega
      · intro e he
        rcases mem_heapPush.mp he with rfl | he
        · exact ⟨i, by simp, pt, hpt, hidx, rfl, hr⟩
        · exact hsound_old e (List.mem_cons_of_mem _ he)
      · intro j hj pt' idx' hpt' hidx' hr'
        rcases List.mem_append.mp hj with hj | hj
        · rcases inv.complete j hj pt' idx' hpt' hidx' hr' with hm | ⟨-, hall⟩
          · rcases List.mem_cons.mp hm with heq | hm
            · refine Or.inr ⟨hlen' ▸ hK, fun e he => ?_⟩
              have := hrest_le e he
              rw [← heq] at this
              exact this
            · exact Or.inl (mem_heapPush.mpr (Or.inr hm))
          · refine Or.inr ⟨hlen' ▸ hK, fun e he => ?_⟩
            exact le_trans (hrest_le e he) (hall hd (List.mem_cons_self _ _))
        · have : j = i := by simpa using hj
          subst this
          rw [hpt] at hpt'; injection hpt' with hpt'; subst hpt'
          rw [hidx] at hidx'; injection hidx' with hidx'; subst hidx'
          exact Or.inl (mem_heapPush.mpr (Or.inl rfl))

/-- The queue after the scan of a list of positions. -/
theorem scan_inv {points2 : List float3} {spi : List ℤ} {K : ℤ} {r2 : ℚ} {cur : float3}
    {l : List ℤ} {q : Heap}
    (h : l.foldlM (visitPoint points2 spi K r2 cur) [] = some q) :
    ScanInv points2 spi K r2 cur l q := by
  have := foldlM_hist (ScanInv points2 spi K r2 cur) l [] h (scanInv_nil _ _ _ _ _)
    (fun done a t t' _ hP hf => scanInv_step hP hf)
  simpa using this

/-! ### The result rows of a query -/

theorem mem_cellList {prm : GridParams} {cur : float3} {r : ℚ} {c : ℤ} :
    c ∈ cellList prm cur r ↔ ∃ x y z : ℤ,
      (max (minGc prm cur r).x 0 ≤ x ∧ x ≤ min (maxGc prm cur r).x (prm.grid_res.x - 1)) ∧
      (max (minGc prm cur r).y 0 ≤ y ∧ y ≤ min (maxGc prm cur r).y (prm.grid_res.y - 1)) ∧
      (max (minGc prm cur r).z 0 ≤ z ∧ z ≤ min (maxGc prm cur r).z (prm.grid_res.z - 1)) ∧
      c = (x * prm.grid_res.y + y) * prm.grid_res.z + z := by
  unfold cellList
  simp only [List.mem_flatMap, List.mem_map, mem_axisRange]
  constructor
  · rintro ⟨x, hx, y, hy, z, hz, rfl⟩; exact ⟨x, y, z, hx, hy, hz, rfl⟩
  · rintro ⟨x, y, z, hx, hy, hz, rfl⟩; exact ⟨x, hx, y, hy, z, hz, rfl⟩

theorem mem_scanList {prm : GridParams} {grid_off : List ℤ} {lengths2 : List ℤ} {n : ℕ}
    {cur : float3} {r : ℚ} {i : ℤ} :
    i ∈ scanList prm grid_off lengths2 n cur r ↔ Scanned prm grid_off lengths2 n cur r i := by
  unfold scanList Scanned
  simp only [List.mem_flatMap, mem_cellList]
  constructor
  · rintro ⟨c, ⟨x, y, z, hx, hy, hz, rfl⟩, hi⟩
    unfold cellPositions at hi
    rcases hb : cellBounds prm grid_off lengths2 n
      ((x * prm.grid_res.y + y) * prm.grid_res.z + z) with _ | b
    · rw [hb] at hi; cases hi
    · rw [hb] at hi
      exact ⟨x, y, z, hx, hy, hz, b, hb, mem_intRange.mp hi⟩
  · rintro ⟨x, y, z, hx, hy, hz, b, hb, hi⟩
    refine ⟨_, ⟨x, y, z, hx, hy, hz, rfl⟩, ?_⟩
    unfold cellPositions
    rw [hb]
    exact mem_intRange.mpr hi

/-- The rows of a result of `FindNbrsCPU`, for the batch element `n`: a row past the valid
queries holds the sentinel; the row of a valid query lists the final queue of its scan in
ascending order, followed by the sentinel. -/
theorem FindNbrsCPU_query {points1 points2 : List (List float3)}
    {lengths1 lengths2 : List ℤ} {grid_off spi : List (List ℤ)} {params : List GridParams}
    {K : ℤ} {r : ℚ} {out : NbrsOut}
    (h : FindNbrsCPU points1 points2 lengths1 lengths2 grid_off spi params K r = some out)
    {n : ℕ} (hn : n < points1.length) :
    0 ≤ K ∧ ∃ prm len1, params[n]? = some prm ∧ lengths1[n]? = some len1 ∧
      ∀ p1, p1 < (points1.headD []).length →
        (len1.toNat ≤ p1 → out.row n p1 = sentinelRows K) ∧
        (p1 < len1.toNat → ∃ cur q, (points1.getD n [])[p1]? = some cur ∧
          scanCells prm (points2.getD n []) (grid_off.getD n []) (spi.getD n []) lengths2 n
            K r cur = some q ∧
          q.length ≤ K.toNat ∧
          out.row n p1 =
            (q.reverse.map Prod.snd ++ List.replicate (K.toNat - q.length) (-1),
             q.reverse.map Prod.fst ++ List.replicate (K.toNat - q.length) (-1))) := by
  obtain ⟨hK, hrows⟩ := FindNbrsCPU_rows h
  refine ⟨hK, ?_⟩
  obtain ⟨prm, len1, hprm, hlen1, hq⟩ := hrows n hn
  refine ⟨prm, len1, hprm, hlen1, fun p1 hp1 => ?_⟩
  have hinit : initRows points1.length (points1.headD []).length K n p1 = sentinelRows K := by
    unfold initRows
    rw [if_pos ⟨hn, hp1⟩]
  constructor
  · intro hle
    rw [(hq p1).2 hle, hinit]
  · intro hlt
    have := (hq p1).1 hlt
    rw [hinit] at this
    unfold queryRows at this
    simp only [Option.bind_eq_some] at this
    obtain ⟨cur, hcur, q, hscan, hdrain⟩ := this
    obtain ⟨h1, -, h3⟩ := (drain_eq_some_iff q _ _ _).mp hdrain
    simp only [sentinelRows, List.length_replicate] at h1
    refine ⟨cur, q, hcur, hscan, h1, ?_⟩
    rw [h3]
    simp [sentinelRows]

theorem rowsOf_length {q : Heap} {Kn : ℕ} (h : q.length ≤ Kn) :
    (rowsOf q Kn).1.length = Kn ∧ (rowsOf q Kn).2.length = Kn := by
  simp only [rowsOf, List.length_append, List.length_map, List.length_reverse,
    List.length_replicate]
  omega

theorem rowsOf_filled {q : Heap} (Kn : ℕ) {k : ℕ} (hk : k < q.length) :
    ∃ e, q.reverse[k]? = some e ∧ e ∈ q ∧ (rowsOf q Kn).1[k]? = some e.2 ∧
      (rowsOf q Kn).2[k]? = some e.1 := by
  have hk' : k < q.reverse.length := by simpa using hk
  refine ⟨q.reverse[k], List.getElem?_eq_getElem hk', ?_, ?_, ?_⟩
  · exact List.mem_reverse.mp (List.getElem_mem hk')
  · simp only [rowsOf]
    rw [List.getElem?_append_left (by simpa using hk), List.getElem?_map,
      List.getElem?_eq_getElem hk']
    rfl
  · simp only [rowsOf]
    rw [List.getElem?_append_left (by simpa using hk), List.getElem?_map,
      List.getElem?_eq_getElem hk']
    rfl

theorem rowsOf_sentinel {q : Heap} {Kn k : ℕ} (h1 : q.length ≤ k) (h2 : k < Kn) :
    (rowsOf q Kn).1[k]? = some (-1) ∧ (rowsOf q Kn).2[k]? = some (-1) := by
  simp only [rowsOf]
  constructor
  · rw [List.getElem?_append_right (by simpa using h1)]
    simp only [List.length_map, List.length_reverse]
    rw [List.getElem?_replicate, if_pos (by omega)]
  · rw [List.getElem?_append_right (by simpa using h1)]
    simp only [List.length_map, List.length_reverse]
    rw [List.getElem?_replicate, if_pos (by omega)]

theorem rowsOf_sorted {q : Heap} (hs : HeapSorted q) {j k : ℕ} (hjk : j ≤ k) {ej ek : ℚ × ℤ}
    (hj : q.reverse[j]? = some ej) (hk : q.reverse[k]? = some ek) : ej.1 ≤ ek.1 := by
  rcases Nat.eq_or_lt_of_le hjk with rfl | hlt
  · rw [hj] at hk; injection hk with hk; rw [hk]
  · have hp : q.reverse.Pairwise (fun a b => a.1 ≤ b.1) := by
      rw [List.pairwise_reverse]
      exact hs.imp (fun h => fst_le_of_not_tupleLt h)
    obtain ⟨hj', hje⟩ := List.getElem?_eq_some_iff.mp hj
    obtain ⟨hk', hke⟩ := List.getElem?_eq_some_iff.mp hk
    have := List.pairwise_iff_getElem.mp hp j k hj' hk' hlt
    rw [hje, hke] at this
    exact this

/-- C5: in a result of `FindNbrsCPU`, the rows `idxs[n][p1]` and `dists[n][p1]` of a query
index `p1 ≥ lengths1[n]` hold the sentinel `-1` in all `K` slots. -/
theorem C5_rows_past_length_are_sentinel (points1 points2 : List (List float3))
    (lengths1 lengths2 : List ℤ) (grid_off sorted_point_idx : List (List ℤ))
    (params : List GridParams) (K : ℤ) (r : ℚ) (out : NbrsOut)
    (hrun : FindNbrsCPU points1 points2 lengths1 lengths2 grid_off sorted_point_idx params K r
      = some out)
    (n p1 : ℕ) (hn : n < points1.length) (hp1 : p1 < (points1.headD []).length)
    (hlen : lengths1.getD n 0 ≤ (p1 : ℤ)) :
    (out.idxs.getD n []).getD p1 [] = List.replicate K.toNat (-1) ∧
    (out.dists.getD n []).getD p1 [] = List.replicate K.toNat (-1) := by
  obtain ⟨-, prm, len1, -, hlen1, hq⟩ := FindNbrsCPU_query hrun hn
  have hl : lengths1.getD n 0 = len1 := by
    rw [List.getD_eq_getElem?_getD, hlen1, Option.getD_some]
  have := (hq p1 hp1).1 (by omega)
  exact ⟨congrArg Prod.fst this, congrArg Prod.snd this⟩

/-- C3: in a result of `FindNbrsCPU` (a run whose accesses are all in bounds; `0 ≤ K` then
holds), every result row has `K` slots of which the first `m ≤ K` are filled with
non-negative distances in non-decreasing order and the slots `m, ..., K-1` hold the
sentinel `(-1, -1)`. -/
theorem C3_result_row_shape (points1 points2 : List (List float3))
    (lengths1 lengths2 : List ℤ) (grid_off sorted_point_idx : List (List ℤ))
    (params : List GridParams) (K : ℤ) (r : ℚ) (out : NbrsOut)
    (hrun : FindNbrsCPU points1 points2 lengths1 lengths2 grid_off sorted_point_idx params K r
      = some out)
    (n p1 : ℕ) (hn : n < points1.length) (hp1 : p1 < (points1.headD []).length) :
    ∃ m : ℕ, (m : ℤ) ≤ K ∧
      (out.row n p1).1.length = K.toNat ∧ (out.row n p1).2.length = K.toNat ∧
      (∀ k, k < m → ∃ d, (out.row n p1).2[k]? = some d ∧ 0 ≤ d) ∧
      (∀ k, m ≤ k → k < K.toNat →
        (out.row n p1).1[k]? = some (-1) ∧ (out.row n p1).2[k]? = some (-1)) ∧
      (∀ j k dj dk, j ≤ k → k < m → (out.row n p1).2[j]? = some dj →
        (out.row n p1).2[k]? = some dk → dj ≤ dk) := by
  obtain ⟨hK, prm, len1, -, -, hq⟩ := FindNbrsCPU_query hrun hn
  by_cases hlt : p1 < len1.toNat
  · obtain ⟨cur, q, -, hscan, hqlen, hrow⟩ := (hq p1 hp1).2 hlt
    have inv := scan_inv (scanCells_eq_some_iff.mp hscan).2
    have hrow' : out.row n p1 = rowsOf q K.toNat := hrow
    rw [hrow']
    refine ⟨q.length, by omega, (rowsOf_length hqlen).1, (rowsOf_length hqlen).2, ?_, ?_, ?_⟩
    · intro k hk
      obtain ⟨e, -, he, -, h2⟩ := rowsOf_filled K.toNat hk
      obtain ⟨i, -, pt, -, -, hd, -⟩ := inv.sound e he
      exact ⟨e.1, h2, hd ▸ sqDist_nonneg pt cur⟩
    · intro k h1 h2
      exact rowsOf_sentinel h1 h2
    · intro j k dj dk hjk hk hj' hk'
      obtain ⟨ej, hej, -, -, h2j⟩ := rowsOf_filled K.toNat (Nat.lt_of_le_of_lt hjk hk)
      obtain ⟨ek, hek, -, -, h2k⟩ := rowsOf_filled K.toNat hk
      rw [h2j] at hj'; injection hj' with hj'
      rw [h2k] at hk'; injection hk' with hk'
      rw [← hj', ← hk']
      exact rowsOf_sorted inv.sorted hjk hej hek
  · have hrow := (hq p1 hp1).1 (not_lt.mp hlt)
    have hrow' : out.row n p1 = rowsOf [] K.toNat := by
      rw [hrow]; simp [sentinelRows, rowsOf]
    rw [hrow']
    refine ⟨0, hK, (rowsOf_length (Nat.zero_le _)).1, (rowsOf_length (Nat.zero_le _)).2,
      ?_, ?_, ?_⟩
    · intro k hk; omega
    · intro k h1 h2
      exact rowsOf_sentinel h1 h2
    · intro j k dj dk _ hk; omega

/-- C4: in a result of `FindNbrsCPU`, every slot `k` of a query that is not the sentinel
pair holds a pair `(idx, d)` with `0 ≤ d ≤ r * r` for which there is a scanned position `i`
of the sorted layout with `sorted_point_idx[n][i] = idx` and `d` the squared distance
between the query point and `points2[n][i]`; hence `d` is the squared distance to the point
`idx` of any tensor `orig` that stores at `idx` the point of position `i`. -/
theorem C4_result_pairs_are_scanned_candidates (points1 points2 : List (List float3))
    (lengths1 lengths2 : List ℤ) (grid_off sorted_point_idx : List (List ℤ))
    (params : List GridParams) (K : ℤ) (r : ℚ) (out : NbrsOut)
    (hrun : FindNbrsCPU points1 points2 lengths1 lengths2 grid_off sorted_point_idx params K r
      = some out)
    (n p1 k : ℕ) (hn : n < points1.length) (hp1 : p1 < (points1.headD []).length)
    (idx : ℤ) (d : ℚ) (hidx : (out.row n p1).1[k]? = some idx)
    (hd : (out.row n p1).2[k]? = some d) (hne : idx ≠ -1 ∨ d ≠ -1) :
    0 ≤ d ∧ d ≤ r * r ∧
    ∃ prm cur, params[n]? = some prm ∧ (points1.getD n [])[p1]? = some cur ∧
      ∃ i, Scanned prm (grid_off.getD n []) lengths2 n cur r i ∧
        ∃ pt, getAt (points2.getD n []) i = some pt ∧
          getAt (sorted_point_idx.getD n []) i = some idx ∧ d = sqDist pt cur ∧
          ∀ orig : List float3, getAt orig idx = some pt →
            ∃ pt', getAt orig idx = some pt' ∧ d = sqDist pt' cur := by
  obtain ⟨hK, prm, len1, hprm, -, hq⟩ := FindNbrsCPU_query hrun hn
  have hkK : k < K.toNat → ¬ (idx = -1 ∧ d = -1) → ∀ q : Heap, q.length ≤ K.toNat →
      out.row n p1 = rowsOf q K.toNat → k < q.length := by
    intro hk hns q _ hrow
    by_contra hc
    have := rowsOf_sentinel (q := q) (not_lt.mp hc) hk
    rw [← hrow, hidx, hd] at this
    exact hns ⟨Option.some.inj this.1, Option.some.inj this.2⟩
  have hns : ¬ (idx = -1 ∧ d = -1) := by tauto
  by_cases hlt : p1 < len1.toNat
  · obtain ⟨cur, q, hcur, hscan, hqlen, hrow⟩ := (hq p1 hp1).2 hlt
    have inv := scan_inv (scanCells_eq_some_iff.mp hscan).2
    have hrow' : out.row n p1 = rowsOf q K.toNat := hrow
    have hk : k < K.toNat := by
      have h1 := (List.getElem?_eq_some_iff.mp hidx).1
      rw [hrow', (rowsOf_length hqlen).1] at h1
      exact h1
    have hkq := hkK hk hns q hqlen hrow'
    obtain ⟨e, -, he, h1, h2⟩ := rowsOf_filled K.toNat hkq
    rw [← hrow', hidx] at h1
    rw [← hrow', hd] at h2
    injection h1 with h1
    injection h2 with h2
    obtain ⟨i, hi, pt, hpt, hspi, hdist, hr2⟩ := inv.sound e he
    subst h1
    subst h2
    refine ⟨hdist ▸ sqDist_nonneg pt cur, hr2, prm, cur, hprm, hcur, i, mem_scanList.mp hi, pt,
      hpt, hspi, hdist, ?_⟩
    intro orig horig
    exact ⟨pt, horig, hdist⟩
  · exfalso
    have hrow := (hq p1 hp1).1 (not_lt.mp hlt)
    have hrow' : out.row n p1 = rowsOf [] K.toNat := by
      rw [hrow]; simp [sentinelRows, rowsOf]
    have hk : k < K.toNat := by
      have h1 := (List.getElem?_eq_some_iff.mp hidx).1
      rw [hrow', (rowsOf_length (Nat.zero_le _)).1] at h1
      exact h1
    have := hkK hk hns [] (Nat.zero_le _) hrow'
    simp at this

/-! ### The scan order -/

theorem pairwise_lt_intRange (lo hi : ℤ) : (intRange lo hi).Pairwise (· < ·) := by
  unfold intRange
  rw [List.pairwise_map]
  exact (List.pairwise_lt_range _).imp (fun h => by omega)

theorem pairwise_lt_axisRange (lo hi res : ℤ) : (axisRange lo hi res).Pairwise (· < ·) :=
  pairwise_lt_intRange _ _

/-- The cells of a query are visited in strictly increasing order of their flat id. -/
theorem pairwise_lt_cellList (prm : GridParams) (cur : float3) (r : ℚ) :
    (cellList prm cur r).Pairwise (· < ·) := by
  unfold cellList
  rw [List.pairwise_flatMap]
  constructor
  · intro x _
    rw [List.pairwise_flatMap]
    constructor
    · intro y _
      rw [List.pairwise_map]
      exact (pairwise_lt_axisRange _ _ _).imp (fun h => by omega)
    · apply (pairwise_lt_axisRange _ _ _).imp_of_mem
      intro y y' hy hy' hlt c hc c' hc'
      simp only [List.mem_map, mem_axisRange] at hc hc'
      obtain ⟨z, hz, rfl⟩ := hc
      obtain ⟨z', hz', rfl⟩ := hc'
      have h1 : z ≤ prm.grid_res.z - 1 := le_trans hz.2 (min_le_right _ _)
      have h2 : 0 ≤ z' := le_trans (le_max_right _ _) hz'.1
      have h3 : (x * prm.grid_res.y + y + 1) * prm.grid_res.z
          ≤ (x * prm.grid_res.y + y') * prm.grid_res.z :=
        Int.mul_le_mul_of_nonneg_right (by omega) (by omega)
      nlinarith
  · apply (pairwise_lt_axisRange _ _ _).imp_of_mem
    intro x x' hx hx' hlt c hc c' hc'
    simp only [List.mem_flatMap, List.mem_map, mem_axisRange] at hc hc'
    obtain ⟨y, hy, z, hz, rfl⟩ := hc
    obtain ⟨y', hy', z', hz', rfl⟩ := hc'
    have h1 : z ≤ prm.grid_res.z - 1 := le_trans hz.2 (min_le_right _ _)
    have h2 : 0 ≤ z' := le_trans (le_max_right _ _) hz'.1
    have h3 : y ≤ prm.grid_res.y - 1 := le_trans hy.2 (min_le_right _ _)
    have h4 : 0 ≤ y' := le_trans (le_max_right _ _) hy'.1
    have h5 : 0 ≤ z := le_trans (le_max_right _ _) hz.1
    have h6 : (x + 1) * prm.grid_res.y ≤ x' * prm.grid_res.y :=
      Int.mul_le_mul_of_nonneg_right (by omega) (by omega)
    have h7 : (x * prm.grid_res.y + y + 1) * prm.grid_res.z
        ≤ (x' * prm.grid_res.y + y') * prm.grid_res.z :=
      Int.mul_le_mul_of_nonneg_right (by nlinarith) (by omega)
    nlinarith

/-- A visited cell has coordinates inside the grid, hence a flat id in `[0, rx * ry * rz)`. -/
theorem cellList_bounds {prm : GridParams} {cur : float3} {r : ℚ} {c : ℤ}
    (hc : c ∈ cellList prm cur r) :
    0 ≤ c ∧ c < prm.grid_res.x * prm.grid_res.y * prm.grid_res.z := by
  obtain ⟨x, y, z, hx, hy, hz, rfl⟩ := mem_cellList.mp hc
  apply flat_cell_bounds
  · exact le_trans (le_max_right _ _) hx.1
  · have := le_trans hx.2 (min_le_right _ _); omega
  · exact le_trans (le_max_right _ _) hy.1
  · have := le_trans hy.2 (min_le_right _ _); omega
  · exact le_trans (le_max_right _ _) hz.1
  · have := le_trans hz.2 (min_le_right _ _); omega

/-! ### The well-formed sorted layout -/

theorem SortedLayout.facts {prm : GridParams} {points2 : List float3} {len2 : ℤ}
    {grid_off spi : List ℤ} (h : SortedLayout prm points2 len2 grid_off spi) :
    LayoutFacts prm points2 len2 grid_off spi
      (fun c => cellCount (refCell prm points2) len2.toNat (c : ℤ)) := by
  obtain ⟨htot, hlen, hpts, hidx, hoff, hpl⟩ := h
  have hcell : ∀ i, i < len2.toNat →
      0 ≤ refCell prm points2 i ∧ (refCell prm points2 i).toNat < prm.grid_total.toNat := by
    intro i hi
    obtain ⟨⟨hx0, hx1⟩, ⟨hy0, hy1⟩, ⟨hz0, hz1⟩⟩ := (hpl i hi).1
    have := flat_cell_bounds hx0 hx1 hy0 hy1 hz0 hz1
    rw [← htot] at this
    have h1 : 0 ≤ refCell prm points2 i := this.1
    have h2 : refCell prm points2 i < prm.grid_total := this.2
    exact ⟨h1, by omega⟩
  have hoff' : ∀ c : ℤ, 0 ≤ c → c < prm.grid_total → getAt grid_off c = some
      ((offsetOf (fun c' => cellCount (refCell prm points2) len2.toNat (c' : ℤ)) c.toNat : ℕ)
        : ℤ) := by
    intro c h0 h1
    rw [getAt_eq_some_iff]
    exact ⟨h0, hoff c.toNat (by omega)⟩
  refine ⟨fun _ => rfl, htot, hlen, ?_, ?_, hcell, offsetOf_cellCount _ _ hcell, hoff', ?_⟩
  · intro i hi
    unfold pointAt
    rw [List.getD_eq_getElem?_getD, List.getElem?_eq_getElem (by omega), Option.getD_some]
  · intro i hi
    exact ⟨_, List.getElem?_eq_getElem (by omega)⟩
  · intro i hi
    obtain ⟨h0, h1⟩ := hcell i hi
    obtain ⟨-, h2, h3⟩ := hpl i hi
    have hget : grid_off.getD (refCell prm points2 i).toNat 0 = ((offsetOf
        (fun c' => cellCount (refCell prm points2) len2.toNat (c' : ℤ))
        (refCell prm points2 i).toNat : ℕ) : ℤ) := by
      rw [List.getD_eq_getElem?_getD, hoff _ h1, Option.getD_some]
    rw [hget] at h2 h3
    have hc : (((refCell prm points2 i).toNat : ℕ) : ℤ) = refCell prm points2 i :=
      Int.toNat_of_nonneg h0
    simp only [hc]
    constructor
    · exact_mod_cast h2
    · exact_mod_cast h3

theorem cellBounds_wf {prm : GridParams} {points2 : List float3} {len2 : ℤ}
    {grid_off spi : List ℤ} {f : ℕ → ℕ} (F : LayoutFacts prm points2 len2 grid_off spi f)
    {lengths2 : List ℤ} {n : ℕ} (hl : lengths2[n]? = some len2) {c : ℤ} (h0 : 0 ≤ c)
    (h1 : c < prm.grid_total) :
    cellBounds prm grid_off lengths2 n c
      = some (((offsetOf f c.toNat : ℕ) : ℤ), ((offsetOf f c.toNat + f c.toNat : ℕ) : ℤ)) := by
  unfold cellBounds
  rw [F.off c h0 h1]
  simp only [Option.bind_eq_bind, Option.some_bind, Option.pure_def]
  have hsucc : offsetOf f (c.toNat + 1) = offsetOf f c.toNat + f c.toNat := rfl
  by_cases hlast : c + 1 = prm.grid_total
  · rw [if_pos hlast, hl]
    simp only [Option.some_bind]
    have h2 : prm.grid_total.toNat = c.toNat + 1 := by omega
    have h3 := F.sum_eq
    rw [h2, hsucc] at h3
    have h4 := F.len_nonneg
    congr 2
    omega
  · rw [if_neg hlast, F.off (c + 1) (by omega) (by omega)]
    simp only [Option.some_bind]
    have h2 : (c + 1).toNat = c.toNat + 1 := by omega
    rw [h2, hsucc]

theorem cellPositions_wf {prm : GridParams} {points2 : List float3} {len2 : ℤ}
    {grid_off spi : List ℤ} {f : ℕ → ℕ} (F : LayoutFacts prm points2 len2 grid_off spi f)
    {lengths2 : List ℤ} {n : ℕ} (hl : lengths2[n]? = some len2) {cur : float3} {r : ℚ}
    {c : ℤ} (hc : c ∈ cellList prm cur r) :
    cellPositions prm grid_off lengths2 n c
      = intRange ((offsetOf f c.toNat : ℕ) : ℤ) ((offsetOf f c.toNat + f c.toNat : ℕ) : ℤ) := by
  have hb := cellList_bounds hc
  rw [← F.total_eq] at hb
  unfold cellPositions
  rw [cellBounds_wf F hl hb.1 hb.2]

theorem mem_scanList_wf {prm : GridParams} {points2 : List float3} {len2 : ℤ}
    {grid_off spi : List ℤ} {f : ℕ → ℕ} (F : LayoutFacts prm points2 len2 grid_off spi f)
    {lengths2 : List ℤ} {n : ℕ} (hl : lengths2[n]? = some len2) {cur : float3} {r : ℚ}
    {i : ℤ} :
    i ∈ scanList prm grid_off lengths2 n cur r ↔
      ∃ c, c ∈ cellList prm cur r ∧ ((offsetOf f c.toNat : ℕ) : ℤ) ≤ i ∧
        i < ((offsetOf f c.toNat + f c.toNat : ℕ) : ℤ) := by
  unfold scanList
  rw [List.mem_flatMap]
  constructor
  · rintro ⟨c, hc, hi⟩
    rw [cellPositions_wf F hl hc, mem_intRange] at hi
    exact ⟨c, hc, hi⟩
  · rintro ⟨c, hc, hi⟩
    refine ⟨c, hc, ?_⟩
    rw [cellPositions_wf F hl hc, mem_intRange]
    exact hi

/-- Every scanned position of a well-formed layout is a valid position. -/
theorem scanList_valid {prm : GridParams} {points2 : List float3} {len2 : ℤ}
    {grid_off spi : List ℤ} {f : ℕ → ℕ} (F : LayoutFacts prm points2 len2 grid_off spi f)
    {lengths2 : List ℤ} {n : ℕ} (hl : lengths2[n]? = some len2) {cur : float3} {r : ℚ}
    {i : ℤ} (hi : i ∈ scanList prm grid_off lengths2 n cur r) : 0 ≤ i ∧ i < len2 := by
  obtain ⟨c, hc, h1, h2⟩ := (mem_scanList_wf F hl).mp hi
  have hb := cellList_bounds hc
  rw [← F.total_eq] at hb
  have h3 : offsetOf f c.toNat + f c.toNat ≤ offsetOf f prm.grid_total.toNat :=
    offsetOf_succ_le f (by omega)
  rw [F.sum_eq] at h3
  have h4 := F.len_nonneg
  constructor
  · omega
  · have : ((offsetOf f c.toNat + f c.toNat : ℕ) : ℤ) ≤ ((len2.toNat : ℕ) : ℤ) := by
      exact_mod_cast h3
    omega

/-- A valid position whose cell is visited is scanned. -/
theorem mem_scanList_of_cell {prm : GridParams} {points2 : List float3} {len2 : ℤ}
    {grid_off spi : List ℤ} {f : ℕ → ℕ} (F : LayoutFacts prm points2 len2 grid_off spi f)
    {lengths2 : List ℤ} {n : ℕ} (hl : lengths2[n]? = some len2) {cur : float3} {r : ℚ}
    {i : ℕ} (hi : i < len2.toNat) (hc : refCell prm points2 i ∈ cellList prm cur r) :
    (i : ℤ) ∈ scanList prm grid_off lengths2 n cur r := by
  rw [mem_scanList_wf F hl]
  refine ⟨_, hc, ?_, ?_⟩
  · exact_mod_cast (F.placed i hi).1
  · exact_mod_cast (F.placed i hi).2

/-- The positions of a well-formed layout are scanned in strictly increasing order; in
particular no position is scanned twice. -/
theorem pairwise_lt_scanList {prm : GridParams} {points2 : List float3} {len2 : ℤ}
    {grid_off spi : List ℤ} {f : ℕ → ℕ} (F : LayoutFacts prm points2 len2 grid_off spi f)
    {lengths2 : List ℤ} {n : ℕ} (hl : lengths2[n]? = some len2) (cur : float3) (r : ℚ) :
    (scanList prm grid_off lengths2 n cur r).Pairwise (· < ·) := by
  unfold scanList
  rw [List.pairwise_flatMap]
  constructor
  · intro c hc
    rw [cellPositions_wf F hl hc]
    exact pairwise_lt_intRange _ _
  · apply (pairwise_lt_cellList prm cur r).imp_of_mem
    intro c c' hc hc' hlt i hi i' hi'
    rw [cellPositions_wf F hl hc, mem_intRange] at hi
    rw [cellPositions_wf F hl hc', mem_intRange] at hi'
    have hb := cellList_bounds hc
    have h3 : offsetOf f c.toNat + f c.toNat ≤ offsetOf f c'.toNat :=
      offsetOf_succ_le f (by omega)
    have : ((offsetOf f c.toNat + f c.toNat : ℕ) : ℤ) ≤ ((offsetOf f c'.toNat : ℕ) : ℤ) := by
      exact_mod_cast h3
    omega

/-! ### The scan of a well-formed layout succeeds -/

theorem visitPoint_isSome {points2 : List float3} {spi : List ℤ} {K : ℤ} {r2 : ℚ}
    {cur : float3} {i : ℤ} (hK : 1 ≤ K) {pt : float3} (hpt : getAt points2 i = some pt)
    {j : ℤ} (hj : getAt spi i = some j) (q : Heap) :
    ∃ q', visitPoint points2 spi K r2 cur q i = some q' := by
  by_cases hr : sqDist pt cur ≤ r2
  · by_cases hk : (q.length : ℤ) < K
    · exact ⟨_, visitPoint_of_effect hpt (Or.inr (Or.inl ⟨hr, hk, j, hj, rfl⟩))⟩
    · rcases q with _ | ⟨hd, rest⟩
      · simp at hk; omega
      · by_cases hlt : sqDist pt cur < hd.1
        · exact ⟨_, visitPoint_of_effect hpt
            (Or.inr (Or.inr ⟨hr, hk, hd, rest, rfl, Or.inr ⟨hlt, j, hj, rfl⟩⟩))⟩
        · exact ⟨_, visitPoint_of_effect hpt
            (Or.inr (Or.inr ⟨hr, hk, hd, rest, rfl, Or.inl ⟨hlt, rfl⟩⟩))⟩
  · exact ⟨_, visitPoint_of_effect hpt (Or.inl ⟨hr, rfl⟩)⟩

theorem scan_isSome {points2 : List float3} {spi : List ℤ} {K : ℤ} {r2 : ℚ} {cur : float3}
    (hK : 1 ≤ K) (l : List ℤ)
    (h : ∀ i, i ∈ l → (∃ pt, getAt points2 i = some pt) ∧ ∃ j, getAt spi i = some j) :
    ∀ q : Heap, ∃ q', l.foldlM (visitPoint points2 spi K r2 cur) q = some q' := by
  induction l with
  | nil => intro q; exact ⟨q, rfl⟩
  | cons i l ih =>
    intro q
    obtain ⟨⟨pt, hpt⟩, j, hj⟩ := h i (List.mem_cons_self _ _)
    have h1 : ∃ q', visitPoint points2 spi K r2 cur q i = some q' :=
      visitPoint_isSome hK hpt hj q
    obtain ⟨q1, hq1⟩ := h1
    obtain ⟨q2, hq2⟩ := ih (fun i' hi' => h i' (List.mem_cons_of_mem _ hi')) q1
    exact ⟨q2, by rw [List.foldlM_cons, hq1]; exact hq2⟩

/-- On a well-formed layout with `K ≥ 1` the cell scan of a query returns a queue, which
satisfies the scan invariant for the list of scanned positions. -/
theorem scanCells_wf {prm : GridParams} {points2 : List float3} {len2 : ℤ}
    {grid_off spi : List ℤ} {f : ℕ → ℕ} (F : LayoutFacts prm points2 len2 grid_off spi f)
    {lengths2 : List ℤ} {n : ℕ} (hl : lengths2[n]? = some len2) {K : ℤ} (hK : 1 ≤ K)
    (r : ℚ) (cur : float3) :
    ∃ q, scanCells prm points2 grid_off spi lengths2 n K r cur = some q ∧
      ScanInv points2 spi K (r * r) cur (scanList prm grid_off lengths2 n cur r) q := by
  have hs : ∀ q0 : Heap, ∃ q', (scanList prm grid_off lengths2 n cur r).foldlM
      (visitPoint points2 spi K (r * r) cur) q0 = some q' := by
    apply scan_isSome hK
    intro i hi
    obtain ⟨h0, h1⟩ := scanList_valid F hl hi
    have hlt : i.toNat < len2.toNat := by omega
    refine ⟨⟨_, getAt_eq_some_iff.mpr ⟨h0, F.pts _ hlt⟩⟩, ?_⟩
    obtain ⟨j, hj⟩ := F.idx _ hlt
    exact ⟨j, getAt_eq_some_iff.mpr ⟨h0, hj⟩⟩
  obtain ⟨q, hq⟩ := hs []
  refine ⟨q, scanCells_eq_some_iff.mpr ⟨?_, hq⟩, scan_inv hq⟩
  intro c hc
  have hb := cellList_bounds hc
  rw [← F.total_eq] at hb
  exact ⟨_, cellBounds_wf F hl hb.1 hb.2⟩

/-! ### The searched cube covers the radius -/

/-- One axis: a reference coordinate `b` within distance `|r|` of the query coordinate `q`
whose converted grid coordinate lies in `[0, res)` belongs to the clamped range of the
query as soon as that range is not empty. -/
theorem axis_cover_of_visited {o δ q b r : ℚ} {res x : ℤ}
    (hd : (b - q) * (b - q) ≤ r * r)
    (hg0 : 0 ≤ castInt ((b - o) * δ)) (hg1 : castInt ((b - o) * δ) < res)
    (hx : max ⌊(q - o - r) * δ⌋ 0 ≤ x ∧ x ≤ min ⌊(q - o + r) * δ⌋ (res - 1)) :
    max ⌊(q - o - r) * δ⌋ 0 ≤ castInt ((b - o) * δ) ∧
      castInt ((b - o) * δ) ≤ min ⌊(q - o + r) * δ⌋ (res - 1) := by
  have hprod : 0 ≤ ((b - o) * δ - (q - o - r) * δ) * ((q - o + r) * δ - (b - o) * δ) := by
    have e : ((b - o) * δ - (q - o - r) * δ) * ((q - o + r) * δ - (b - o) * δ)
        = δ ^ 2 * (r * r - (b - q) * (b - q)) := by ring
    rw [e]
    exact mul_nonneg (sq_nonneg δ) (sub_nonneg.mpr hd)
  generalize (b - o) * δ = v at *
  generalize (q - o - r) * δ = A at *
  generalize (q - o + r) * δ = B at *
  have hcases : (A ≤ v ∧ v ≤ B) ∨ (B ≤ v ∧ v ≤ A) := by
    by_contra hc
    push_neg at hc
    obtain ⟨h1, h2⟩ := hc
    rcases lt_or_le v A with ha | ha
    · rcases lt_or_le v B with hb | hb
      · nlinarith [mul_pos (sub_pos.mpr ha) (sub_pos.mpr hb)]
      · exact absurd (le_of_lt ha) (not_le.mpr (h2 hb))
    · have hb := h1 ha
      have ha' := h2 (le_of_lt hb)
      nlinarith [mul_pos (sub_pos.mpr ha') (sub_pos.mpr hb)]
  rcases hcases with ⟨h1, h2⟩ | ⟨h1, h2⟩
  · have f1 : ⌊A⌋ ≤ ⌊v⌋ := Int.floor_le_floor h1
    have f2 : ⌊v⌋ ≤ ⌊B⌋ := Int.floor_le_floor h2
    by_cases hv : 0 ≤ v
    · rw [castInt_of_nonneg hv] at hg0 hg1 ⊢
      omega
    · have hv' : v < 0 := not_le.mp hv
      rw [castInt_of_neg hv'] at hg0 hg1 ⊢
      have c1 : ⌈v⌉ ≤ 0 := Int.ceil_le.mpr (by exact_mod_cast le_of_lt hv')
      have c2 : ⌊v⌋ < 0 := Int.floor_lt.mpr (by exact_mod_cast hv')
      omega
  · have f1 : ⌊B⌋ ≤ ⌊v⌋ := Int.floor_le_floor h1
    have f2 : ⌊v⌋ ≤ ⌊A⌋ := Int.floor_le_floor h2
    have hv0 : 0 ≤ ⌊v⌋ := by omega
    have hv : 0 ≤ v := Int.floor_nonneg.mp hv0
    rw [castInt_of_nonneg hv] at hg0 hg1 ⊢
    omega

theorem sqDist_axes (pt cur : float3) :
    (pt.x - cur.x) * (pt.x - cur.x) ≤ sqDist pt cur ∧
    (pt.y - cur.y) * (pt.y - cur.y) ≤ sqDist pt cur ∧
    (pt.z - cur.z) * (pt.z - cur.z) ≤ sqDist pt cur := by
  have h1 := mul_self_nonneg (pt.x - cur.x)
  have h2 := mul_self_nonneg (pt.y - cur.y)
  have h3 := mul_self_nonneg (pt.z - cur.z)
  unfold sqDist
  simp only
  refine ⟨by linarith, by linarith, by linarith⟩

/-- A point within the radius whose grid coordinate lies in `[0, res)` has its cell among
the visited cells, as soon as some cell is visited. -/
theorem cell_visited_of_within {prm : GridParams} {cur pt : float3} {r : ℚ}
    (hin : InGrid prm pt) (hd : sqDist pt cur ≤ r * r) {c : ℤ}
    (hc : c ∈ cellList prm cur r) :
    (GetGridCell pt.x pt.y pt.z prm).2 ∈ cellList prm cur r := by
  obtain ⟨x, y, z, hx, hy, hz, -⟩ := mem_cellList.mp hc
  obtain ⟨ax, ay, az⟩ := sqDist_axes pt cur
  obtain ⟨⟨hx0, hx1⟩, ⟨hy0, hy1⟩, ⟨hz0, hz1⟩⟩ := hin
  rw [mem_cellList]
  exact ⟨_, _, _, axis_cover_of_visited (le_trans ax hd) hx0 hx1 hx,
    axis_cover_of_visited (le_trans ay hd) hy0 hy1 hy,
    axis_cover_of_visited (le_trans az hd) hz0 hz1 hz, rfl⟩

/-- One axis, for a non-negative scaled offset, a non-negative inverse cell size and
`r ≥ 0`: the clamped range of the query contains the grid coordinate. -/
theorem axis_cover {o δ q b r : ℚ} {res : ℤ} (hδ : 0 ≤ δ) (hr : 0 ≤ r)
    (hd : (b - q) * (b - q) ≤ r * r) (hb : 0 ≤ (b - o) * δ)
    (hg1 : castInt ((b - o) * δ) < res) :
    max ⌊(q - o - r) * δ⌋ 0 ≤ castInt ((b - o) * δ) ∧
      castInt ((b - o) * δ) ≤ min ⌊(q - o + r) * δ⌋ (res - 1) := by
  have l1 : -r ≤ b - q := by
    by_contra h
    push_neg at h
    nlinarith [mul_pos (show 0 < -r - (b - q) by linarith) (show 0 < r - (b - q) by linarith)]
  have l2 : b - q ≤ r := by
    by_contra h
    push_neg at h
    nlinarith [mul_pos (show 0 < (b - q) - r by linarith) (show 0 < (b - q) + r by linarith)]
  have h1 : (q - o - r) * δ ≤ (b - o) * δ :=
    mul_le_mul_of_nonneg_right (by linarith) hδ
  have h2 : (b - o) * δ ≤ (q - o + r) * δ :=
    mul_le_mul_of_nonneg_right (by linarith) hδ
  have f1 := Int.floor_le_floor h1
  have f2 := Int.floor_le_floor h2
  rw [castInt_of_nonneg hb] at hg1 ⊢
  have f0 : 0 ≤ ⌊(b - o) * δ⌋ := Int.floor_nonneg.mpr hb
  omega

theorem getD_of_getElem? {α : Type} {l : List α} {n : ℕ} {a d : α} (h : l[n]? = some a) :
    l.getD n d = a := by
  rw [List.getD_eq_getElem?_getD, h, Option.getD_some]

theorem getElem?_of_lt_getD {α : Type} {l : List α} {n : ℕ} (h : n < l.length) (d : α) :
    l[n]? = some (l.getD n d) := by
  rw [List.getD_eq_getElem?_getD, List.getElem?_eq_getElem h, Option.getD_some]

/-- Function `FindNbrsCPU` returns a result on well-formed inputs with `K ≥ 1`. -/
theorem FindNbrsCPU_wf {points1 points2 : List (List float3)} {lengths1 lengths2 : List ℤ}
    {grid_off spi : List (List ℤ)} {params : List GridParams} {K : ℤ}
    (hwf : FindWellFormed points1 points2 lengths1 lengths2 grid_off spi params)
    (hK : 1 ≤ K) (r : ℚ) :
    ∃ out, FindNbrsCPU points1 points2 lengths1 lengths2 grid_off spi params K r
      = some out := by
  obtain ⟨hp, hl1, hl2, hall⟩ := hwf
  apply FindNbrsCPU_isSome (by omega)
  intro n hn
  obtain ⟨h1, h2, hlay⟩ := hall n hn
  refine ⟨params.getD n default, lengths1.getD n 0, getElem?_of_lt_getD (by omega) _,
    getElem?_of_lt_getD (by omega) _, ?_⟩
  intro p1 hp1
  have hinit : initRows points1.length (points1.headD []).length K n p1 = sentinelRows K := by
    unfold initRows
    rw [if_pos ⟨hn, by omega⟩]
  obtain ⟨q, hq, inv⟩ := scanCells_wf hlay.facts
    (getElem?_of_lt_getD (show n < lengths2.length by omega) 0) hK r
    ((points1.getD n []).getD p1 ⟨0, 0, 0⟩)
  have hlen := inv.len
  have hqK : q.length ≤ K.toNat := by omega
  rw [hinit]
  unfold queryRows
  rw [getElem?_of_lt_getD (show p1 < (points1.getD n []).length by omega) ⟨0, 0, 0⟩,
    Option.some_bind, hq, Option.some_bind]
  exact ⟨_, (drain_eq_some_iff q _ _ _).mpr
    ⟨by simpa [sentinelRows] using hqK, by simpa [sentinelRows] using hqK, rfl⟩⟩

theorem mem_rowsOf_snd {q : Heap} {Kn : ℕ} {e : ℚ × ℤ} (he : e ∈ q) :
    e.2 ∈ (rowsOf q Kn).1 := by
  unfold rowsOf
  simp only [List.mem_append, List.mem_map, List.mem_reverse]
  exact Or.inl ⟨e, he, rfl⟩

theorem mem_rowsOf_fst {q : Heap} {Kn : ℕ} {d : ℚ} (hd : d ∈ (rowsOf q Kn).2) :
    (∃ e, e ∈ q ∧ e.1 = d) ∨ d = -1 := by
  unfold rowsOf at hd
  simp only [List.mem_append, List.mem_map, List.mem_reverse] at hd
  rcases hd with ⟨e, he, rfl⟩ | hd
  · exact Or.inl ⟨e, he, rfl⟩
  · exact Or.inr (List.eq_of_mem_replicate hd)

/-- On well-formed inputs with `K ≥ 1`, `FindNbrsCPU` returns a result in which, for every
batch element `n` and valid query `p1`, every valid reference point (sorted position
`i < lengths2[n]`, original index `sorted_point_idx[n][i]`) that lies within the radius
(squared distance `≤ r * r`) and whose index is not returned for the query has a squared
distance `≥` every distance of the result row. This holds also for points below the grid
origin; it does not say that any point is returned. -/
theorem unreturned_candidates_are_farther (points1 points2 : List (List float3))
    (lengths1 lengths2 : List ℤ) (grid_off sorted_point_idx : List (List ℤ))
    (params : List GridParams) (K : ℤ) (r : ℚ)
    (hwf : FindWellFormed points1 points2 lengths1 lengths2 grid_off sorted_point_idx params)
    (hK : 1 ≤ K) :
    ∃ out, FindNbrsCPU points1 points2 lengths1 lengths2 grid_off sorted_point_idx params K r
        = some out ∧
      ∀ n p1 i : ℕ, n < points1.length → (p1 : ℤ) < lengths1.getD n 0 →
        (i : ℤ) < lengths2.getD n 0 →
        sqDist (pointAt (points2.getD n []) i) (pointAt (points1.getD n []) p1) ≤ r * r →
        (sorted_point_idx.getD n []).getD i (-1) ∉ (out.row n p1).1 →
        ∀ d, d ∈ (out.row n p1).2 →
          d ≤ sqDist (pointAt (points2.getD n []) i) (pointAt (points1.getD n []) p1) := by
  obtain ⟨out, hout⟩ := FindNbrsCPU_wf hwf hK r
  refine ⟨out, hout, ?_⟩
  intro n p1 i hn hp1 hi hwithin hnot d hd
  obtain ⟨hp, hl1, hl2, hall⟩ := hwf
  obtain ⟨h1, h2, hlay⟩ := hall n hn
  have F := hlay.facts
  obtain ⟨-, prm, len1, hprm, hlen1, hq⟩ := FindNbrsCPU_query hout hn
  rw [getD_of_getElem? hprm] at F hlay
  rw [getD_of_getElem? hlen1] at hp1 h1 h2
  have hp1' : p1 < len1.toNat := by omega
  obtain ⟨cur, q, hcur, hscan, hqlen, hrow⟩ := (hq p1 (by omega)).2 hp1'
  have hcur' : pointAt (points1.getD n []) p1 = cur := getD_of_getElem? hcur
  rw [hcur'] at hwithin ⊢
  have hrow' : out.row n p1 = rowsOf q K.toNat := hrow
  rw [hrow'] at hnot hd
  have hflat := scanCells_eq_some_iff.mp hscan
  have inv := scan_inv hflat.2
  have hi' : i < (lengths2.getD n 0).toNat := by omega
  have hnonneg := sqDist_nonneg (pointAt (points2.getD n []) i) cur
  rcases mem_rowsOf_fst hd with ⟨e, he, rfl⟩ | rfl
  · -- a filled slot: some position was scanned, hence some cell was visited
    obtain ⟨j, hj, -⟩ := inv.sound e he
    obtain ⟨c, hc, -⟩ := List.mem_flatMap.mp hj
    have hcell : refCell prm (points2.getD n []) i ∈ cellList prm cur r :=
      cell_visited_of_within (hlay.2.2.2.2.2 i hi').1 hwithin hc
    have hmem := mem_scanList_of_cell F
      (getElem?_of_lt_getD (show n < lengths2.length by omega) 0) hi' hcell
    obtain ⟨idx, hidx⟩ := F.idx i hi'
    have hget : (sorted_point_idx.getD n []).getD i (-1) = idx := getD_of_getElem? hidx
    rcases inv.complete (i : ℤ) hmem _ idx (by rw [getAt_natCast]; exact F.pts i hi')
        (by rw [getAt_natCast]; exact hidx) hwithin with hm | ⟨-, hall⟩
    · exact absurd (hget ▸ mem_rowsOf_snd hm) hnot
    · exact hall e he
  · linarith

/-- A point with non-negative scaled offsets, within the radius, with its grid coordinate
below the resolution has its cell among the visited cells (non-negative inverse cell size,
`r ≥ 0`). -/
theorem cell_visited {prm : GridParams} {cur pt : float3} {r : ℚ} (hδ : 0 ≤ prm.grid_delta)
    (hr : 0 ≤ r) (hin : InGrid prm pt)
    (hab : 0 ≤ (pt.x - prm.grid_min.x) * prm.grid_delta ∧
      0 ≤ (pt.y - prm.grid_min.y) * prm.grid_delta ∧
      0 ≤ (pt.z - prm.grid_min.z) * prm.grid_delta)
    (hd : sqDist pt cur ≤ r * r) :
    (GetGridCell pt.x pt.y pt.z prm).2 ∈ cellList prm cur r := by
  obtain ⟨ax, ay, az⟩ := sqDist_axes pt cur
  obtain ⟨⟨-, hx1⟩, ⟨-, hy1⟩, ⟨-, hz1⟩⟩ := hin
  rw [mem_cellList]
  exact ⟨_, _, _, axis_cover hδ hr (le_trans ax hd) hab.1 hx1,
    axis_cover hδ hr (le_trans ay hd) hab.2.1 hy1,
    axis_cover hδ hr (le_trans az hd) hab.2.2 hz1, rfl⟩

/-- On a well-formed layout whose points have non-negative scaled offsets, the scanned positions
within the radius are as many as the valid reference points within the radius. -/
theorem countP_scanList {prm : GridParams} {points2 : List float3} {len2 : ℤ}
    {grid_off spi : List ℤ} (hlay : SortedLayout prm points2 len2 grid_off spi)
    {lengths2 : List ℤ} {n : ℕ} (hl : lengths2[n]? = some len2) {cur : float3} {r : ℚ}
    (hδ : 0 ≤ prm.grid_delta) (hr : 0 ≤ r) (hab : NonnegOffsets prm points2 len2) :
    (scanList prm grid_off lengths2 n cur r).countP (withinR points2 cur (r * r))
      = withinCount points2 len2 cur r := by
  have F := hlay.facts
  have hW : ∀ i, i < len2.toNat →
      withinR points2 cur (r * r) (i : ℤ) = decide (sqDist (pointAt points2 i) cur ≤ r * r) := by
    intro i hi
    unfold withinR
    rw [getAt_natCast, F.pts i hi]
  have hfull : withinCount points2 len2 cur r
      = ((List.range len2.toNat).map (fun i : ℕ => (i : ℤ))).countP
          (withinR points2 cur (r * r)) := by
    unfold withinCount
    rw [List.countP_map]
    apply List.countP_congr
    intro i hi
    simp only [Function.comp, hW i (List.mem_range.mp hi)]
  rw [hfull, List.countP_eq_length_filter, List.countP_eq_length_filter]
  apply List.Perm.length_eq
  rw [List.perm_ext_iff_of_nodup]
  · intro a
    simp only [List.mem_filter, List.mem_map, List.mem_range]
    constructor
    · rintro ⟨ha, hw⟩
      obtain ⟨h0, h1⟩ := scanList_valid F hl ha
      exact ⟨⟨a.toNat, by omega, by omega⟩, hw⟩
    · rintro ⟨⟨i, hi, rfl⟩, hw⟩
      refine ⟨?_, hw⟩
      rw [hW i hi] at hw
      apply mem_scanList_of_cell F hl hi
      exact cell_visited hδ hr (hlay.2.2.2.2.2 i hi).1 (hab i hi) (of_decide_eq_true hw)
  · exact ((pairwise_lt_scanList F hl cur r).imp (fun h => ne_of_lt h)).filter _
  · apply List.Nodup.filter
    apply List.Nodup.map _ (List.nodup_range _)
    intro a b h
    simpa using h

/-- A grid with a negative inverse cell size: the reference point `(-3/2, 0, 0)` has scaled
offset `3/2` and grid coordinate `1` in `[0, 2)`; the cube of the query at the same point
with `r = 1` is empty (`min_gc.x = 2 > max_gc.x = 0`), so the point is not found. -/
theorem negative_delta_example :
    FindWellFormed [[⟨-3 / 2, 0, 0⟩]] [[⟨-3 / 2, 0, 0⟩]] [1] [1] [[0, 0]] [[0]]
      [{ grid_min := ⟨0, 0, 0⟩, grid_delta := -1, grid_res := ⟨2, 1, 1⟩, grid_total := 2 }] ∧
    FindNbrsCPU [[⟨-3 / 2, 0, 0⟩]] [[⟨-3 / 2, 0, 0⟩]] [1] [1] [[0, 0]] [[0]]
      [{ grid_min := ⟨0, 0, 0⟩, grid_delta := -1, grid_res := ⟨2, 1, 1⟩, grid_total := 2 }]
      1 1 = some { idxs := [[[-1]]], dists := [[[-1]]] } ∧
    withinCount [⟨-3 / 2, 0, 0⟩] 1 ⟨-3 / 2, 0, 0⟩ 1 = 1 := by
  decide!

/-- C3 (witness): the row of the valid query of the example. -/
theorem C3_result_row_shape_witness :
    ∃ m : ℕ, (m : ℤ) ≤ 3 ∧
      (exOut.row 0 0).1.length = (3 : ℤ).toNat ∧ (exOut.row 0 0).2.length = (3 : ℤ).toNat ∧
      (∀ k, k < m → ∃ d, (exOut.row 0 0).2[k]? = some d ∧ 0 ≤ d) ∧
      (∀ k, m ≤ k → k < (3 : ℤ).toNat →
        (exOut.row 0 0).1[k]? = some (-1) ∧ (exOut.row 0 0).2[k]? = some (-1)) ∧
      (∀ j k dj dk, j ≤ k → k < m → (exOut.row 0 0).2[j]? = some dj →
        (exOut.row 0 0).2[k]? = some dk → dj ≤ dk) :=
  C3_result_row_shape exQueries exSorted [1, 0] [3, 2] exOff exIdx [exParams, exParams] 3
    (1 / 2) exOut (by decide!) 0 0 (by decide) (by decide)

/-- C4 (witness): slot 1 of the valid query of the example holds the point of index 1 at
squared distance `1/4`. -/
theorem C4_result_pairs_are_scanned_candidates_witness :
    (0 : ℚ) ≤ 1 / 4 ∧ (1 / 4 : ℚ) ≤ 1 / 2 * (1 / 2) ∧
    ∃ prm cur, [exParams, exParams][0]? = some prm ∧ (exQueries.getD 0 [])[0]? = some cur ∧
      ∃ i, Scanned prm (exOff.getD 0 []) [3, 2] 0 cur (1 / 2) i ∧
        ∃ pt, getAt (exSorted.getD 0 []) i = some pt ∧
          getAt (exIdx.getD 0 []) i = some 1 ∧ (1 / 4 : ℚ) = sqDist pt cur ∧
          ∀ orig : List float3, getAt orig 1 = some pt →
            ∃ pt', getAt orig 1 = some pt' ∧ (1 / 4 : ℚ) = sqDist pt' cur :=
  C4_result_pairs_are_scanned_candidates exQueries exSorted [1, 0] [3, 2] exOff exIdx
    [exParams, exParams] 3 (1 / 2) exOut (by decide!) 0 0 1 (by decide) (by decide) 1 (1 / 4)
    (by decide) (by decide!) (by decide)

/-- C5 (witness): batch element 1 of the example has no valid query; its row holds the
sentinel. -/
theorem C5_rows_past_length_are_sentinel_witness :
    (exOut.idxs.getD 1 []).getD 0 [] = List.replicate (3 : ℤ).toNat (-1) ∧
    (exOut.dists.getD 1 []).getD 0 [] = List.replicate (3 : ℤ).toNat (-1) :=
  C5_rows_past_length_are_sentinel exQueries exSorted [1, 0] [3, 2] exOff exIdx
    [exParams, exParams] 3 (1 / 2) exOut (by decide!) 1 0 (by decide) (by decide) (by decide)

/-- C6 (witness): batch element 0 of the example: 3 valid points, counts `[2, 0, 1]`. -/
theorem C6_counts_after_insert_witness :
    ∃ out, InsertPointsCPU exPoints [3, 2] exInsertInit [exParams, exParams] = some out ∧
      (out.grid_cnt.getD 0 []).sum = [(3 : ℤ), 2].getD 0 0 ∧
      ∀ c, c < (out.grid_cnt.getD 0 []).length →
        cntOut out 0 c = (((List.range ([(3 : ℤ), 2].getD 0 0).toNat).countP
          (fun p => decide (cellOut out 0 p = (c : ℤ))) : ℕ) : ℤ) :=
  C6_counts_after_insert exPoints [3, 2] exInsertInit [exParams, exParams] (by decide!) 0
    (by decide) (by decide) (by decide)

/-- C9 (witness): batch element 0 of the example: ranks `[0, 1, 0]`. -/
theorem C9_rank_after_insert_witness :
    ∃ out, InsertPointsCPU exPoints [3, 2] exInsertInit [exParams, exParams] = some out ∧
      (∀ p, p < ([(3 : ℤ), 2].getD 0 0).toNat →
        rankOut out 0 p = (((List.range p).countP
          (fun p' => decide (cellOut out 0 p' = cellOut out 0 p)) : ℕ) : ℤ)) ∧
      (∀ p, p < ([(3 : ℤ), 2].getD 0 0).toNat →
        0 ≤ rankOut out 0 p ∧ rankOut out 0 p < cntOut out 0 (cellOut out 0 p).toNat) ∧
      (∀ p p', p < p' → p' < ([(3 : ℤ), 2].getD 0 0).toNat →
        cellOut out 0 p = cellOut out 0 p' → rankOut out 0 p < rankOut out 0 p') ∧
      (∀ c, c < (out.grid_cnt.getD 0 []).length → ∀ k : ℤ, 0 ≤ k → k < cntOut out 0 c →
        ∃ p, p < ([(3 : ℤ), 2].getD 0 0).toNat ∧ cellOut out 0 p = (c : ℤ) ∧
          rankOut out 0 p = k) :=
  C9_rank_after_insert exPoints [3, 2] exInsertInit [exParams, exParams] (by decide!) 0
    (by decide) (by decide)

/-- C10 (witness): batch element 0 of the example, whose offsets are `[0, 2, 2]`. -/
theorem C10_scatter_address_bijection_witness :
    ∃ out, InsertPointsCPU exPoints [3, 2] exInsertInit [exParams, exParams] = some out ∧
      ∀ off : List ℤ,
        (∀ c, c < (out.grid_cnt.getD 0 []).length →
          off[c]? = some (((out.grid_cnt.getD 0 []).take c).sum)) →
        ∀ addr : ℕ → ℤ,
          (∀ p, addr p = off.getD (cellOut out 0 p).toNat 0 + rankOut out 0 p) →
          (∀ p, p < ([(3 : ℤ), 2].getD 0 0).toNat →
            0 ≤ cellOut out 0 p ∧
            (cellOut out 0 p).toNat < (out.grid_cnt.getD 0 []).length ∧
            off.getD (cellOut out 0 p).toNat 0 ≤ addr p ∧
            addr p < off.getD (cellOut out 0 p).toNat 0
              + cntOut out 0 (cellOut out 0 p).toNat) ∧
          (∀ c, c < (out.grid_cnt.getD 0 []).length → ∀ i : ℤ, off.getD c 0 ≤ i →
            i < off.getD c 0 + cntOut out 0 c →
            ∃ p, p < ([(3 : ℤ), 2].getD 0 0).toNat ∧ cellOut out 0 p = (c : ℤ) ∧
              addr p = i) ∧
          (∀ p, p < ([(3 : ℤ), 2].getD 0 0).toNat →
            0 ≤ addr p ∧ addr p < [(3 : ℤ), 2].getD 0 0) ∧
          (∀ p p', p < ([(3 : ℤ), 2].getD 0 0).toNat → p' < ([(3 : ℤ), 2].getD 0 0).toNat →
            addr p = addr p' → p = p') ∧
          (∀ i : ℤ, 0 ≤ i → i < [(3 : ℤ), 2].getD 0 0 →
            ∃ p, p < ([(3 : ℤ), 2].getD 0 0).toNat ∧ addr p = i) :=
  C10_scatter_address_bijection exPoints [3, 2] exInsertInit [exParams, exParams]
    (by decide!) 0 (by decide) (by decide) (by decide)

/-! ### C11: padding does not influence the results -/

theorem foldlM_congr_mem {σ α : Type} {f g : σ → α → Option σ} :
    ∀ (l : List α) (s : σ), (∀ a, a ∈ l → ∀ t, f t a = g t a) →
      l.foldlM f s = l.foldlM g s := by
  intro l
  induction l with
  | nil => intro s _; rfl
  | cons a l ih =>
    intro s h
    rw [List.foldlM_cons, List.foldlM_cons, h a (List.mem_cons_self a l) s]
    rcases g s a with _ | t
    · rfl
    · exact ih t (fun b hb u => h b (List.mem_cons_of_mem a hb) u)

theorem insertRow_congr (params : List GridParams) (n : ℕ) {pts pts' : List float3}
    {len : ℤ} (h : ∀ p, p < len.toNat → pts[p]? = pts'[p]?) (s : InsertRow) :
    insertRow params n pts len s = insertRow params n pts' len s := by
  unfold insertRow
  apply foldlM_congr_mem
  intro p hp t
  unfold insertStep
  rw [h p (List.mem_range.mp hp)]

/-- Function `InsertPointsCPU` gives the same result on two tensors that agree at the valid
indices. -/
theorem InsertPointsCPU_congr {points points' : List (List float3)} {lengths : List ℤ}
    (hN : points.length = points'.length) (h : AgreeValid points.length points points' lengths)
    (s0 : InsertState) (params : List GridParams) :
    InsertPointsCPU points lengths s0 params = InsertPointsCPU points' lengths s0 params := by
  unfold InsertPointsCPU
  rw [← hN]
  apply foldlM_congr_mem
  intro n hn s
  unfold insertBatch
  rcases hl : lengths[n]? with _ | len
  · rfl
  · simp only [Option.bind_eq_bind, Option.some_bind]
    have hlen : lengths.getD n 0 = len := getD_of_getElem? hl
    rw [insertRow_congr params n (fun p hp => h n (List.mem_range.mp hn) p (hlen ▸ hp))]

theorem visitPoint_congr {points2 points2' : List float3} {i : ℤ}
    (h : getAt points2 i = getAt points2' i) (spi : List ℤ) (K : ℤ) (r2 : ℚ) (cur : float3)
    (q : Heap) :
    visitPoint points2 spi K r2 cur q i = visitPoint points2' spi K r2 cur q i := by
  unfold visitPoint
  rw [h]

/-- The scan of a query over a well-formed layout reads only valid positions. -/
theorem scanCells_congr {prm : GridParams} {points2 points2' : List float3} {len2 : ℤ}
    {grid_off spi : List ℤ} {f : ℕ → ℕ} (F : LayoutFacts prm points2 len2 grid_off spi f)
    {lengths2 : List ℤ} {n : ℕ} (hl : lengths2[n]? = some len2)
    (h : ∀ p, p < len2.toNat → points2[p]? = points2'[p]?) (K : ℤ) (r : ℚ) (cur : float3) :
    scanCells prm points2 grid_off spi lengths2 n K r cur
      = scanCells prm points2' grid_off spi lengths2 n K r cur := by
  rw [scanCells_eq_cellList, scanCells_eq_cellList]
  apply foldlM_congr_mem
  intro c hc q
  unfold visitCell
  rcases hb : cellBounds prm grid_off lengths2 n c with _ | b
  · rfl
  · simp only [Option.bind_eq_bind, Option.some_bind]
    apply foldlM_congr_mem
    intro i hi q'
    apply visitPoint_congr
    have hmem : i ∈ scanList prm grid_off lengths2 n cur r := by
      unfold scanList
      rw [List.mem_flatMap]
      refine ⟨c, hc, ?_⟩
      unfold cellPositions
      rw [hb]
      exact hi
    obtain ⟨h0, h1⟩ := scanList_valid F hl hmem
    unfold getAt
    rw [if_pos h0, if_pos h0]
    exact h i.toNat (by omega)

/-- Function `FindNbrsCPU` gives the same result on tensors of the same shape that agree
at the valid indices, over a well-formed sorted layout. -/
theorem FindNbrsCPU_congr {points1 points1' points2 points2' : List (List float3)}
    {lengths1 lengths2 : List ℤ} {grid_off spi : List (List ℤ)} {params : List GridParams}
    (hwf : FindWellFormed points1 points2 lengths1 lengths2 grid_off spi params)
    (hN : points1.length = points1'.length)
    (hP1 : (points1.headD []).length = (points1'.headD []).length)
    (h1 : AgreeValid points1.length points1 points1' lengths1)
    (h2 : AgreeValid points1.length points2 points2' lengths2) (K : ℤ) (r : ℚ) :
    FindNbrsCPU points1 points2 lengths1 lengths2 grid_off spi params K r
      = FindNbrsCPU points1' points2' lengths1 lengths2 grid_off spi params K r := by
  rw [FindNbrsCPU_unfold, FindNbrsCPU_unfold, ← hN, ← hP1]
  by_cases hK : K < 0
  · rw [if_pos hK, if_pos hK]
  rw [if_neg hK, if_neg hK]
  apply foldlM_congr_mem
  intro n hn o
  have hn' := List.mem_range.mp hn
  obtain ⟨-, -, hl2, hall⟩ := hwf
  obtain ⟨-, -, hlay⟩ := hall n hn'
  unfold batchStep
  rcases hprm : params[n]? with _ | prm
  · rfl
  rcases hlen : lengths1[n]? with _ | len1
  · rfl
  simp only [Option.bind_eq_bind, Option.some_bind]
  rw [getD_of_getElem? hprm] at hlay
  have hlen' : lengths1.getD n 0 = len1 := getD_of_getElem? hlen
  apply foldlM_congr_mem
  intro p1 hp1 o'
  unfold queryStep
  rw [h1 n hn' p1 (hlen' ▸ List.mem_range.mp hp1)]
  rcases (points1'.getD n [])[p1]? with _ | cur
  · rfl
  · simp only [Option.bind_eq_bind, Option.some_bind]
    rw [scanCells_congr hlay.facts
      (getElem?_of_lt_getD (show n < lengths2.length by omega) 0) (h2 n hn')]

/-- C11: (1) two runs of `InsertPointsCPU` on tensors with the same batch size that hold
the same points at the indices `< lengths[n]`, with the same lengths, parameters and
initial tensors, give the same result (heads, counts, cell ids, next links, ranks);
(2) in a result of `InsertPointsCPU` the entries `grid_cell[n][p]`, `grid_next[n][p]`,
`grid_idx[n][p]` at `p ≥ lengths[n]` keep their initial value; (3) two runs of
`FindNbrsCPU` over a well-formed sorted layout on tensors of the same shape that hold the
same points at the valid indices give the same neighbor indices and distances. -/
theorem C11_padding_has_no_influence (points points' : List (List float3))
    (lengths : List ℤ) (s0 : InsertState) (params : List GridParams)
    (points1 points1' points2 points2' : List (List float3)) (lengths1 lengths2 : List ℤ)
    (grid_off sorted_point_idx : List (List ℤ)) (params2 : List GridParams) (K : ℤ) (r : ℚ)
    (hN : points.length = points'.length)
    (hagree : AgreeValid points.length points points' lengths)
    (hwf : FindWellFormed points1 points2 lengths1 lengths2 grid_off sorted_point_idx params2)
    (hN1 : points1.length = points1'.length)
    (hP1 : (points1.headD []).length = (points1'.headD []).length)
    (hagree1 : AgreeValid points1.length points1 points1' lengths1)
    (hagree2 : AgreeValid points1.length points2 points2' lengths2) :
    InsertPointsCPU points lengths s0 params = InsertPointsCPU points' lengths s0 params ∧
    (∀ out, InsertPointsCPU points lengths s0 params = some out →
      ∀ n, n < points.length → ∀ p, (lengths.getD n 0).toNat ≤ p →
        (out.grid_cell.getD n [])[p]? = (s0.grid_cell.getD n [])[p]? ∧
        (out.grid_next.getD n [])[p]? = (s0.grid_next.getD n [])[p]? ∧
        (out.grid_idx.getD n [])[p]? = (s0.grid_idx.getD n [])[p]?) ∧
    FindNbrsCPU points1 points2 lengths1 lengths2 grid_off sorted_point_idx params2 K r
      = FindNbrsCPU points1' points2' lengths1 lengths2 grid_off sorted_point_idx params2
          K r := by
  refine ⟨InsertPointsCPU_congr hN hagree s0 params, ?_,
    FindNbrsCPU_congr hwf hN1 hP1 hagree1 hagree2 K r⟩
  intro out hout n hn p hp
  obtain ⟨len, hlen, inv⟩ := InsertPointsCPU_row hout hn
  rw [getD_of_getElem? hlen] at hp
  have h1 := inv.cell p
  have h2 := inv.next p
  have h3 := inv.idx p
  rw [if_neg (by omega)] at h1 h2 h3
  exact ⟨h1, h2, h3⟩

/-! ### C12, C13: the wrappers -/

/-- The builder loop fails at the first batch element when the cell size is `≤ 0`. -/
theorem setupParams_nonpos (bboxes : List (float3 × float3)) {cell_size : ℚ}
    (hr : cell_size ≤ 0) {N : ℕ} (hN : 0 < N) : setupParams bboxes cell_size N = none := by
  obtain ⟨M, rfl⟩ : ∃ M, N = M + 1 := ⟨N - 1, by omega⟩
  unfold setupParams
  rw [List.range_succ_eq_map, List.foldlM_cons]
  rcases hb : bboxes[0]? with _ | bbox
  · rfl
  · have hs : SetupGridParams bbox.1 bbox.2 cell_size = none := by
      unfold SetupGridParams
      rw [if_pos (Or.inl hr)]
    simp [hs]

/-- C12 (counterexample): `FindNbrsCPU` called with `r = 0` and with `r = -1` on the
example of the specification returns neighbor output; with `r = 0` the reference point at
distance 0 is even reported. No failure is raised. -/
theorem C12_counterexample :
    FindNbrsCPU [[⟨0, 0, 0⟩]] [[⟨0, 0, 0⟩, ⟨1 / 2, 0, 0⟩, ⟨2, 0, 0⟩]] [1] [3] [[0, 2, 2]]
      [[0, 1, 2]] [exParams] 2 0 = some { idxs := [[[0, -1]]], dists := [[[0, -1]]] } ∧
    FindNbrsCPU [[⟨0, 0, 0⟩]] [[⟨0, 0, 0⟩, ⟨1 / 2, 0, 0⟩, ⟨2, 0, 0⟩]] [1] [3] [[0, 2, 2]]
      [[0, 1, 2]] [exParams] 2 (-1)
      = some { idxs := [[[-1, -1]]], dists := [[[-1, -1]]] } := by
  decide!

/-- C12 (amended): only the wrapper rejects a radius `r ≤ 0`: `TestFindNbrsCPU` with at
least one batch element fails in the builder loop (`SetupGridParams` with cell size `r`),
before the insertion and before any cell scan, and returns no output; `FindNbrsCPU` itself
does not validate `r` and returns a result on well-formed inputs with `K ≥ 1`. -/
theorem C12_nonpositive_radius (bboxes : List (float3 × float3))
    (points1 points2 sorted_points2 : List (List float3)) (lengths1 lengths2 : List ℤ)
    (grid_off sorted_point_idx : List (List ℤ)) (params : List GridParams) (K : ℤ) (r : ℚ)
    (hr : r ≤ 0) (hN : 0 < points1.length) :
    setupParams bboxes r points1.length = none ∧
    TestFindNbrsCPU bboxes points1 points2 lengths1 lengths2 K r = none ∧
    (FindWellFormed points1 sorted_points2 lengths1 lengths2 grid_off sorted_point_idx params →
      1 ≤ K →
      ∃ out, FindNbrsCPU points1 sorted_points2 lengths1 lengths2 grid_off sorted_point_idx
        params K r = some out) := by
  have h := setupParams_nonpos bboxes hr hN
  refine ⟨h, ?_, fun hwf hK => FindNbrsCPU_wf hwf hK r⟩
  unfold TestFindNbrsCPU
  simp only [h]
  rfl

/-- C12 (witness): the example of the specification with `r = 0`. -/
theorem C12_nonpositive_radius_witness :
    setupParams [(⟨0, 0, 0⟩, ⟨5 / 2, 0, 0⟩)] 0 [[(⟨0, 0, 0⟩ : float3)]].length = none ∧
    TestFindNbrsCPU [(⟨0, 0, 0⟩, ⟨5 / 2, 0, 0⟩)] [[⟨0, 0, 0⟩]]
      [[⟨0, 0, 0⟩, ⟨1 / 2, 0, 0⟩, ⟨2, 0, 0⟩]] [1] [3] 2 0 = none ∧
    ∃ out, FindNbrsCPU [[⟨0, 0, 0⟩]] [[⟨0, 0, 0⟩, ⟨1 / 2, 0, 0⟩, ⟨2, 0, 0⟩]] [1] [3]
      [[0, 2, 2]] [[0, 1, 2]] [exParams] 2 0 = some out :=
  have h := C12_nonpositive_radius [(⟨0, 0, 0⟩, ⟨5 / 2, 0, 0⟩)] [[⟨0, 0, 0⟩]]
    [[⟨0, 0, 0⟩, ⟨1 / 2, 0, 0⟩, ⟨2, 0, 0⟩]] [[⟨0, 0, 0⟩, ⟨1 / 2, 0, 0⟩, ⟨2, 0, 0⟩]] [1] [3]
    [[0, 2, 2]] [[0, 1, 2]] [exParams] 2 0 (by decide!) (by decide)
  ⟨h.1, h.2.1, h.2.2 (by decide!) (by decide)⟩

/-- C13 (failing input): one reference point `(3/2, 0, 0)` (`P2 = 1`) in the box
`[0, 2] × 0 × 0` with `r = 1`: the grid has 2 cells and the point has cell id 1, inside
`[0, grid_total)`. `TestFindNbrsCPU` allocates the head array with width `P2 = 1`, so the
access `grid[0][1]` of `InsertPointsCPU` is out of bounds and the call has no result, while
`TestInsertPointsCPU`, which allocates the width `max_grid_total = 2`, inserts the same
point; with one slot of padding (`P2 = 2`) the same call returns. -/
theorem C13_head_array_width :
    setupParams [(⟨0, 0, 0⟩, ⟨2, 0, 0⟩)] 1 1
      = some ([exTwoCells], 2) ∧
    (GetGridCell (3 / 2) 0 0 exTwoCells).2 = 1 ∧
    InsertPointsCPU [[⟨3 / 2, 0, 0⟩]] [1]
      { grid := [[-1]], grid_cnt := [[0, 0]], grid_cell := [[-1]], grid_next := [[-1]],
        grid_idx := [[-1]] }
      [exTwoCells] = none ∧
    TestFindNbrsCPU [(⟨0, 0, 0⟩, ⟨2, 0, 0⟩)] [[⟨0, 0, 0⟩]] [[⟨3 / 2, 0, 0⟩]] [1] [1] 1 1
      = none ∧
    TestInsertPointsCPU [(⟨0, 0, 0⟩, ⟨2, 0, 0⟩)] [[⟨3 / 2, 0, 0⟩]] [1] 1
      = some ([[0, 1]], [[1]], [[0]]) ∧
    TestFindNbrsCPU [(⟨0, 0, 0⟩, ⟨2, 0, 0⟩)] [[⟨0, 0, 0⟩]] [[⟨3 / 2, 0, 0⟩, ⟨9, 9, 9⟩]] [1]
      [1] 1 1 = some { idxs := [[[-1]]], dists := [[[-1]]] } := by
  decide!

/-! ### C14: a candidate as far as the current maximum is not admitted -/

/-- The scan of positions that hold no point within the radius leaves the queue unchanged. -/
theorem scan_not_within {points2 : List float3} {spi : List ℤ} {K : ℤ} {r2 : ℚ}
    {cur : float3} : ∀ (l : List ℤ) {q q' : Heap},
    (∀ x, x ∈ l → withinR points2 cur r2 x = false) →
    l.foldlM (visitPoint points2 spi K r2 cur) q = some q' → q' = q := by
  intro l
  induction l with
  | nil =>
    intro q q' _ h
    simp only [List.foldlM_nil, Option.pure_def, Option.some.injEq] at h
    exact h.symm
  | cons a l ih =>
    intro q q' hall h
    rw [List.foldlM_cons, Option.bind_eq_bind, Option.bind_eq_some] at h
    obtain ⟨t, ht, hrest⟩ := h
    obtain ⟨pt, hpt, heff⟩ := visitPoint_cases ht
    have hw := hall a (List.mem_cons_self a l)
    have hnot : ¬ sqDist pt cur ≤ r2 := by
      simpa [withinR, hpt] using hw
    have htq : t = q := by
      rcases heff with ⟨-, h1⟩ | ⟨h1, -⟩ | ⟨h1, -⟩
      · exact h1
      · exact absurd h1 hnot
      · exact absurd h1 hnot
    rw [htq] at hrest
    exact ih (fun x hx => hall x (List.mem_cons_of_mem a hx)) hrest

/-- The scan of a list in which exactly two positions `i` (first) and `j` hold a point
within the radius, both at the same distance, with `K = 1`: the queue ends with the entry
of `i`. -/
theorem scan_two_equal {points2 : List float3} {spi : List ℤ} {r2 : ℚ} {cur : float3}
    {pre mid post : List ℤ} {i j : ℤ} {q : Heap} {pi pj : float3}
    (hpi : getAt points2 i = some pi) (hpj : getAt points2 j = some pj)
    (hwi : sqDist pi cur ≤ r2) (heq : sqDist pj cur = sqDist pi cur)
    (hpre : ∀ x, x ∈ pre → withinR points2 cur r2 x = false)
    (hmid : ∀ x, x ∈ mid → withinR points2 cur r2 x = false)
    (hpost : ∀ x, x ∈ post → withinR points2 cur r2 x = false)
    (h : (pre ++ i :: (mid ++ j :: post)).foldlM (visitPoint points2 spi 1 r2 cur) []
      = some q) :
    ∃ idx, getAt spi i = some idx ∧ q = [(sqDist pi cur, idx)] := by
  rw [List.foldlM_append, Option.bind_eq_bind, Option.bind_eq_some] at h
  obtain ⟨q1, h1, h⟩ := h
  have e1 := scan_not_within pre hpre h1
  subst e1
  rw [List.foldlM_cons, Option.bind_eq_bind, Option.bind_eq_some] at h
  obtain ⟨q2, h2, h⟩ := h
  obtain ⟨pt, hpt, heff⟩ := visitPoint_cases h2
  rw [hpi] at hpt
  injection hpt with hpt
  subst hpt
  have e2 : ∃ idx, getAt spi i = some idx ∧ q2 = [(sqDist pi cur, idx)] := by
    rcases heff with ⟨hn, -⟩ | ⟨-, -, idx, hidx, hq⟩ | ⟨-, hn, -⟩
    · exact absurd hwi hn
    · exact ⟨idx, hidx, by simpa [heapPush] using hq⟩
    · exact absurd (by simp) hn
  obtain ⟨idx, hidx, rfl⟩ := e2
  refine ⟨idx, hidx, ?_⟩
  rw [List.foldlM_append, Option.bind_eq_bind, Option.bind_eq_some] at h
  obtain ⟨q3, h3, h⟩ := h
  have e3 := scan_not_within mid hmid h3
  subst e3
  rw [List.foldlM_cons, Option.bind_eq_bind, Option.bind_eq_some] at h
  obtain ⟨q4, h4, h⟩ := h
  obtain ⟨pt, hpt, heff⟩ := visitPoint_cases h4
  rw [hpj] at hpt
  injection hpt with hpt
  subst hpt
  have e4 : q4 = [(sqDist pi cur, idx)] := by
    rcases heff with ⟨-, hq⟩ | ⟨-, hn, -⟩ | ⟨-, -, hd, rest, hcons, hq⟩
    · exact hq
    · simp at hn
    · injection hcons with hhd hrest
      subst hhd
      rcases hq with ⟨-, hq⟩ | ⟨hlt, -⟩
      · exact hq
      · simp only at hlt
        rw [heq] at hlt
        exact absurd hlt (lt_irrefl _)
  subst e4
  exact scan_not_within post hpost h

/-- C14: (1) in the loop body of `FindNbrsCPU` a queue that already holds `K` entries is
left unchanged by a candidate whose squared distance equals the distance of the top (the
greatest distance in the queue); (2) for `K = 1`, if exactly two scanned positions `i`
(scanned first) and `j` hold a point within `r` of the query, both at the same squared
distance, the result row of the query is the index and distance of `i`. -/
theorem C14_equal_distance_not_admitted (points1 points2 : List (List float3))
    (lengths1 lengths2 : List ℤ) (grid_off sorted_point_idx : List (List ℤ))
    (params : List GridParams) (r : ℚ) (out : NbrsOut)
    (hrun : FindNbrsCPU points1 points2 lengths1 lengths2 grid_off sorted_point_idx params 1 r
      = some out)
    (n p1 : ℕ) (hn : n < points1.length) (hp1 : (p1 : ℤ) < lengths1.getD n 0)
    (hP1 : p1 < (points1.headD []).length)
    (pre mid post : List ℤ) (i j : ℤ) (pi pj : float3)
    (hscan : scanList (params.getD n default) (grid_off.getD n []) lengths2 n
      (pointAt (points1.getD n []) p1) r = pre ++ i :: (mid ++ j :: post))
    (hpi : getAt (points2.getD n []) i = some pi) (hpj : getAt (points2.getD n []) j = some pj)
    (hwi : sqDist pi (pointAt (points1.getD n []) p1) ≤ r * r)
    (heq : sqDist pj (pointAt (points1.getD n []) p1)
      = sqDist pi (pointAt (points1.getD n []) p1))
    (hothers : ∀ x, x ∈ pre ++ (mid ++ post) →
      withinR (points2.getD n []) (pointAt (points1.getD n []) p1) (r * r) x = false) :
    (∀ (pts : List float3) (spi : List ℤ) (K : ℤ) (r2 : ℚ) (cur : float3) (q : Heap)
        (p2 : ℤ) (pt : float3) (t : ℚ × ℤ),
      getAt pts p2 = some pt → (q.length : ℤ) = K → heapTop q = some t →
      sqDist pt cur = t.1 → visitPoint pts spi K r2 cur q p2 = some q) ∧
    ∃ idx, getAt (sorted_point_idx.getD n []) i = some idx ∧
      out.row n p1 = ([idx], [sqDist pi (pointAt (points1.getD n []) p1)]) := by
  constructor
  · intro pts spi K r2 cur q p2 pt t hpt hlen htop hd
    apply visitPoint_of_effect hpt
    by_cases hw : sqDist pt cur ≤ r2
    · rcases q with _ | ⟨hd', rest⟩
      · cases htop
      · simp only [heapTop, List.head?_cons, Option.some.injEq] at htop
        subst htop
        exact Or.inr (Or.inr ⟨hw, by omega, hd', rest, rfl,
          Or.inl ⟨by rw [hd]; exact lt_irrefl _, rfl⟩⟩)
    · exact Or.inl ⟨hw, rfl⟩
  · obtain ⟨-, prm, len1, hprm, hlen1, hq⟩ := FindNbrsCPU_query hrun hn
    rw [getD_of_getElem? hprm] at hscan
    rw [getD_of_getElem? hlen1] at hp1
    obtain ⟨cur, q, hcur, hsc, hqlen, hrow⟩ := (hq p1 hP1).2 (by omega)
    have hcur' : pointAt (points1.getD n []) p1 = cur := getD_of_getElem? hcur
    rw [hcur'] at hscan hwi heq hothers ⊢
    have hfold := (scanCells_eq_some_iff.mp hsc).2
    rw [hscan] at hfold
    obtain ⟨idx, hidx, rfl⟩ := scan_two_equal hpi hpj hwi heq
      (fun x hx => hothers x (List.mem_append_left _ hx))
      (fun x hx => hothers x (List.mem_append_right _ (List.mem_append_left _ hx)))
      (fun x hx => hothers x (List.mem_append_right _ (List.mem_append_right _ hx))) hfold
    refine ⟨idx, hidx, ?_⟩
    rw [hrow]
    rfl

/-! ### C15: ties at the boundary of the top `K` -/

theorem append_singleton_eq_split {α : Type} {done front post : List α} {x a : α}
    (h : done ++ [x] = front ++ a :: post) :
    (post = [] ∧ done = front ∧ x = a) ∨ ∃ post', post = post' ++ [x] ∧
      done = front ++ a :: post' := by
  rcases List.eq_nil_or_concat post with rfl | ⟨post', y, rfl⟩
  · left
    have := List.append_inj' h rfl
    exact ⟨rfl, this.1, by simpa using this.2⟩
  · right
    have e : front ++ a :: post'.concat y = (front ++ a :: post') ++ [y] := by simp
    rw [e] at h
    have := List.append_inj' h rfl
    have hxy : x = y := by simpa using this.2
    subst hxy
    exact ⟨post', by simp, this.1⟩

theorem tieInv_step {points2 : List float3} {spi : List ℤ} {K : ℤ} {r2 : ℚ} {cur : float3}
    {done : List ℤ} {q q' : Heap} {x : ℤ} (inv : ScanInv points2 spi K r2 cur done q)
    (tie : TieInv points2 spi K r2 cur done q)
    (h : visitPoint points2 spi K r2 cur q x = some q') :
    TieInv points2 spi K r2 cur (done ++ [x]) q' := by
  obtain ⟨ptx, hptx, heff⟩ := visitPoint_cases h
  intro front a post hsplit pt idx hpt hidx hw
  rcases append_singleton_eq_split hsplit with ⟨-, hdone, hxa⟩ | ⟨post', -, hdone⟩
  · -- the candidate just scanned
    subst hxa
    subst hdone
    rw [hptx] at hpt
    injection hpt with hpt
    subst hpt
    rcases heff with ⟨hn, -⟩ | ⟨-, -, i, hi, rfl⟩ | ⟨-, hfull, hd, rest, rfl, h2⟩
    · exact absurd hw hn
    · rw [hidx] at hi
      injection hi with hi
      subst hi
      exact Or.inl (mem_heapPush.mpr (Or.inl rfl))
    · rcases h2 with ⟨hnlt, rfl⟩ | ⟨-, i, hi, rfl⟩
      · refine Or.inr ⟨not_lt.mp hfull, fun e he => ?_⟩
        have hle : e.1 ≤ hd.1 := fst_le_head inv.sorted he
        rcases lt_or_eq_of_le (le_trans hle (not_lt.mp hnlt)) with hlt | heq
        · exact Or.inl hlt
        · obtain ⟨c, hc, ptc, hptc, hspc, hdc, -⟩ := inv.sound e he
          exact Or.inr ⟨heq, Or.inr ⟨c, hc, ptc, hptc, hspc, hdc⟩⟩
      · rw [hidx] at hi
        injection hi with hi
        subst hi
        exact Or.inl (mem_heapPush.mpr (Or.inl rfl))
  · -- a candidate scanned before
    have old := tie front a post' hdone pt idx hpt hidx hw
    rcases heff with ⟨-, rfl⟩ | ⟨-, hlt, i, -, rfl⟩ | ⟨-, hfull, hd, rest, rfl, h2⟩
    · exact old
    · rcases old with hmem | ⟨hK, -⟩
      · exact Or.inl (mem_heapPush.mpr (Or.inr hmem))
      · exact absurd hlt (not_lt.mpr hK)
    · rcases h2 with ⟨-, rfl⟩ | ⟨hxlt, i, -, rfl⟩
      · exact old
      · have hlen : ((heapPush (sqDist ptx cur, i) rest).length : ℤ)
            = ((hd :: rest).length : ℤ) := by
          rw [length_heapPush, List.length_cons]
        by_cases hrest : (sqDist pt cur, idx) ∈ rest
        · exact Or.inl (mem_heapPush.mpr (Or.inr hrest))
        · refine Or.inr ⟨by rw [hlen]; exact not_lt.mp hfull, fun e he => ?_⟩
          rcases old with hmem | ⟨-, hall⟩
          · have hhd : (sqDist pt cur, idx) = hd := by
              rcases List.mem_cons.mp hmem with h1 | h1
              · exact h1
              · exact absurd h1 hrest
            rcases mem_heapPush.mp he with rfl | he
            · left
              rw [← hhd] at hxlt
              exact hxlt
            · have hs := (List.pairwise_cons.mp inv.sorted).1 e he
              rw [← hhd] at hs
              unfold tupleLt at hs
              push_neg at hs
              rcases lt_or_eq_of_le hs.1 with h1 | h1
              · exact Or.inl h1
              · refine Or.inr ⟨h1, Or.inl ?_⟩
                have h2 := hs.2 h1.symm
                rcases lt_or_eq_of_le h2 with h3 | h3
                · exact h3
                · exfalso
                  apply hrest
                  have : e = (sqDist pt cur, idx) := Prod.ext h1 h3
                  exact this ▸ he
          · rcases mem_heapPush.mp he with rfl | he
            · left
              rcases hall hd (List.mem_cons_self _ _) with h1 | ⟨h1, -⟩
              · exact lt_trans hxlt h1
              · exact h1 ▸ hxlt
            · exact hall e (List.mem_cons_of_mem _ he)

/-- The queue after the scan of a list of positions satisfies `TieInv`. -/
theorem scan_tieInv {points2 : List float3} {spi : List ℤ} {K : ℤ} {r2 : ℚ} {cur : float3}
    {l : List ℤ} {q : Heap}
    (h : l.foldlM (visitPoint points2 spi K r2 cur) [] = some q) :
    TieInv points2 spi K r2 cur l q := by
  have := foldlM_hist
    (fun done q => ScanInv points2 spi K r2 cur done q ∧ TieInv points2 spi K r2 cur done q)
    l [] h
    ⟨scanInv_nil _ _ _ _ _, by
      intro front a post hsplit
      exact absurd hsplit (by simp)⟩
    (fun done a t t' _ hP hf => ⟨scanInv_step hP.1 hf, tieInv_step hP.1 hP.2 hf⟩)
  simpa using this.2

/-- C15 (counterexample): the grid of `2 × 1 × 1` unit cells, the reference points
`(3/2, 0, 0)`, `(1/2, 0, 0)`, `(1, 0, 0)` (original indices 0, 1, 2; sorted layout: index 1
in cell 0, then indices 0 and 2 in cell 1), the query `(1, 0, 0)`, `r = 1`, `K = 2`. The
scan order is position 0 (index 1, squared distance 1/4), position 1 (index 0, squared
distance 1/4), position 2 (index 2, squared distance 0). The result is the indices
`[2, 0]`: the later-scanned of the two equally distant candidates (index 0) is returned and
the earlier-scanned one (index 1) is not, because the eviction removes the greatest
`(distance, index)` tuple. The sorted layout is the one that the pipeline builds. -/
theorem C15_counterexample :
    FindWellFormed [[⟨1, 0, 0⟩]] [[⟨1 / 2, 0, 0⟩, ⟨3 / 2, 0, 0⟩, ⟨1, 0, 0⟩]] [1] [3] [[0, 1]]
      [[1, 0, 2]] [exTwoCells] ∧
    FindNbrsCPU [[⟨1, 0, 0⟩]] [[⟨1 / 2, 0, 0⟩, ⟨3 / 2, 0, 0⟩, ⟨1, 0, 0⟩]] [1] [3] [[0, 1]]
      [[1, 0, 2]] [exTwoCells] 2 1 = some { idxs := [[[2, 0]]], dists := [[[0, 1 / 4]]] } ∧
    TestFindNbrsCPU [(⟨0, 0, 0⟩, ⟨3 / 2, 0, 0⟩)] [[⟨1, 0, 0⟩]]
      [[⟨3 / 2, 0, 0⟩, ⟨1 / 2, 0, 0⟩, ⟨1, 0, 0⟩]] [1] [3] 2 1
      = some { idxs := [[[2, 0]]], dists := [[[0, 1 / 4]]] } ∧
    scanList exTwoCells [0, 1] [3] 0 ⟨1, 0, 0⟩ 1 = [0, 1, 2] ∧
    sqDist ⟨1 / 2, 0, 0⟩ ⟨1, 0, 0⟩ = 1 / 4 ∧ sqDist ⟨3 / 2, 0, 0⟩ ⟨1, 0, 0⟩ = 1 / 4 ∧
    (1 / 4 : ℚ) ≤ 1 * 1 ∧
    getAt [1, 0, 2] 0 = some (1 : ℤ) ∧ getAt [1, 0, 2] 1 = some (0 : ℤ) ∧
    (0 : ℤ) ∈ [(2 : ℤ), 0] ∧ (1 : ℤ) ∉ [(2 : ℤ), 0] := by
  decide!

/-- C15 (amended): in a result of `FindNbrsCPU`, let the positions `i` and `j` be scanned
for a valid query, `i` before `j`, both holding a point within `r` at the same squared
distance, the index of `i` being smaller than the index of `j`, and no position scanned
before `i` carrying the index of `j` (as when `sorted_point_idx` takes different values at
different positions). If the pair of `j` is in the result row, the pair of `i` is in the
result row too. -/
theorem C15_earlier_smaller_index_kept (points1 points2 : List (List float3))
    (lengths1 lengths2 : List ℤ) (grid_off sorted_point_idx : List (List ℤ))
    (params : List GridParams) (K : ℤ) (r : ℚ) (out : NbrsOut)
    (hrun : FindNbrsCPU points1 points2 lengths1 lengths2 grid_off sorted_point_idx params K r
      = some out)
    (n p1 : ℕ) (hn : n < points1.length) (hp1 : (p1 : ℤ) < lengths1.getD n 0)
    (hP1 : p1 < (points1.headD []).length)
    (front mid post : List ℤ) (i j : ℤ) (pi pj : float3) (idxi idxj : ℤ)
    (hscan : scanList (params.getD n default) (grid_off.getD n []) lengths2 n
      (pointAt (points1.getD n []) p1) r = front ++ i :: (mid ++ j :: post))
    (hpi : getAt (points2.getD n []) i = some pi) (hpj : getAt (points2.getD n []) j = some pj)
    (hii : getAt (sorted_point_idx.getD n []) i = some idxi)
    (hij : getAt (sorted_point_idx.getD n []) j = some idxj)
    (hwi : sqDist pi (pointAt (points1.getD n []) p1) ≤ r * r)
    (heq : sqDist pj (pointAt (points1.getD n []) p1)
      = sqDist pi (pointAt (points1.getD n []) p1))
    (hlt : idxi < idxj)
    (hfresh : ∀ c, c ∈ front → getAt (sorted_point_idx.getD n []) c ≠ some idxj)
    (k : ℕ) (hk1 : (out.row n p1).1[k]? = some idxj)
    (hk2 : (out.row n p1).2[k]? = some (sqDist pj (pointAt (points1.getD n []) p1))) :
    ∃ k' : ℕ, (out.row n p1).1[k']? = some idxi ∧
      (out.row n p1).2[k']? = some (sqDist pi (pointAt (points1.getD n []) p1)) := by
  obtain ⟨-, prm, len1, hprm, hlen1, hq⟩ := FindNbrsCPU_query hrun hn
  rw [getD_of_getElem? hprm] at hscan
  rw [getD_of_getElem? hlen1] at hp1
  obtain ⟨cur, q, hcur, hsc, hqlen, hrow⟩ := (hq p1 hP1).2 (by omega)
  have hcur' : pointAt (points1.getD n []) p1 = cur := getD_of_getElem? hcur
  rw [hcur'] at hscan hwi heq hk2 ⊢
  have hrow' : out.row n p1 = rowsOf q K.toNat := hrow
  have hfold := (scanCells_eq_some_iff.mp hsc).2
  have tie := scan_tieInv hfold
  have hkK : k < K.toNat := by
    have h1 := (List.getElem?_eq_some_iff.mp hk1).1
    rw [hrow', (rowsOf_length hqlen).1] at h1
    exact h1
  have hkq : k < q.length := by
    by_contra hc
    have := rowsOf_sentinel (q := q) (not_lt.mp hc) hkK
    rw [← hrow', hk2] at this
    have h2 := Option.some.inj this.2
    have := sqDist_nonneg pj cur
    linarith
  obtain ⟨e, -, he, h1, h2⟩ := rowsOf_filled K.toNat hkq
  rw [← hrow', hk1] at h1
  rw [← hrow', hk2] at h2
  injection h1 with h1
  injection h2 with h2
  have hmem : (sqDist pi cur, idxi) ∈ q := by
    rcases tie front i (mid ++ j :: post) hscan pi idxi hpi hii hwi with hm | ⟨-, hall⟩
    · exact hm
    · exfalso
      rcases hall e he with h3 | ⟨-, h3 | ⟨c, hc, -, -, hspc, -⟩⟩
      · rw [← h2, heq] at h3
        exact lt_irrefl _ h3
      · omega
      · exact hfresh c hc (h1 ▸ hspc)
  have hmem' : (sqDist pi cur, idxi) ∈ q.reverse := List.mem_reverse.mpr hmem
  obtain ⟨k', hk', hget⟩ := List.getElem_of_mem hmem'
  have hkl : k' < q.length := by simpa using hk'
  obtain ⟨e', he', -, h3, h4⟩ := rowsOf_filled K.toNat hkl
  rw [List.getElem?_eq_getElem hk', hget] at he'
  injection he' with he'
  subst he'
  exact ⟨k', by rw [hrow']; exact h3, by rw [hrow']; exact h4⟩

/-! ### C16: the searched cube covers the candidates -/

/-- C16 (counterexample): the grid of `3 × 1 × 1` unit cells with origin 0 (`grid_delta = 1
> 0`), the reference point `b = (-1/2, 0, 0)`, the query `q = b` and `r = 1/4`: the squared
distance is `0 ≤ r * r`, `GetGridCell` gives `b` the grid coordinate `(0, 0, 0)` inside
`[0, res)` because `(int)(-0.5) = 0`, but `max_gc.x = floor(-1/4) = -1`, so
`g.x ≤ min(max_gc.x, res.x - 1)` fails and no cell is visited. -/
theorem C16_counterexample :
    0 < exParams.grid_delta ∧ (0 : ℚ) ≤ 1 / 4 ∧
    sqDist ⟨-1 / 2, 0, 0⟩ ⟨-1 / 2, 0, 0⟩ ≤ (1 / 4 : ℚ) * (1 / 4) ∧
    InGrid exParams ⟨-1 / 2, 0, 0⟩ ∧
    (GetGridCell (-1 / 2) 0 0 exParams).1 = ⟨0, 0, 0⟩ ∧
    (maxGc exParams ⟨-1 / 2, 0, 0⟩ (1 / 4)).x = -1 ∧
    ¬ ((GetGridCell (-1 / 2) 0 0 exParams).1.x
        ≤ min (maxGc exParams ⟨-1 / 2, 0, 0⟩ (1 / 4)).x (exParams.grid_res.x - 1)) ∧
    cellList exParams ⟨-1 / 2, 0, 0⟩ (1 / 4) = [] := by
  decide!

/-- C16 (amended): with `grid_delta > 0` and `r ≥ 0`, every reference point `b` with
squared distance `≤ r * r` to the query `q` that lies at or above the grid origin on each
axis and whose grid coordinate `g` (as `GetGridCell` computes it at insertion) is in
`[0, res)` satisfies `max(min_gc, 0) ≤ g ≤ min(max_gc, res - 1)` on each axis; its cell is
among the visited cells. -/
theorem C16_cube_covers_candidates (prm : GridParams) (q b : float3) (r : ℚ)
    (hδ : 0 < prm.grid_delta) (hr : 0 ≤ r) (hd : sqDist b q ≤ r * r) (hin : InGrid prm b)
    (hx : prm.grid_min.x ≤ b.x) (hy : prm.grid_min.y ≤ b.y) (hz : prm.grid_min.z ≤ b.z) :
    (max (minGc prm q r).x 0 ≤ (GetGridCell b.x b.y b.z prm).1.x ∧
      (GetGridCell b.x b.y b.z prm).1.x ≤ min (maxGc prm q r).x (prm.grid_res.x - 1)) ∧
    (max (minGc prm q r).y 0 ≤ (GetGridCell b.x b.y b.z prm).1.y ∧
      (GetGridCell b.x b.y b.z prm).1.y ≤ min (maxGc prm q r).y (prm.grid_res.y - 1)) ∧
    (max (minGc prm q r).z 0 ≤ (GetGridCell b.x b.y b.z prm).1.z ∧
      (GetGridCell b.x b.y b.z prm).1.z ≤ min (maxGc prm q r).z (prm.grid_res.z - 1)) ∧
    (GetGridCell b.x b.y b.z prm).2 ∈ cellList prm q r := by
  have hab : 0 ≤ (b.x - prm.grid_min.x) * prm.grid_delta ∧
      0 ≤ (b.y - prm.grid_min.y) * prm.grid_delta ∧
      0 ≤ (b.z - prm.grid_min.z) * prm.grid_delta :=
    ⟨mul_nonneg (by linarith) hδ.le, mul_nonneg (by linarith) hδ.le,
      mul_nonneg (by linarith) hδ.le⟩
  obtain ⟨ax, ay, az⟩ := sqDist_axes b q
  have hin' := hin
  obtain ⟨⟨-, hx1⟩, ⟨-, hy1⟩, ⟨-, hz1⟩⟩ := hin'
  exact ⟨axis_cover hδ.le hr (le_trans ax hd) hab.1 hx1,
    axis_cover hδ.le hr (le_trans ay hd) hab.2.1 hy1,
    axis_cover hδ.le hr (le_trans az hd) hab.2.2 hz1,
    cell_visited hδ.le hr hin hab hd⟩

/-- C16 (witness): the reference point `(1/2, 0, 0)` and the query `(0, 0, 0)` with
`r = 1/2` in the grid of `3 × 1 × 1` unit cells. -/
theorem C16_cube_covers_candidates_witness :
    (max (minGc exParams ⟨0, 0, 0⟩ (1 / 2)).x 0 ≤ (GetGridCell (1 / 2) 0 0 exParams).1.x ∧
      (GetGridCell (1 / 2) 0 0 exParams).1.x
        ≤ min (maxGc exParams ⟨0, 0, 0⟩ (1 / 2)).x (exParams.grid_res.x - 1)) ∧
    (max (minGc exParams ⟨0, 0, 0⟩ (1 / 2)).y 0 ≤ (GetGridCell (1 / 2) 0 0 exParams).1.y ∧
      (GetGridCell (1 / 2) 0 0 exParams).1.y
        ≤ min (maxGc exParams ⟨0, 0, 0⟩ (1 / 2)).y (exParams.grid_res.y - 1)) ∧
    (max (minGc exParams ⟨0, 0, 0⟩ (1 / 2)).z 0 ≤ (GetGridCell (1 / 2) 0 0 exParams).1.z ∧
      (GetGridCell (1 / 2) 0 0 exParams).1.z
        ≤ min (maxGc exParams ⟨0, 0, 0⟩ (1 / 2)).z (exParams.grid_res.z - 1)) ∧
    (GetGridCell (1 / 2) 0 0 exParams).2 ∈ cellList exParams ⟨0, 0, 0⟩ (1 / 2) :=
  C16_cube_covers_candidates exParams ⟨0, 0, 0⟩ ⟨1 / 2, 0, 0⟩ (1 / 2) (by decide!) (by decide!)
    (by decide!) (by decide!) (by decide!) (by decide!) (by decide!)

/-! ### C17: the chains of the cells -/

theorem cellPoints_succ (g : ℕ → ℤ) (c : ℤ) (k : ℕ) :
    cellPoints g c (k + 1) = if g k = c then (k : ℤ) :: cellPoints g c k
      else cellPoints g c k := by
  unfold cellPoints
  rw [List.range_succ, List.filter_append]
  by_cases h : g k = c <;> simp [h]

theorem length_cellPoints (g : ℕ → ℤ) (c : ℤ) (k : ℕ) :
    (cellPoints g c k).length = cellCount g k c := by
  unfold cellPoints cellCount
  rw [List.length_map, List.length_reverse, List.countP_eq_length_filter]

theorem lastOf_bounds (g : ℕ → ℤ) (c : ℤ) : ∀ k : ℕ,
    -1 ≤ lastOf g k c (-1) ∧ lastOf g k c (-1) < (k : ℤ) := by
  intro k
  induction k with
  | zero => simp [lastOf]
  | succ k ih =>
    unfold lastOf
    by_cases h : g k = c
    · rw [if_pos h]; push_cast; omega
    · rw [if_neg h]; push_cast; omega

theorem lastOf_eq_neg_one_iff (g : ℕ → ℤ) (c : ℤ) : ∀ k : ℕ,
    lastOf g k c (-1) = -1 ↔ cellCount g k c = 0 := by
  intro k
  induction k with
  | zero => simp [lastOf, cellCount_zero]
  | succ k ih =>
    rw [cellCount_succ]
    unfold lastOf
    by_cases h : g k = c
    · rw [if_pos h, if_pos h]
      constructor
      · intro h1; omega
      · intro h1; omega
    · rw [if_neg h, if_neg h, ih, Nat.add_zero]

/-- The chain that starts at the last point of cell `c` below `k` lists the points of the
cell below `k`, latest first. -/
theorem chainFrom_lastOf {g : ℕ → ℤ} {grid_next : List ℤ} {m : ℕ} (c : ℤ)
    (hnext : ∀ p, p < m → grid_next[p]? = some (lastOf g p (g p) (-1))) :
    ∀ k, k ≤ m → ∀ fuel, k ≤ fuel →
      chainFrom grid_next fuel (lastOf g k c (-1)) = some (cellPoints g c k) := by
  intro k
  induction k with
  | zero =>
    intro _ fuel _
    have : lastOf g 0 c (-1) = -1 := rfl
    rw [this]
    cases fuel <;> simp [chainFrom, cellPoints]
  | succ k ih =>
    intro hk fuel hfuel
    rw [cellPoints_succ]
    by_cases h : g k = c
    · have h1 : lastOf g (k + 1) c (-1) = (k : ℤ) := by
        unfold lastOf; rw [if_pos h]
      obtain ⟨f, rfl⟩ : ∃ f, fuel = f + 1 := ⟨fuel - 1, by omega⟩
      rw [h1, if_pos h]
      unfold chainFrom
      rw [if_neg (by omega), getAt_natCast, hnext k (by omega), Option.some_bind, h,
        ih (by omega) f (by omega)]
      rfl
    · have h1 : lastOf g (k + 1) c (-1) = lastOf g k c (-1) := by
        conv_lhs => unfold lastOf
        rw [if_neg h]
      rw [h1, if_neg h]
      exact ih (by omega) fuel (by omega)

/-- C17: when `InsertPointsCPU` runs in bounds on rows of batch element `n` whose heads are
all `-1` and whose counts are all `0`, then `grid_next[n][p]` is `-1` or an index below `p`
for every valid `p`, and for every cell `c` the chain followed from `grid[n][c]` reaches
the sentinel `-1` (with any fuel of at least `lengths[n]` links) and lists exactly the valid
points whose recorded cell id is `c`, in decreasing original index; it has `grid_cnt[n][c]`
points, and `grid[n][c] = -1` exactly when `grid_cnt[n][c] = 0`. -/
theorem C17_cell_chains (points : List (List float3)) (lengths : List ℤ)
    (s0 : InsertState) (params : List GridParams)
    (hinb : InsertInBounds points lengths s0 params) (n : ℕ) (hn : n < points.length)
    (hzero : ∀ v, v ∈ s0.grid_cnt.getD n [] → v = 0)
    (hhead : ∀ v, v ∈ s0.grid.getD n [] → v = -1) :
    ∃ out, InsertPointsCPU points lengths s0 params = some out ∧
      (∀ p, p < (lengths.getD n 0).toNat →
        ∃ nxt, (out.grid_next.getD n [])[p]? = some nxt ∧ -1 ≤ nxt ∧ nxt < (p : ℤ)) ∧
      ∀ c, c < (out.grid.getD n []).length → c < (out.grid_cnt.getD n []).length →
        ∃ hd, (out.grid.getD n [])[c]? = some hd ∧
          (∀ fuel, (lengths.getD n 0).toNat ≤ fuel →
            chainFrom (out.grid_next.getD n []) fuel hd
              = some (cellPoints (cellOut out n) (c : ℤ) (lengths.getD n 0).toNat)) ∧
          (cellPoints (cellOut out n) (c : ℤ) (lengths.getD n 0).toNat).Pairwise
            (fun a b => b < a) ∧
          (∀ p : ℕ, (p : ℤ) ∈ cellPoints (cellOut out n) (c : ℤ) (lengths.getD n 0).toNat ↔
            p < (lengths.getD n 0).toNat ∧ cellOut out n p = (c : ℤ)) ∧
          (((cellPoints (cellOut out n) (c : ℤ) (lengths.getD n 0).toNat).length : ℕ) : ℤ)
            = cntOut out n c ∧
          (hd = -1 ↔ cntOut out n c = 0) := by
  obtain ⟨out, hout, g', G, hG, -, -, -, -⟩ := insert_summary hinb hn hzero
  obtain ⟨len, hlen, inv⟩ := InsertPointsCPU_row hout hn
  have hlen' : lengths.getD n 0 = len := getD_of_getElem? hlen
  rw [hlen']
  set g := cellId params n (points.getD n []) with hg
  have hcellOut : ∀ p, p < len.toNat → cellOut out n p = g p := by
    intro p hp
    have := inv.cell p
    simp only [hp, if_true] at this
    show ((out.row n).grid_cell).getD p (-1) = _
    rw [List.getD_eq_getElem?_getD, this, Option.getD_some]
  have hh : ∀ c, c < (s0.row n).grid.length → (s0.row n).grid[c]? = some (-1) := by
    intro c hc
    rw [List.getElem?_eq_getElem hc]
    exact congrArg some (hhead _ (List.getElem_mem _))
  have hz : ∀ c, c < (s0.row n).grid_cnt.length → (s0.row n).grid_cnt[c]? = some 0 := by
    intro c hc
    rw [List.getElem?_eq_getElem hc]
    exact congrArg some (hzero _ (List.getElem_mem _))
  have hnext : ∀ p, p < len.toNat →
      (out.row n).grid_next[p]? = some (lastOf g p (g p) (-1)) := by
    intro p hp
    have := inv.next p
    simp only [hp, if_true] at this
    rw [this, List.getD_eq_getElem?_getD, hh _ (inv.inb p hp).2.1, Option.getD_some]
  have hpts : cellPoints (cellOut out n) = fun c k =>
      if k ≤ len.toNat then cellPoints g c k else cellPoints (cellOut out n) c k := by
    funext c k
    by_cases hk : k ≤ len.toNat
    · rw [if_pos hk]
      unfold cellPoints
      congr 2
      apply List.filter_congr
      intro p hp
      rw [hcellOut p (by have := List.mem_range.mp hp; omega)]
    · rw [if_neg hk]
  have hpts' : ∀ c, cellPoints (cellOut out n) c len.toNat = cellPoints g c len.toNat := by
    intro c
    rw [hpts]
    simp
  refine ⟨out, hout, ?_, ?_⟩
  · intro p hp
    exact ⟨_, hnext p hp, (lastOf_bounds g (g p) p).1, (lastOf_bounds g (g p) p).2⟩
  · intro c hc hc2
    have hc' : c < (s0.row n).grid.length := by
      rw [← inv.len_grid]; exact hc
    have hc2' : c < (s0.row n).grid_cnt.length := by
      rw [← inv.len_cnt]; exact hc2
    have hhd : (out.row n).grid[c]? = some (lastOf g len.toNat (c : ℤ) (-1)) := by
      rw [inv.head c, hh c hc', Option.map_some']
    have hcnt : cntOut out n c = (cellCount g len.toNat (c : ℤ) : ℤ) := by
      have := inv.cnt c
      rw [hz c hc2', Option.map_some', zero_add] at this
      show ((out.row n).grid_cnt).getD c 0 = _
      rw [List.getD_eq_getElem?_getD, this, Option.getD_some]
    refine ⟨_, hhd, ?_, ?_, ?_, ?_, ?_⟩
    · intro fuel hfuel
      rw [hpts']
      exact chainFrom_lastOf (c : ℤ) hnext len.toNat (Nat.le_refl _) fuel hfuel
    · unfold cellPoints
      rw [List.pairwise_map, List.pairwise_reverse]
      apply List.Pairwise.filter
      exact (List.pairwise_lt_range _).imp (fun h => by exact_mod_cast h)
    · intro p
      unfold cellPoints
      simp only [List.mem_map, List.mem_reverse, List.mem_filter, List.mem_range,
        decide_eq_true_eq]
      constructor
      · rintro ⟨a, ⟨ha1, ha2⟩, ha3⟩
        have : a = p := by exact_mod_cast ha3
        subst this
        exact ⟨ha1, ha2⟩
      · rintro ⟨h1, h2⟩
        exact ⟨p, ⟨h1, h2⟩, rfl⟩
    · rw [hpts', length_cellPoints, hcnt]
    · rw [hcnt, lastOf_eq_neg_one_iff]
      constructor
      · intro h; rw [h]; rfl
      · intro h; exact_mod_cast h

/-! ### C18: the queue holds at most `K` entries -/

/-- One candidate keeps the queue within `K` entries. -/
theorem visitPoint_length_le {points2 : List float3} {spi : List ℤ} {K : ℤ} {r2 : ℚ}
    {cur : float3} {q q' : Heap} {p2 : ℤ} (hq : (q.length : ℤ) ≤ K)
    (h : visitPoint points2 spi K r2 cur q p2 = some q') : (q'.length : ℤ) ≤ K := by
  obtain ⟨pt, -, heff⟩ := visitPoint_cases h
  rcases heff with ⟨-, rfl⟩ | ⟨-, hlt, i, -, rfl⟩ | ⟨-, -, hd, rest, rfl, h2⟩
  · exact hq
  · rw [length_heapPush]; push_cast; omega
  · rcases h2 with ⟨-, rfl⟩ | ⟨-, i, -, rfl⟩
    · exact hq
    · rw [length_heapPush]; simpa using hq

/-- C18: for `K ≥ 1`, (1) a candidate processed on a queue of at most `K` entries leaves at
most `K` entries, and so does the scan of any list of positions from the empty queue;
(2) whenever the branch that reads `q.top()` is taken (`size < K` is false) the queue is
non-empty, so the loop body returns for every queue once `points2` and `sorted_point_idx`
are readable at the position; (3) the queue of a scan is drained into the `K` slots of the result rows, every
written slot index `k` (the number of entries left after the `pop`) satisfying
`0 ≤ k < K`; (4) for `K = 0` the first candidate within the radius reads the top of the
empty queue, which is undefined. -/
theorem C18_bounded_heap (points2 : List float3) (sorted_point_idx : List ℤ) (K : ℤ)
    (r2 : ℚ) (cur_point : float3) (hK : 1 ≤ K) :
    (∀ (q q' : Heap) (p2 : ℤ), (q.length : ℤ) ≤ K →
      visitPoint points2 sorted_point_idx K r2 cur_point q p2 = some q' →
      (q'.length : ℤ) ≤ K) ∧
    (∀ q : Heap, ¬ (q.length : ℤ) < K → ∃ t, heapTop q = some t) ∧
    (∀ (q : Heap) (p2 : ℤ) (pt : float3) (i : ℤ), getAt points2 p2 = some pt →
      getAt sorted_point_idx p2 = some i →
      ∃ q', visitPoint points2 sorted_point_idx K r2 cur_point q p2 = some q') ∧
    (∀ (l : List ℤ) (q : Heap),
      l.foldlM (visitPoint points2 sorted_point_idx K r2 cur_point) [] = some q →
      (q.length : ℤ) ≤ K ∧
      drain q (sentinelRows K) = some (rowsOf q K.toNat) ∧
      ∀ (front : Heap) (t : ℚ × ℤ) (rest : Heap), q = front ++ t :: rest →
        0 ≤ (rest.length : ℤ) ∧ (rest.length : ℤ) < K) ∧
    (∀ (p2 : ℤ) (pt : float3), getAt points2 p2 = some pt → sqDist pt cur_point ≤ r2 →
      visitPoint points2 sorted_point_idx 0 r2 cur_point [] p2 = none) := by
  refine ⟨fun q q' p2 hq h => visitPoint_length_le hq h, ?_,
    fun q p2 pt i hpt hi => visitPoint_isSome hK hpt hi q, ?_, ?_⟩
  · intro q hq
    rcases q with _ | ⟨t, rest⟩
    · exact absurd (by simpa using hK) hq
    · exact ⟨t, rfl⟩
  · intro l q h
    have hlen := (scan_inv h).len
    have hq : (q.length : ℤ) ≤ K := by omega
    refine ⟨hq, ?_, ?_⟩
    · rw [sentinelRows, drain_eq_some_iff]
      refine ⟨by simp; omega, by simp; omega, ?_⟩
      simp [rowsOf]
    · intro front t rest hsplit
      have : q.length = front.length + (rest.length + 1) := by
        rw [hsplit, List.length_append, List.length_cons]
      omega
  · intro p2 pt hpt hw
    unfold visitPoint
    rw [hpt]
    simp [hw, heapTop]

/-- C18 (witness): the example of the specification with `K = 2`; with `K = 0` the same
call has no result. -/
theorem C18_bounded_heap_witness :
    FindNbrsCPU [[⟨0, 0, 0⟩]] [[⟨0, 0, 0⟩, ⟨1 / 2, 0, 0⟩, ⟨2, 0, 0⟩]] [1] [3] [[0, 2, 2]]
      [[0, 1, 2]] [exParams] 0 1 = none ∧
    [0, 1, 2].foldlM (visitPoint [⟨0, 0, 0⟩, ⟨1 / 2, 0, 0⟩, ⟨2, 0, 0⟩] [0, 1, 2] 2 1 ⟨0, 0, 0⟩)
      [] = some [(1 / 4, 1), (0, 0)] ∧
    ((([(1 / 4, 1), (0, 0)] : Heap).length : ℤ) ≤ 2 ∧
      drain [(1 / 4, 1), (0, 0)] (sentinelRows 2) = some (rowsOf [(1 / 4, 1), (0, 0)] 2) ∧
      ∀ (front : Heap) (t : ℚ × ℤ) (rest : Heap),
        ([(1 / 4, 1), (0, 0)] : Heap) = front ++ t :: rest →
        0 ≤ (rest.length : ℤ) ∧ (rest.length : ℤ) < 2) :=
  ⟨by decide!, by decide!,
   (C18_bounded_heap [⟨0, 0, 0⟩, ⟨1 / 2, 0, 0⟩, ⟨2, 0, 0⟩] [0, 1, 2] 2 1 ⟨0, 0, 0⟩
      (by decide)).2.2.2.1 [0, 1, 2] [(1 / 4, 1), (0, 0)] (by decide!)⟩

/-! ### C19: no position is scanned twice -/

/-- An invariant of a monadic fold whose step may use the elements before and after the
current one. -/
theorem foldlM_split {σ α : Type} {f : σ → α → Option σ} (P : List α → σ → Prop) :
    ∀ (l : List α) {s s' : σ} (pre : List α), l.foldlM f s = some s' → P pre s →
      (∀ done a rest t t', pre ++ l = done ++ a :: rest → P done t → f t a = some t' →
        P (done ++ [a]) t') →
      P (pre ++ l) s' := by
  intro l
  induction l with
  | nil =>
    intro s s' pre h h0 _
    simp only [List.foldlM_nil, Option.pure_def, Option.some.injEq] at h
    subst h
    simpa using h0
  | cons a l ih =>
    intro s s' pre h h0 hstep
    rw [List.foldlM_cons, Option.bind_eq_bind, Option.bind_eq_some] at h
    obtain ⟨t, ht, hrest⟩ := h
    have h1 := hstep pre a l s t rfl h0 ht
    have e : pre ++ [a] ++ l = pre ++ a :: l := by simp
    have := ih (pre ++ [a]) hrest h1
      (fun done b rest u u' hb hP hf => hstep done b rest u u' (e ▸ hb) hP hf)
    rw [e] at this
    exact this

/-- Every position of a scan that succeeds is read from `points2`. -/
theorem scan_reads {points2 : List float3} {spi : List ℤ} {K : ℤ} {r2 : ℚ} {cur : float3} :
    ∀ (l : List ℤ) {q q' : Heap}, l.foldlM (visitPoint points2 spi K r2 cur) q = some q' →
      ∀ i, i ∈ l → ∃ pt, getAt points2 i = some pt := by
  intro l
  induction l with
  | nil => intro q q' _ i hi; cases hi
  | cons a l ih =>
    intro q q' h i hi
    rw [List.foldlM_cons, Option.bind_eq_bind, Option.bind_eq_some] at h
    obtain ⟨t, ht, hrest⟩ := h
    rcases List.mem_cons.mp hi with rfl | hi
    · obtain ⟨pt, hpt, -⟩ := visitPoint_cases ht
      exact ⟨pt, hpt⟩
    · exact ih hrest i hi

theorem cellBounds_eq_some {prm : GridParams} {grid_off lengths2 : List ℤ} {n : ℕ} {c : ℤ}
    {b : ℤ × ℤ} (h : cellBounds prm grid_off lengths2 n c = some b) :
    getAt grid_off c = some b.1 ∧
      (if c + 1 = prm.grid_total then lengths2[n]? else getAt grid_off (c + 1)) = some b.2 := by
  unfold cellBounds at h
  rcases hs : getAt grid_off c with _ | s
  · rw [hs] at h; cases h
  rw [hs] at h
  simp only [Option.bind_eq_bind, Option.some_bind, Option.pure_def] at h
  by_cases hl : c + 1 = prm.grid_total
  · rw [if_pos hl] at h ⊢
    rcases he : lengths2[n]? with _ | e
    · rw [he] at h; cases h
    · rw [he] at h
      simp only [Option.some_bind, Option.some.injEq] at h
      subst h
      exact ⟨rfl, rfl⟩
  · rw [if_neg hl] at h ⊢
    rcases he : getAt grid_off (c + 1) with _ | e
    · rw [he] at h; cases h
    · rw [he] at h
      simp only [Option.some_bind, Option.some.injEq] at h
      subst h
      exact ⟨rfl, rfl⟩

theorem getD_of_getAt {a : List ℤ} {c v : ℤ} (h : getAt a c = some v) :
    0 ≤ c ∧ a.getD c.toNat 0 = v := by
  obtain ⟨h0, h1⟩ := getAt_eq_some_iff.mp h
  exact ⟨h0, getD_of_getElem? h1⟩

/-- With non-decreasing offsets the positions are scanned in strictly increasing order. -/
theorem pairwise_lt_scanList_mono {prm : GridParams} {grid_off : List ℤ} {len2 : ℤ}
    (hm : MonotoneOffsets prm grid_off len2) (lengths2 : List ℤ) (n : ℕ) (cur : float3)
    (r : ℚ) : (scanList prm grid_off lengths2 n cur r).Pairwise (· < ·) := by
  obtain ⟨htot, hmono, -⟩ := hm
  unfold scanList
  rw [List.pairwise_flatMap]
  constructor
  · intro c _
    unfold cellPositions
    rcases cellBounds prm grid_off lengths2 n c with _ | b
    · exact List.Pairwise.nil
    · exact pairwise_lt_intRange _ _
  · apply (pairwise_lt_cellList prm cur r).imp_of_mem
    intro c c' hc hc' hlt i hi i' hi'
    have hb := cellList_bounds hc
    have hb' := cellList_bounds hc'
    rw [← htot] at hb hb'
    unfold cellPositions at hi hi'
    rcases h1 : cellBounds prm grid_off lengths2 n c with _ | b
    · rw [h1] at hi; cases hi
    rcases h2 : cellBounds prm grid_off lengths2 n c' with _ | b'
    · rw [h2] at hi'; cases hi'
    rw [h1] at hi
    rw [h2] at hi'
    rw [mem_intRange] at hi hi'
    have e1 := (cellBounds_eq_some h1).2
    rw [if_neg (by omega)] at e1
    have e2 := (cellBounds_eq_some h2).1
    obtain ⟨-, v1⟩ := getD_of_getAt e1
    obtain ⟨-, v2⟩ := getD_of_getAt e2
    have := hmono (c + 1).toNat c'.toNat (by omega) (by omega)
    rw [v1, v2] at this
    omega

/-- With non-decreasing offsets every scanned position is below `lengths2[n]`. -/
theorem scanList_lt_len {prm : GridParams} {grid_off : List ℤ} {lengths2 : List ℤ} {n : ℕ}
    (hm : MonotoneOffsets prm grid_off (lengths2.getD n 0)) {cur : float3} {r : ℚ} {i : ℤ}
    (hi : i ∈ scanList prm grid_off lengths2 n cur r) : i < lengths2.getD n 0 := by
  obtain ⟨htot, hmono, hlast⟩ := hm
  unfold scanList at hi
  obtain ⟨c, hc, hi⟩ := List.mem_flatMap.mp hi
  have hb := cellList_bounds hc
  rw [← htot] at hb
  unfold cellPositions at hi
  rcases h1 : cellBounds prm grid_off lengths2 n c with _ | b
  · rw [h1] at hi; cases hi
  rw [h1, mem_intRange] at hi
  have e1 := (cellBounds_eq_some h1).2
  by_cases hl : c + 1 = prm.grid_total
  · rw [if_pos hl] at e1
    rw [getD_of_getElem? e1]
    exact hi.2
  · rw [if_neg hl] at e1
    obtain ⟨-, v1⟩ := getD_of_getAt e1
    have := hmono (c + 1).toNat (prm.grid_total - 1).toNat (by omega) (by omega)
    rw [v1] at this
    omega

/-- The indices held by the queue are pairwise distinct when the scanned positions are
pairwise distinct and carry pairwise distinct indices. -/
theorem scan_nodup {points2 : List float3} {spi : List ℤ} {K : ℤ} {r2 : ℚ} {cur : float3}
    {l : List ℤ} {q : Heap} (hl : l.Nodup)
    (hinj : ∀ i, i ∈ l → ∀ j, j ∈ l → ∀ idx, getAt spi i = some idx →
      getAt spi j = some idx → i = j)
    (h : l.foldlM (visitPoint points2 spi K r2 cur) [] = some q) :
    (q.map Prod.snd).Nodup := by
  have key := foldlM_split
    (fun done q => ScanInv points2 spi K r2 cur done q ∧ (q.map Prod.snd).Nodup) l [] h
    ⟨scanInv_nil _ _ _ _ _, List.nodup_nil⟩ (by
      intro done a rest t t' hsplit hP hf
      obtain ⟨inv, hnd⟩ := hP
      refine ⟨scanInv_step inv hf, ?_⟩
      have hsplit' : l = done ++ a :: rest := by simpa using hsplit
      have ha : a ∉ done := by
        intro hmem
        rw [hsplit'] at hl
        have := (List.nodup_append.mp hl).2.2
        exact this hmem (List.mem_cons_self a rest)
      have hal : a ∈ l := by rw [hsplit']; simp
      have hfresh : ∀ i, getAt spi a = some i → ∀ e, e ∈ t → e.2 ≠ i := by
        intro i hi e he heq
        obtain ⟨j, hj, pt, -, hspi, -, -⟩ := inv.sound e he
        have hjl : j ∈ l := by rw [hsplit']; exact List.mem_append_left _ hj
        have := hinj j hjl a hal i (heq ▸ hspi) hi
        exact ha (this ▸ hj)
      have hpush : ∀ (i : ℤ) (d : ℚ) (u : Heap), (u.map Prod.snd).Nodup →
          (∀ e, e ∈ u → e.2 ≠ i) → ((heapPush (d, i) u).map Prod.snd).Nodup := by
        intro i d u hu hne
        have hp := (heapPush_perm (d, i) u).map Prod.snd
        rw [hp.nodup_iff, List.map_cons, List.nodup_cons]
        refine ⟨?_, hu⟩
        intro hmem
        obtain ⟨e, he, hei⟩ := List.mem_map.mp hmem
        exact hne e he hei
      obtain ⟨pt, -, heff⟩ := visitPoint_cases hf
      rcases heff with ⟨-, rfl⟩ | ⟨-, -, i, hi, rfl⟩ | ⟨-, -, hd, tl, rfl, h2⟩
      · exact hnd
      · exact hpush i _ t hnd (hfresh i hi)
      · rcases h2 with ⟨-, rfl⟩ | ⟨-, i, hi, rfl⟩
        · exact hnd
        · rw [List.map_cons, List.nodup_cons] at hnd
          exact hpush i _ tl hnd.2
            (fun e he => hfresh i hi e (List.mem_cons_of_mem hd he)))
  simpa using key.2

/-- C19: when `FindNbrsCPU` returns a result and, for the batch element `n`, the offsets
are non-decreasing over the `grid_total = rx * ry * rz` cells with the offset of the last
cell at most `lengths2[n]`, and `sorted_point_idx[n]` takes different values at different
valid positions, then the positions scanned for any query point are strictly increasing in
scan order (none is scanned twice) and two different slots of a query that are not the
sentinel pair hold different indices. -/
theorem C19_returned_indices_distinct (points1 points2 : List (List float3))
    (lengths1 lengths2 : List ℤ) (grid_off sorted_point_idx : List (List ℤ))
    (params : List GridParams) (K : ℤ) (r : ℚ) (out : NbrsOut)
    (hrun : FindNbrsCPU points1 points2 lengths1 lengths2 grid_off sorted_point_idx params K r
      = some out)
    (n p1 : ℕ) (hn : n < points1.length) (hp1 : p1 < (points1.headD []).length)
    (hoff : MonotoneOffsets (params.getD n default) (grid_off.getD n [])
      (lengths2.getD n 0))
    (hinj : InjectiveIdx (sorted_point_idx.getD n []) (lengths2.getD n 0)) :
    (∀ cur : float3, (scanList (params.getD n default) (grid_off.getD n []) lengths2 n cur
      r).Pairwise (fun i j => i < j)) ∧
    ∀ (j k : ℕ) (idxj idxk : ℤ) (dj dk : ℚ), j ≠ k →
      (out.row n p1).1[j]? = some idxj → (out.row n p1).2[j]? = some dj →
      (idxj ≠ -1 ∨ dj ≠ -1) →
      (out.row n p1).1[k]? = some idxk → (out.row n p1).2[k]? = some dk →
      (idxk ≠ -1 ∨ dk ≠ -1) → idxj ≠ idxk := by
  refine ⟨fun cur => pairwise_lt_scanList_mono hoff lengths2 n cur r, ?_⟩
  intro j k idxj idxk dj dk hjk hidxj hdj hnej hidxk hdk hnek
  obtain ⟨hK, prm, len1, hprm, -, hq⟩ := FindNbrsCPU_query hrun hn
  rw [getD_of_getElem? hprm] at hoff
  have filled : ∀ (q : Heap), q.length ≤ K.toNat → out.row n p1 = rowsOf q K.toNat →
      ∀ (k : ℕ) (idx : ℤ) (d : ℚ), (out.row n p1).1[k]? = some idx →
      (out.row n p1).2[k]? = some d → (idx ≠ -1 ∨ d ≠ -1) →
      k < q.length ∧ (q.reverse.map Prod.snd)[k]? = some idx := by
    intro q hqlen hrow k idx d hidx hd hne
    have hk : k < K.toNat := by
      have h1 := (List.getElem?_eq_some_iff.mp hidx).1
      rw [hrow, (rowsOf_length hqlen).1] at h1
      exact h1
    have hkq : k < q.length := by
      by_contra hc
      have := rowsOf_sentinel (q := q) (not_lt.mp hc) hk
      rw [← hrow, hidx, hd] at this
      have h1 := Option.some.inj this.1
      have h2 := Option.some.inj this.2
      tauto
    refine ⟨hkq, ?_⟩
    rw [hrow] at hidx
    simp only [rowsOf] at hidx
    rw [List.getElem?_append_left (by simpa using hkq)] at hidx
    exact hidx
  by_cases hlt : p1 < len1.toNat
  · obtain ⟨cur, q, hcur, hscan, hqlen, hrow⟩ := (hq p1 hp1).2 hlt
    have hfold := (scanCells_eq_some_iff.mp hscan).2
    have hpw := pairwise_lt_scanList_mono hoff lengths2 n cur r
    have hnd : (scanList prm (grid_off.getD n []) lengths2 n cur r).Nodup :=
      hpw.imp (fun h => ne_of_lt h)
    have hvalid : ∀ i, i ∈ scanList prm (grid_off.getD n []) lengths2 n cur r →
        0 ≤ i ∧ i < lengths2.getD n 0 := by
      intro i hi
      obtain ⟨pt, hpt⟩ := scan_reads _ hfold i hi
      exact ⟨(getAt_eq_some_iff.mp hpt).1, scanList_lt_len hoff hi⟩
    have hq_nd := scan_nodup hnd (by
      intro i hi i' hi' idx h1 h2
      obtain ⟨a0, a1⟩ := hvalid i hi
      obtain ⟨b0, b1⟩ := hvalid i' hi'
      have e1 := (getAt_eq_some_iff.mp h1).2
      have e2 := (getAt_eq_some_iff.mp h2).2
      have := hinj i.toNat (by omega) i'.toNat (by omega) (by rw [e1]; simp) (by rw [e1, e2])
      omega) hfold
    obtain ⟨hj1, hj2⟩ := filled q hqlen hrow j idxj dj hidxj hdj hnej
    obtain ⟨hk1, hk2⟩ := filled q hqlen hrow k idxk dk hidxk hdk hnek
    have hnd' : (q.reverse.map Prod.snd).Nodup := by
      rw [List.map_reverse, List.nodup_reverse]
      exact hq_nd
    intro heq
    obtain ⟨hj', hje⟩ := List.getElem?_eq_some_iff.mp hj2
    obtain ⟨hk', hke⟩ := List.getElem?_eq_some_iff.mp hk2
    have hjk' : (q.reverse.map Prod.snd)[j] = (q.reverse.map Prod.snd)[k] := by
      rw [hje, hke, heq]
    exact hjk ((List.Nodup.getElem_inj_iff hnd').mp hjk')
  · exfalso
    have hrow := (hq p1 hp1).1 (not_lt.mp hlt)
    have hrow' : out.row n p1 = rowsOf [] K.toNat := by
      rw [hrow]; simp [sentinelRows, rowsOf]
    have := (filled [] (Nat.zero_le _) hrow' k idxk dk hidxk hdk hnek).1
    simp at this

/-! ### C20: the filled slots are in ascending order of `(distance, index)` -/

/-- The rows list the queue in ascending order of the tuples. -/
theorem rowsOf_sorted_lex {q : Heap} (hs : HeapSorted q) {j k : ℕ} (hjk : j < k)
    {ej ek : ℚ × ℤ} (hj : q.reverse[j]? = some ej) (hk : q.reverse[k]? = some ek) :
    ej.1 < ek.1 ∨ (ej.1 = ek.1 ∧ ej.2 ≤ ek.2) := by
  have hp : q.reverse.Pairwise (fun a b => ¬ tupleLt b a) := by
    rw [List.pairwise_reverse]
    exact hs
  obtain ⟨hj', hje⟩ := List.getElem?_eq_some_iff.mp hj
  obtain ⟨hk', hke⟩ := List.getElem?_eq_some_iff.mp hk
  have := List.pairwise_iff_getElem.mp hp j k hj' hk' hjk
  rw [hje, hke] at this
  unfold tupleLt at this
  push_neg at this
  rcases lt_or_eq_of_le this.1 with h | h
  · exact Or.inl h
  · exact Or.inr ⟨h, this.2 h.symm⟩

/-- C20: in a result of `FindNbrsCPU`, if slot `k` of a query is not the sentinel pair and
`j < k`, the pairs `(d_j, idx_j)` and `(d_k, idx_k)` of the two slots are in ascending
lexicographic order: `d_j < d_k`, or `d_j = d_k` and `idx_j ≤ idx_k` (the earlier slot
holds the smaller index, the indices being equal only for two equal tuples). -/
theorem C20_slots_sorted_lexicographically (points1 points2 : List (List float3))
    (lengths1 lengths2 : List ℤ) (grid_off sorted_point_idx : List (List ℤ))
    (params : List GridParams) (K : ℤ) (r : ℚ) (out : NbrsOut)
    (hrun : FindNbrsCPU points1 points2 lengths1 lengths2 grid_off sorted_point_idx params K r
      = some out)
    (n p1 j k : ℕ) (hn : n < points1.length) (hp1 : p1 < (points1.headD []).length)
    (hjk : j < k) (idxj idxk : ℤ) (dj dk : ℚ)
    (hidxj : (out.row n p1).1[j]? = some idxj) (hdj : (out.row n p1).2[j]? = some dj)
    (hidxk : (out.row n p1).1[k]? = some idxk) (hdk : (out.row n p1).2[k]? = some dk)
    (hne : idxk ≠ -1 ∨ dk ≠ -1) :
    dj < dk ∨ (dj = dk ∧ idxj ≤ idxk) := by
  obtain ⟨hK, prm, len1, hprm, -, hq⟩ := FindNbrsCPU_query hrun hn
  have hns : ¬ (idxk = -1 ∧ dk = -1) := by tauto
  by_cases hlt : p1 < len1.toNat
  · obtain ⟨cur, q, hcur, hscan, hqlen, hrow⟩ := (hq p1 hp1).2 hlt
    have inv := scan_inv (scanCells_eq_some_iff.mp hscan).2
    have hrow' : out.row n p1 = rowsOf q K.toNat := hrow
    have hk : k < K.toNat := by
      have h1 := (List.getElem?_eq_some_iff.mp hidxk).1
      rw [hrow', (rowsOf_length hqlen).1] at h1
      exact h1
    have hkq : k < q.length := by
      by_contra hc
      have := rowsOf_sentinel (q := q) (not_lt.mp hc) hk
      rw [← hrow', hidxk, hdk] at this
      exact hns ⟨Option.some.inj this.1, Option.some.inj this.2⟩
    obtain ⟨ek, hek, -, h1, h2⟩ := rowsOf_filled K.toNat hkq
    obtain ⟨ej, hej, -, h3, h4⟩ := rowsOf_filled K.toNat (show j < q.length by omega)
    rw [← hrow', hidxk] at h1
    rw [← hrow', hdk] at h2
    rw [← hrow', hidxj] at h3
    rw [← hrow', hdj] at h4
    injection h1 with h1
    injection h2 with h2
    injection h3 with h3
    injection h4 with h4
    subst h1 h2 h3 h4
    exact rowsOf_sorted_lex inv.sorted hjk hej hek
  · exfalso
    have hrow := (hq p1 hp1).1 (not_lt.mp hlt)
    have hrow' : out.row n p1 = rowsOf [] K.toNat := by
      rw [hrow]; simp [sentinelRows, rowsOf]
    have hk : k < K.toNat := by
      have h1 := (List.getElem?_eq_some_iff.mp hidxk).1
      rw [hrow', (rowsOf_length (Nat.zero_le _)).1] at h1
      exact h1
    have := rowsOf_sentinel (q := []) (Nat.zero_le k) hk
    rw [← hrow', hidxk, hdk] at this
    exact hns ⟨Option.some.inj this.1, Option.some.inj this.2⟩

/-! ### Witnesses -/

/-- C11 (witness): the example with two different paddings. -/
theorem C11_padding_has_no_influence_witness :
    InsertPointsCPU exPoints [3, 2] exInsertInit [exParams, exParams]
      = InsertPointsCPU exPointsPad [3, 2] exInsertInit [exParams, exParams] ∧
    (∀ out, InsertPointsCPU exPoints [3, 2] exInsertInit [exParams, exParams] = some out →
      ∀ n, n < exPoints.length → ∀ p, ([(3 : ℤ), 2].getD n 0).toNat ≤ p →
        (out.grid_cell.getD n [])[p]? = (exInsertInit.grid_cell.getD n [])[p]? ∧
        (out.grid_next.getD n [])[p]? = (exInsertInit.grid_next.getD n [])[p]? ∧
        (out.grid_idx.getD n [])[p]? = (exInsertInit.grid_idx.getD n [])[p]?) ∧
    FindNbrsCPU exQueries exSorted [1, 0] [3, 2] exOff exIdx [exParams, exParams] 3 (1 / 2)
      = FindNbrsCPU exQueriesPad exSortedPad [1, 0] [3, 2] exOff exIdx [exParams, exParams]
          3 (1 / 2) :=
  C11_padding_has_no_influence exPoints exPointsPad [3, 2] exInsertInit [exParams, exParams]
    exQueries exQueriesPad exSorted exSortedPad [1, 0] [3, 2] exOff exIdx [exParams, exParams]
    3 (1 / 2) (by decide) (by decide!) (by decide!) (by decide) (by decide) (by decide!)
    (by decide!)

/-- C14 (witness): `K = 1`, query `(1/2, 0, 0)`, `r = 1/2`: the positions 0 and 1 hold
points at squared distance `1/16`, position 2 holds a point outside the radius; the result
is the index of position 0. -/
theorem C14_equal_distance_not_admitted_witness :
    FindNbrsCPU [[⟨1 / 2, 0, 0⟩]] exTie [1] [3] [[0, 2, 3]] [[0, 1, 2]] [exParams] 1 (1 / 2)
      = some { idxs := [[[0]]], dists := [[[1 / 16]]] } ∧
    ∃ idx, getAt ([[(0 : ℤ), 1, 2]].getD 0 []) 0 = some idx ∧
      NbrsOut.row { idxs := [[[0]]], dists := [[[1 / 16]]] } 0 0
        = ([idx], [sqDist ⟨1 / 4, 0, 0⟩ (pointAt ([[(⟨1 / 2, 0, 0⟩ : float3)]].getD 0 []) 0)]) :=
  ⟨by decide!,
   (C14_equal_distance_not_admitted [[⟨1 / 2, 0, 0⟩]] exTie [1] [3] [[0, 2, 3]] [[0, 1, 2]]
    [exParams] (1 / 2) { idxs := [[[0]]], dists := [[[1 / 16]]] } (by decide!) 0 0
    (by decide) (by decide) (by decide) [] [] [2] 0 1 ⟨1 / 4, 0, 0⟩ ⟨3 / 4, 0, 0⟩
    (by decide!) (by decide!) (by decide!) (by decide!) (by decide!) (by decide!)).2⟩

/-- C15 (witness): the layout of the C14 witness with `K = 2`: both equally distant
candidates are returned, the earlier-scanned index 0 and the later-scanned index 1. -/
theorem C15_earlier_smaller_index_kept_witness :
    FindNbrsCPU [[⟨1 / 2, 0, 0⟩]] exTie [1] [3] [[0, 2, 3]] [[0, 1, 2]] [exParams] 2 (1 / 2)
      = some { idxs := [[[0, 1]]], dists := [[[1 / 16, 1 / 16]]] } ∧
    ∃ k' : ℕ,
      (NbrsOut.row { idxs := [[[0, 1]]], dists := [[[1 / 16, 1 / 16]]] } 0 0).1[k']?
        = some 0 ∧
      (NbrsOut.row { idxs := [[[0, 1]]], dists := [[[1 / 16, 1 / 16]]] } 0 0).2[k']?
        = some (sqDist ⟨1 / 4, 0, 0⟩ (pointAt ([[(⟨1 / 2, 0, 0⟩ : float3)]].getD 0 []) 0)) :=
  ⟨by decide!,
   C15_earlier_smaller_index_kept [[⟨1 / 2, 0, 0⟩]] exTie [1] [3] [[0, 2, 3]] [[0, 1, 2]]
    [exParams] 2 (1 / 2) { idxs := [[[0, 1]]], dists := [[[1 / 16, 1 / 16]]] } (by decide!)
    0 0 (by decide) (by decide) (by decide) [] [] [2] 0 1 ⟨1 / 4, 0, 0⟩ ⟨3 / 4, 0, 0⟩ 0 1
    (by decide!) (by decide!) (by decide!) (by decide) (by decide) (by decide!) (by decide!)
    (by decide) (by simp) 1 (by decide) (by decide!)⟩

/-- C17 (witness): batch element 0 of the example: the chains of the cells 0, 1, 2 are
`[1, 0]`, `[]` and `[2]`. -/
theorem C17_cell_chains_witness :
    ∃ out, InsertPointsCPU exPoints [3, 2] exInsertInit [exParams, exParams] = some out ∧
      (∀ p, p < ([(3 : ℤ), 2].getD 0 0).toNat →
        ∃ nxt, (out.grid_next.getD 0 [])[p]? = some nxt ∧ -1 ≤ nxt ∧ nxt < (p : ℤ)) ∧
      ∀ c, c < (out.grid.getD 0 []).length → c < (out.grid_cnt.getD 0 []).length →
        ∃ hd, (out.grid.getD 0 [])[c]? = some hd ∧
          (∀ fuel, ([(3 : ℤ), 2].getD 0 0).toNat ≤ fuel →
            chainFrom (out.grid_next.getD 0 []) fuel hd
              = some (cellPoints (cellOut out 0) (c : ℤ) ([(3 : ℤ), 2].getD 0 0).toNat)) ∧
          (cellPoints (cellOut out 0) (c : ℤ) ([(3 : ℤ), 2].getD 0 0).toNat).Pairwise
            (fun a b => b < a) ∧
          (∀ p : ℕ, (p : ℤ) ∈ cellPoints (cellOut out 0) (c : ℤ)
              ([(3 : ℤ), 2].getD 0 0).toNat ↔
            p < ([(3 : ℤ), 2].getD 0 0).toNat ∧ cellOut out 0 p = (c : ℤ)) ∧
          (((cellPoints (cellOut out 0) (c : ℤ) ([(3 : ℤ), 2].getD 0 0).toNat).length : ℕ) : ℤ)
            = cntOut out 0 c ∧
          (hd = -1 ↔ cntOut out 0 c = 0) :=
  C17_cell_chains exPoints [3, 2] exInsertInit [exParams, exParams] (by decide!) 0
    (by decide) (by decide) (by decide)

/-- C19 (witness): the valid query of the example: the slots 0 and 1 hold the indices 0
and 1. -/
theorem C19_returned_indices_distinct_witness :
    (∀ cur : float3, (scanList ([exParams, exParams].getD 0 default) (exOff.getD 0 [])
      [3, 2] 0 cur (1 / 2)).Pairwise (fun i j => i < j)) ∧
    ∀ (j k : ℕ) (idxj idxk : ℤ) (dj dk : ℚ), j ≠ k →
      (exOut.row 0 0).1[j]? = some idxj → (exOut.row 0 0).2[j]? = some dj →
      (idxj ≠ -1 ∨ dj ≠ -1) →
      (exOut.row 0 0).1[k]? = some idxk → (exOut.row 0 0).2[k]? = some dk →
      (idxk ≠ -1 ∨ dk ≠ -1) → idxj ≠ idxk :=
  C19_returned_indices_distinct exQueries exSorted [1, 0] [3, 2] exOff exIdx
    [exParams, exParams] 3 (1 / 2) exOut (by decide!) 0 0 (by decide) (by decide)
    (by decide) (by decide)

/-- C20 (witness): the layout of the C15 counterexample with `K = 3`: the slots 1 and 2
hold the equally distant indices 0 and 1 in this order. -/
theorem C20_slots_sorted_lexicographically_witness :
    FindNbrsCPU [[⟨1, 0, 0⟩]] [[⟨1 / 2, 0, 0⟩, ⟨3 / 2, 0, 0⟩, ⟨1, 0, 0⟩]] [1] [3] [[0, 1]]
      [[1, 0, 2]] [exTwoCells] 3 1
      = some { idxs := [[[2, 0, 1]]], dists := [[[0, 1 / 4, 1 / 4]]] } ∧
    ((1 / 4 : ℚ) < 1 / 4 ∨ ((1 / 4 : ℚ) = 1 / 4 ∧ (0 : ℤ) ≤ 1)) :=
  ⟨by decide!,
   C20_slots_sorted_lexicographically [[⟨1, 0, 0⟩]]
    [[⟨1 / 2, 0, 0⟩, ⟨3 / 2, 0, 0⟩, ⟨1, 0, 0⟩]] [1] [3] [[0, 1]] [[1, 0, 2]] [exTwoCells] 3 1
    { idxs := [[[2, 0, 1]]], dists := [[[0, 1 / 4, 1 / 4]]] } (by decide!) 0 0 1 2
    (by decide) (by decide) (by decide) 0 1 (1 / 4) (1 / 4) (by decide) (by decide!)
    (by decide) (by decide!) (by decide)⟩

/-! ### C1: the true `K` nearest within `r` -/

/-- C1 (counterexample): the grid of `2 × 1 × 1` unit cells with origin 0, the reference
points `(-1/4, 0, 0)` (grid coordinate 0 by `GetGridCell`, since `(int)(-0.25) = 0`) and
`(3/2, 0, 0)`, the query `(-3/4, 0, 0)`, `r = 1/2`, `K = 2`. The layout is well formed and
the first reference point lies on the radius (squared distance `1/4 = r * r`), but
`max_gc.x = floor(-1/4) = -1`, no cell is visited and the row of the query holds only the
sentinel: the nearest point within `r` is not returned. -/
theorem C1_counterexample :
    FindWellFormed [[⟨-3 / 4, 0, 0⟩]] [[⟨-1 / 4, 0, 0⟩, ⟨3 / 2, 0, 0⟩]] [1] [2] [[0, 1]]
      [[0, 1]] [exTwoCells] ∧
    (1 : ℤ) ≤ 2 ∧ (0 : ℚ) ≤ 1 / 2 ∧
    (GetGridCell (-1 / 4) 0 0 exTwoCells).1 = ⟨0, 0, 0⟩ ∧
    sqDist ⟨-1 / 4, 0, 0⟩ ⟨-3 / 4, 0, 0⟩ ≤ (1 / 2 : ℚ) * (1 / 2) ∧
    withinCount [⟨-1 / 4, 0, 0⟩, ⟨3 / 2, 0, 0⟩] 2 ⟨-3 / 4, 0, 0⟩ (1 / 2) = 1 ∧
    cellList exTwoCells ⟨-3 / 4, 0, 0⟩ (1 / 2) = [] ∧
    FindNbrsCPU [[⟨-3 / 4, 0, 0⟩]] [[⟨-1 / 4, 0, 0⟩, ⟨3 / 2, 0, 0⟩]] [1] [2] [[0, 1]]
      [[0, 1]] [exTwoCells] 2 (1 / 2)
      = some { idxs := [[[-1, -1]]], dists := [[[-1, -1]]] } := by
  decide!

/-- C1 (amended): with exact arithmetic, on well-formed inputs with `K ≥ 1`, `r ≥ 0`, a
non-negative inverse cell size, every valid reference point at a non-negative scaled offset
`(coord - origin) * grid_delta` on each axis (at or above the grid origin) and
`sorted_point_idx[n]` taking different values at different valid positions, `FindNbrsCPU`
returns a result in which the row of every valid query holds the true `K` nearest within
`r`: with `m = min(K, number of valid reference points with squared distance ≤ r * r)`,
(1) every slot `k < m` holds the index `sorted_point_idx[n][i]` and the squared distance of
a valid sorted position `i` whose point lies within `r`; (2) every slot `m ≤ k < K` holds
the sentinel pair; (3) different slots below `m` hold different indices; (4) the distances
of the slots below `m` are in ascending order; (5) every valid reference point within `r`
whose index is not in the row is at least as far as every distance of the row. -/
theorem C1_returns_k_nearest_within_r (points1 points2 : List (List float3))
    (lengths1 lengths2 : List ℤ) (grid_off sorted_point_idx : List (List ℤ))
    (params : List GridParams) (K : ℤ) (r : ℚ)
    (hwf : FindWellFormed points1 points2 lengths1 lengths2 grid_off sorted_point_idx params)
    (hK : 1 ≤ K) (hr : 0 ≤ r)
    (hgrid : ∀ n, n < points1.length → 0 ≤ (params.getD n default).grid_delta ∧
      NonnegOffsets (params.getD n default) (points2.getD n []) (lengths2.getD n 0))
    (hinj : ∀ n, n < points1.length →
      InjectiveIdx (sorted_point_idx.getD n []) (lengths2.getD n 0)) :
    ∃ out, FindNbrsCPU points1 points2 lengths1 lengths2 grid_off sorted_point_idx params K r
        = some out ∧
      ∀ n p1 : ℕ, n < points1.length → (p1 : ℤ) < lengths1.getD n 0 →
        ∃ m : ℕ, (m : ℤ) = min K ((withinCount (points2.getD n []) (lengths2.getD n 0)
            (pointAt (points1.getD n []) p1) r : ℕ) : ℤ) ∧
          (∀ k, k < m → ∃ i : ℕ, (i : ℤ) < lengths2.getD n 0 ∧
            sqDist (pointAt (points2.getD n []) i) (pointAt (points1.getD n []) p1) ≤ r * r ∧
            (out.row n p1).1[k]? = some ((sorted_point_idx.getD n []).getD i (-1)) ∧
            (out.row n p1).2[k]? = some
              (sqDist (pointAt (points2.getD n []) i) (pointAt (points1.getD n []) p1))) ∧
          (∀ k : ℕ, m ≤ k → (k : ℤ) < K →
            (out.row n p1).1[k]? = some (-1) ∧ (out.row n p1).2[k]? = some (-1)) ∧
          (∀ (j k : ℕ) (idxj idxk : ℤ), j < k → k < m →
            (out.row n p1).1[j]? = some idxj → (out.row n p1).1[k]? = some idxk →
            idxj ≠ idxk) ∧
          (∀ (j k : ℕ) (dj dk : ℚ), j ≤ k → k < m →
            (out.row n p1).2[j]? = some dj → (out.row n p1).2[k]? = some dk → dj ≤ dk) ∧
          (∀ i : ℕ, (i : ℤ) < lengths2.getD n 0 →
            sqDist (pointAt (points2.getD n []) i) (pointAt (points1.getD n []) p1) ≤ r * r →
            (sorted_point_idx.getD n []).getD i (-1) ∉ (out.row n p1).1 →
            ∀ d, d ∈ (out.row n p1).2 →
              d ≤ sqDist (pointAt (points2.getD n []) i)
                (pointAt (points1.getD n []) p1)) := by
  obtain ⟨out, hout⟩ := FindNbrsCPU_wf hwf hK r
  refine ⟨out, hout, ?_⟩
  intro n p1 hn hp1
  obtain ⟨hp, hl1, hl2, hall⟩ := hwf
  obtain ⟨h1, h2, hlay⟩ := hall n hn
  obtain ⟨hδ, hab⟩ := hgrid n hn
  have hinj' := hinj n hn
  obtain ⟨-, prm, len1, hprm, hlen1, hq⟩ := FindNbrsCPU_query hout hn
  rw [getD_of_getElem? hprm] at hlay hδ hab
  rw [getD_of_getElem? hlen1] at hp1 h1 h2
  have F := hlay.facts
  have hl : lengths2[n]? = some (lengths2.getD n 0) :=
    getElem?_of_lt_getD (show n < lengths2.length by omega) 0
  obtain ⟨cur, q, hcur, hscan, hqlen, hrow⟩ := (hq p1 (by omega)).2 (by omega)
  have hcur' : pointAt (points1.getD n []) p1 = cur := getD_of_getElem? hcur
  rw [hcur']
  have hrow' : out.row n p1 = rowsOf q K.toNat := hrow
  rw [hrow']
  have hfold := (scanCells_eq_some_iff.mp hscan).2
  have inv := scan_inv hfold
  have hcount : (scanList prm (grid_off.getD n []) lengths2 n cur r).countP
      (withinR (points2.getD n []) cur (r * r))
      = withinCount (points2.getD n []) (lengths2.getD n 0) cur r :=
    countP_scanList hlay hl hδ hr hab
  have hlen := inv.len
  rw [hcount] at hlen
  have hnd : (scanList prm (grid_off.getD n []) lengths2 n cur r).Nodup :=
    (pairwise_lt_scanList F hl cur r).imp (fun h => ne_of_lt h)
  have hq_nd := scan_nodup hnd (by
    intro i hi i' hi' idx e1 e2
    obtain ⟨a0, a1⟩ := scanList_valid F hl hi
    obtain ⟨b0, b1⟩ := scanList_valid F hl hi'
    have g1 := (getAt_eq_some_iff.mp e1).2
    have g2 := (getAt_eq_some_iff.mp e2).2
    have := hinj' i.toNat (by omega) i'.toNat (by omega) (by rw [g1]; simp) (by rw [g1, g2])
    omega) hfold
  have hnd' : (q.reverse.map Prod.snd).Nodup := by
    rw [List.map_reverse, List.nodup_reverse]
    exact hq_nd
  have hidx_at : ∀ k, k < q.length → ∀ idx, (rowsOf q K.toNat).1[k]? = some idx →
      (q.reverse.map Prod.snd)[k]? = some idx := by
    intro k hk idx hidx
    simp only [rowsOf] at hidx
    rw [List.getElem?_append_left (by simpa using hk)] at hidx
    exact hidx
  refine ⟨q.length, by omega, ?_, ?_, ?_, ?_, ?_⟩
  · intro k hk
    obtain ⟨e, -, he, e1, e2⟩ := rowsOf_filled K.toNat hk
    obtain ⟨i, hi, pt, hpt, hspi, hdist, hr2⟩ := inv.sound e he
    obtain ⟨a0, a1⟩ := scanList_valid F hl hi
    have g1 := (getAt_eq_some_iff.mp hpt).2
    have g2 := (getAt_eq_some_iff.mp hspi).2
    have gp : pointAt (points2.getD n []) i.toNat = pt := getD_of_getElem? g1
    have gi : (sorted_point_idx.getD n []).getD i.toNat (-1) = e.2 := getD_of_getElem? g2
    refine ⟨i.toNat, by omega, ?_, ?_, ?_⟩
    · rw [gp, ← hdist]; exact hr2
    · rw [gi]; exact e1
    · rw [gp, ← hdist]; exact e2
  · intro k hk1 hk2
    exact rowsOf_sentinel hk1 (by omega)
  · intro j k idxj idxk hjk hk hj1 hk1 heq
    have hj2 := hidx_at j (by omega) idxj hj1
    have hk2 := hidx_at k hk idxk hk1
    obtain ⟨hj', hje⟩ := List.getElem?_eq_some_iff.mp hj2
    obtain ⟨hk', hke⟩ := List.getElem?_eq_some_iff.mp hk2
    have hjk' : (q.reverse.map Prod.snd)[j] = (q.reverse.map Prod.snd)[k] := by
      rw [hje, hke, heq]
    have := (List.Nodup.getElem_inj_iff hnd').mp hjk'
    omega
  · intro j k dj dk hjk hk hj1 hk1
    obtain ⟨ek, hek, -, -, e2⟩ := rowsOf_filled K.toNat hk
    obtain ⟨ej, hej, -, -, e4⟩ := rowsOf_filled K.toNat (show j < q.length by omega)
    rw [hk1] at e2
    rw [hj1] at e4
    injection e2 with e2
    injection e4 with e4
    rw [e2, e4]
    exact rowsOf_sorted inv.sorted hjk hej hek
  · intro i hi hwithin hnot d hd
    have hi' : i < (lengths2.getD n 0).toNat := by omega
    rcases mem_rowsOf_fst hd with ⟨e, he, rfl⟩ | rfl
    · have hcell : refCell prm (points2.getD n []) i ∈ cellList prm cur r :=
        cell_visited hδ hr (hlay.2.2.2.2.2 i hi').1 (hab i hi') hwithin
      have hmem := mem_scanList_of_cell F hl hi' hcell
      obtain ⟨idx, hidx⟩ := F.idx i hi'
      have hget : (sorted_point_idx.getD n []).getD i (-1) = idx := getD_of_getElem? hidx
      rcases inv.complete (i : ℤ) hmem _ idx (by rw [getAt_natCast]; exact F.pts i hi')
          (by rw [getAt_natCast]; exact hidx) hwithin with hm | ⟨-, hall'⟩
      · exact absurd (hget ▸ mem_rowsOf_snd hm) hnot
      · exact hall' e he
    · have := sqDist_nonneg (pointAt (points2.getD n []) i) cur
      linarith

/-- C1 (witness): the example of the specification: reference points `(0,0,0)`,
`(1/2,0,0)`, `(2,0,0)`, query `(0,0,0)`, `r = 1`, `K = 2`; two reference points lie within
`r` and the result is the indices `[0, 1]` with squared distances `[0, 1/4]`. -/
theorem C1_returns_k_nearest_within_r_witness :
    FindNbrsCPU [[⟨0, 0, 0⟩]] [[⟨0, 0, 0⟩, ⟨1 / 2, 0, 0⟩, ⟨2, 0, 0⟩]] [1] [3] [[0, 2, 2]]
      [[0, 1, 2]] [exParams] 2 1 = some { idxs := [[[0, 1]]], dists := [[[0, 1 / 4]]] } ∧
    withinCount [⟨0, 0, 0⟩, ⟨1 / 2, 0, 0⟩, ⟨2, 0, 0⟩] 3 ⟨0, 0, 0⟩ 1 = 2 ∧
    ∃ out, FindNbrsCPU [[⟨0, 0, 0⟩]] [[⟨0, 0, 0⟩, ⟨1 / 2, 0, 0⟩, ⟨2, 0, 0⟩]] [1] [3]
        [[0, 2, 2]] [[0, 1, 2]] [exParams] 2 1 = some out ∧
      ∀ n p1 : ℕ, n < [[(⟨0, 0, 0⟩ : float3)]].length → (p1 : ℤ) < [(1 : ℤ)].getD n 0 →
        ∃ m : ℕ, (m : ℤ) = min 2
            ((withinCount ([[⟨0, 0, 0⟩, ⟨1 / 2, 0, 0⟩, ⟨2, 0, 0⟩]].getD n [])
              ([(3 : ℤ)].getD n 0) (pointAt ([[⟨0, 0, 0⟩]].getD n []) p1) 1 : ℕ) : ℤ) ∧
          (∀ k, k < m → ∃ i : ℕ, (i : ℤ) < [(3 : ℤ)].getD n 0 ∧
            sqDist (pointAt ([[⟨0, 0, 0⟩, ⟨1 / 2, 0, 0⟩, ⟨2, 0, 0⟩]].getD n []) i)
              (pointAt ([[⟨0, 0, 0⟩]].getD n []) p1) ≤ 1 * 1 ∧
            (out.row n p1).1[k]? = some (([[0, 1, 2]].getD n []).getD i (-1)) ∧
            (out.row n p1).2[k]? = some
              (sqDist (pointAt ([[⟨0, 0, 0⟩, ⟨1 / 2, 0, 0⟩, ⟨2, 0, 0⟩]].getD n []) i)
                (pointAt ([[⟨0, 0, 0⟩]].getD n []) p1))) ∧
          (∀ k : ℕ, m ≤ k → (k : ℤ) < 2 →
            (out.row n p1).1[k]? = some (-1) ∧ (out.row n p1).2[k]? = some (-1)) ∧
          (∀ (j k : ℕ) (idxj idxk : ℤ), j < k → k < m →
            (out.row n p1).1[j]? = some idxj → (out.row n p1).1[k]? = some idxk →
            idxj ≠ idxk) ∧
          (∀ (j k : ℕ) (dj dk : ℚ), j ≤ k → k < m →
            (out.row n p1).2[j]? = some dj → (out.row n p1).2[k]? = some dk → dj ≤ dk) ∧
          (∀ i : ℕ, (i : ℤ) < [(3 : ℤ)].getD n 0 →
            sqDist (pointAt ([[⟨0, 0, 0⟩, ⟨1 / 2, 0, 0⟩, ⟨2, 0, 0⟩]].getD n []) i)
              (pointAt ([[⟨0, 0, 0⟩]].getD n []) p1) ≤ 1 * 1 →
            ([[0, 1, 2]].getD n []).getD i (-1) ∉ (out.row n p1).1 →
            ∀ d, d ∈ (out.row n p1).2 →
              d ≤ sqDist (pointAt ([[⟨0, 0, 0⟩, ⟨1 / 2, 0, 0⟩, ⟨2, 0, 0⟩]].getD n []) i)
                (pointAt ([[⟨0, 0, 0⟩]].getD n []) p1)) :=
  ⟨by decide!, by decide!,
   C1_returns_k_nearest_within_r [[⟨0, 0, 0⟩]] [[⟨0, 0, 0⟩, ⟨1 / 2, 0, 0⟩, ⟨2, 0, 0⟩]] [1] [3]
    [[0, 2, 2]] [[0, 1, 2]] [exParams] 2 1 (by decide!) (by decide) (by decide!) (by decide!)
    (by decide)⟩

/-! ### The effect of `float` rounding -/

/-- The statements proved here with exact arithmetic do not carry over to the rounded
`float` operations of the program. (1) Box `[0, 0.7f]`, cell size `0.1f`: the inverse cell
size rounds to 10 and the resolution is 7 with and without rounding; for the point
`x = 0.7f` on the max face the product `0.7f * 10` rounds to `7.0`, so the program computes
the grid coordinate `7 = res.x` and the flat id `7 = grid_total`, where exact arithmetic
gives 6. (2) Origin `-0.125`, inverse cell size 10, reference point `b = 0.7f - 0.125`,
query `q = 0.375 + 2^-25`, radius `r = b - q` (all `float` values, `b` above the origin,
`b` exactly on the radius of `q`): with rounding `b` is filed in cell 7 and is within the
radius by the computed distance, but `max_gc.x` is 6, so the cell of `b` is not scanned;
exact arithmetic gives cell 6 and `max_gc.x = 6`. -/
theorem float_rounding_examples :
    (roundF32 f07 = f07 ∧ roundF32 f01 = f01 ∧ roundF32 (7 / 10) = f07 ∧
      roundF32 (1 / 10) = f01 ∧
      roundF32 (1 / f01) = 10 ∧ ⌈roundF32 (roundF32 (f07 - 0) / f01)⌉ = 7 ∧
      ⌈(f07 - 0) / f01⌉ = 7 ∧
      (GetGridCellF32 f07 0 0 exFloatGrid) = (⟨7, 0, 0⟩, 7) ∧
      (GetGridCell f07 0 0 exFloatGrid) = (⟨6, 0, 0⟩, 6)) ∧
    (roundF32 exFloatRef.x = exFloatRef.x ∧ roundF32 exFloatQuery.x = exFloatQuery.x ∧
      roundF32 exFloatRadius = exFloatRadius ∧
      0 ≤ (exFloatRef.x - exFloatGrid8.grid_min.x) * exFloatGrid8.grid_delta ∧
      sqDist exFloatRef exFloatQuery ≤ exFloatRadius * exFloatRadius ∧
      sqDistF32 exFloatRef exFloatQuery ≤ roundF32 (exFloatRadius * exFloatRadius) ∧
      (GetGridCellF32 exFloatRef.x exFloatRef.y exFloatRef.z exFloatGrid8).1 = ⟨7, 0, 0⟩ ∧
      (maxGcF32 exFloatGrid8 exFloatQuery exFloatRadius).x = 6 ∧
      (GetGridCell exFloatRef.x exFloatRef.y exFloatRef.z exFloatGrid8).1 = ⟨6, 0, 0⟩ ∧
      (maxGc exFloatGrid8 exFloatQuery exFloatRadius).x = 6) := by
  decide!

end FRNN
